import Mathlib

/-!
# Session provider of skygear-server: the in-memory `MockProvider`

A shallow embedding of `pkg/core/auth/session/provider_mock.go`, followed by
the password principal of `pkg/auth/dependency/principal/password`, the
request signer of `pkg/core/http/httpsigning`, the signup payload of
`pkg/auth/handler/signup.go`, the SSO login handler of
`pkg/auth/handler/sso/login.go`, the schema response of `handler/schema.go`
and the reflection helpers of `pkg/core/marshal/marshal.go`.

* Go strings are `String`, `time.Time` is an integer instant, a nil-able
  pointer or error is an `Option`.
* `map[string]auth.Session` is an association list with unique keys
  (`AList`).  The order of its entries carries no meaning: a `range` statement
  visits the entries in an order of its own, which every looping operation
  receives as a `RangeOrder` of the map it ranges over.
* A method that writes to its receiver returns the provider after the call
  (so does `List`, which only reads it); a method writing through a
  `*auth.Session` argument returns the session after the call.
* A Go `int` is a 64-bit two's complement integer: `counter++` wraps from the
  largest value to the smallest (`wrapInt`).  `fmt.Sprintf` with `%d` renders
  it in decimal, with a leading `-` when it is negative, as `toString` does
  for an `Int`.
* `sort.Sort` and the types of package `auth` are not part of the package; the
  structures below carry the fields that `provider_mock.go` uses.
-/

namespace SkygearSession

/-- Instants of `time.Time`, counted from the zero time. -/
abbrev Time := Int

/-- The `time.Provider` held by the mock: the instant `NowUTC()` reports. -/
structure TimeProvider where
  TimeNowUTC : Time
  deriving DecidableEq, Repr

/-- The method `NowUTC` of the time provider. -/
def TimeProvider.NowUTC (t : TimeProvider) : Time := t.TimeNowUTC

/-- The fields of `auth.Session` that `provider_mock.go` reads or writes. -/
structure Session where
  ID : String
  ClientID : String
  UserID : String
  PrincipalID : String
  PrincipalType : String
  PrincipalUpdatedAt : Time
  AuthenticatorID : String
  AuthenticatorType : String
  AuthenticatorOOBChannel : String
  AuthenticatorUpdatedAt : Option Time
  CreatedAt : Time
  AccessedAt : Time
  AccessTokenHash : String
  AccessTokenCreatedAt : Time
  RefreshTokenHash : String
  deriving DecidableEq, Repr

/-- The fields of `auth.AuthnSession` that `Create` copies into the session. -/
structure AuthnSession where
  ClientID : String
  UserID : String
  PrincipalID : String
  PrincipalType : String
  PrincipalUpdatedAt : Time
  AuthenticatorID : String
  AuthenticatorType : String
  AuthenticatorOOBChannel : String
  AuthenticatorUpdatedAt : Option Time
  deriving DecidableEq, Repr

/-- The fields of `auth.AuthnSessionStepMFAOptions` used by `UpdateMFA`. -/
structure AuthnSessionStepMFAOptions where
  AuthenticatorID : String
  AuthenticatorType : String
  AuthenticatorOOBChannel : String
  deriving DecidableEq, Repr

/-- The fields of `auth.SessionTokens` that `Create` fills. -/
structure SessionTokens where
  ID : String
  AccessToken : String
  deriving DecidableEq, Repr

/-- The string type `auth.SessionTokenKind`: its two named constants, and any
other value of the type. -/
inductive SessionTokenKind where
  | SessionTokenKindAccessToken
  | SessionTokenKindRefreshToken
  | unnamed (raw : String)
  deriving DecidableEq, Repr

/-- Go `error` values: the package's `ErrSessionNotFound`, or another error
(as returned by a `beforeCreate` callback). -/
inductive GoError where
  | ErrSessionNotFound
  | other (msg : String)
  deriving DecidableEq, Repr

/-- Entries of `map[string]auth.Session`. -/
abbrev Entry := Sigma (fun _ : String => Session)

/-- The type `map[string]auth.Session`. -/
abbrev SessionMap := AList (fun _ : String => Session)

/-- The largest value of a Go `int`, `math.MaxInt64`. -/
def maxInt : Int := 9223372036854775807

/-- The smallest value of a Go `int`, `math.MinInt64`. -/
def minInt : Int := -9223372036854775808

/-- The value of type `int` that the result of an integer operation denotes:
the result taken modulo `2^64` into the range from `minInt` to `maxInt`. -/
def wrapInt (x : Int) : Int :=
  (x + 9223372036854775808) % 18446744073709551616 - 9223372036854775808

/-- The struct `MockProvider`.  The counter is a Go `int`; it starts at zero
and `counter++` adds one with wrap-around, so its values lie between `minInt`
and `maxInt`. -/
structure MockProvider where
  Time : TimeProvider
  counter : Int
  Sessions : SessionMap
  deriving DecidableEq

/-- An order in which one `range` statement may visit the entries of `m`:
any arrangement of the entries. -/
def RangeOrder (m : SessionMap) : Type := { order : List Entry // order.Perm m.entries }

/-- The order in which the entries happen to be stored. -/
def RangeOrder.stored (m : SessionMap) : RangeOrder m := ⟨m.entries, List.Perm.refl _⟩

/-- The stored order read backwards: another order a `range` may take. -/
def RangeOrder.reversed (m : SessionMap) : RangeOrder m :=
  ⟨m.entries.reverse, List.reverse_perm _⟩

/-- The type `sessionSlice`, a slice of sessions. -/
abbrev sessionSlice := List Session

/-- The constructor `NewMockProvider`: the zero clock, counter zero, an empty map. -/
def NewMockProvider : MockProvider :=
  { Time := { TimeNowUTC := 0 }, counter := 0, Sessions := ∅ }

/-- The call `fmt.Sprintf("%s-%s-%d", userID, principalID, counter)`. -/
def sessionIDFormat (userID principalID : String) (counter : Int) : String :=
  userID ++ "-" ++ principalID ++ "-" ++ toString counter

/-- The call `fmt.Sprintf("access-token-%s-%d", id, counter)`. -/
def accessTokenFormat (id : String) (counter : Int) : String :=
  "access-token-" ++ id ++ "-" ++ toString counter

/-- What `Create` returns, with the provider after the call. -/
structure CreateResult where
  provider : MockProvider
  session : Option Session
  tokens : SessionTokens
  err : Option GoError

/-- The method `MockProvider.Create`.  `beforeCreate` is `none` for a nil callback;
a callback may rewrite the session and may fail. -/
def MockProvider.Create (p : MockProvider) (authnSess : AuthnSession)
    (beforeCreate : Option (Session → Session × Option GoError)) : CreateResult :=
  let now := p.Time.NowUTC
  let id := sessionIDFormat authnSess.UserID authnSess.PrincipalID p.counter
  let sess : Session :=
    { ID := id
      ClientID := authnSess.ClientID
      UserID := authnSess.UserID
      PrincipalID := authnSess.PrincipalID
      PrincipalType := authnSess.PrincipalType
      PrincipalUpdatedAt := authnSess.PrincipalUpdatedAt
      AuthenticatorID := authnSess.AuthenticatorID
      AuthenticatorType := authnSess.AuthenticatorType
      AuthenticatorOOBChannel := authnSess.AuthenticatorOOBChannel
      AuthenticatorUpdatedAt := authnSess.AuthenticatorUpdatedAt
      CreatedAt := now
      AccessedAt := now
      AccessTokenHash := "access-token-" ++ id
      AccessTokenCreatedAt := now
      RefreshTokenHash := "" }
  let tok : SessionTokens := { ID := id, AccessToken := "access-token-" ++ id }
  let p1 : MockProvider := { p with counter := wrapInt (p.counter + 1) }
  match beforeCreate with
  | some callback =>
    match callback sess with
    | (_, some err) => { provider := p1, session := none, tokens := tok, err := some err }
    | (sess1, none) =>
      { provider := { p1 with Sessions := p1.Sessions.insert sess1.ID sess1 }
        session := some sess1, tokens := tok, err := none }
  | none =>
    { provider := { p1 with Sessions := p1.Sessions.insert sess.ID sess }
      session := some sess, tokens := tok, err := none }

/-- The loop of `GetByToken` over the entries in the order the `range`
statement visits them. -/
def MockProvider.GetByTokenLoop (token : String) (kind : SessionTokenKind) :
    List Entry → Option Session × Option GoError
  | [] => (none, some GoError.ErrSessionNotFound)
  | ⟨_, s⟩ :: rest =>
    match kind with
    | SessionTokenKind.SessionTokenKindAccessToken =>
      if s.AccessTokenHash ≠ token then MockProvider.GetByTokenLoop token kind rest
      else (some s, none)
    | SessionTokenKind.SessionTokenKindRefreshToken =>
      if s.RefreshTokenHash ≠ token then MockProvider.GetByTokenLoop token kind rest
      else (some s, none)
    | SessionTokenKind.unnamed _ => MockProvider.GetByTokenLoop token kind rest

/-- The method `MockProvider.GetByToken`. -/
def MockProvider.GetByToken (p : MockProvider) (r : RangeOrder p.Sessions) (token : String)
    (kind : SessionTokenKind) : Option Session × Option GoError :=
  MockProvider.GetByTokenLoop token kind r.val

/-- The method `MockProvider.Get`. -/
def MockProvider.Get (p : MockProvider) (id : String) : Option Session × Option GoError :=
  match p.Sessions.lookup id with
  | none => (none, some GoError.ErrSessionNotFound)
  | some session => (some session, none)

/-- What a method that writes through its session argument returns. -/
structure UpdateResult where
  provider : MockProvider
  session : Session
  err : Option GoError

/-- The method `MockProvider.Access`. -/
def MockProvider.Access (p : MockProvider) (s : Session) : UpdateResult :=
  let s1 : Session := { s with AccessedAt := p.Time.NowUTC }
  { provider := { p with Sessions := p.Sessions.insert s1.ID s1 }, session := s1, err := none }

/-- The method `MockProvider.Invalidate`. -/
def MockProvider.Invalidate (p : MockProvider) (session : Session) :
    MockProvider × Option GoError :=
  ({ p with Sessions := p.Sessions.erase session.ID }, none)

/-- The method `MockProvider.InvalidateBatch`. -/
def MockProvider.InvalidateBatch (p : MockProvider) (sessions : List Session) :
    MockProvider × Option GoError :=
  (sessions.foldl (fun q session => { q with Sessions := q.Sessions.erase session.ID }) p, none)

/-- The loop of `InvalidateAll`.  An entry that an earlier iteration deleted
before the loop reached it is not visited. -/
def MockProvider.InvalidateAllLoop (userID sessionID : String) :
    List Entry → SessionMap → SessionMap
  | [], m => m
  | ⟨key, session⟩ :: rest, m =>
    if m.lookup key = none then MockProvider.InvalidateAllLoop userID sessionID rest m
    else if session.UserID = userID ∧ session.ID ≠ sessionID then
      MockProvider.InvalidateAllLoop userID sessionID rest (m.erase session.ID)
    else MockProvider.InvalidateAllLoop userID sessionID rest m

/-- The method `MockProvider.InvalidateAll`. -/
def MockProvider.InvalidateAll (p : MockProvider) (r : RangeOrder p.Sessions)
    (userID sessionID : String) : MockProvider × Option GoError :=
  ({ p with Sessions := MockProvider.InvalidateAllLoop userID sessionID r.val p.Sessions }, none)

/-- What `Refresh` returns, with the provider and the session after the call. -/
structure RefreshResult where
  provider : MockProvider
  session : Session
  token : String
  err : Option GoError

/-- The method `MockProvider.Refresh`. -/
def MockProvider.Refresh (p : MockProvider) (session : Session) : RefreshResult :=
  let session1 : Session :=
    { session with AccessTokenHash := accessTokenFormat session.ID p.counter }
  { provider :=
      { p with Sessions := p.Sessions.insert session1.ID session1
               counter := wrapInt (p.counter + 1) }
    session := session1
    token := session1.AccessTokenHash
    err := none }

/-- The method `MockProvider.UpdateMFA`. -/
def MockProvider.UpdateMFA (p : MockProvider) (sess : Session)
    (opts : AuthnSessionStepMFAOptions) : UpdateResult :=
  let now := p.Time.NowUTC
  let sess1 : Session :=
    { sess with
      AuthenticatorID := opts.AuthenticatorID
      AuthenticatorType := opts.AuthenticatorType
      AuthenticatorOOBChannel := opts.AuthenticatorOOBChannel
      AuthenticatorUpdatedAt := some now }
  { provider := { p with Sessions := p.Sessions.insert sess1.ID sess1 }, session := sess1
    err := none }

/-- The method `MockProvider.UpdatePrincipal`. -/
def MockProvider.UpdatePrincipal (p : MockProvider) (sess : Session) (principalID : String) :
    UpdateResult :=
  let sess1 : Session := { sess with PrincipalID := principalID }
  { provider := { p with Sessions := p.Sessions.insert sess1.ID sess1 }, session := sess1
    err := none }

/-! ## Decimal numerals, driven providers, listings: auxiliary definitions -/

/-- The value of a decimal digit character. -/
def digitValue (c : Char) : Nat := c.toNat - 48

/-- The number a list of decimal digit characters denotes. -/
def decimalValue (l : List Char) : Nat := l.foldl (fun a c => a * 10 + digitValue c) 0

/-- A string ends with a dash followed by the decimal numeral of `c`. -/
def EndsWithCounter (t : String) (c : Nat) : Prop :=
  ∃ front : List Char, t.data = front ++ '-' :: Nat.toDigits 10 c

/-- The token a session carries for a kind: what `GetByToken` compares the
presented token with.  A kind other than the two named ones has none. -/
def tokenOfKind (kind : SessionTokenKind) (s : Session) : Option String :=
  match kind with
  | SessionTokenKind.SessionTokenKindAccessToken => some s.AccessTokenHash
  | SessionTokenKind.SessionTokenKindRefreshToken => some s.RefreshTokenHash
  | SessionTokenKind.unnamed _ => none

/-- One step of a caller that drives a provider.  The caller keeps the session
pointers that `Create` returned (`issued`, newest first) and may pass them, or
any session value of its own making, to `Refresh` and `Invalidate`; the clock
may move between calls. -/
inductive Call where
  | Create (authnSess : AuthnSession)
  | Refresh (i : Nat)
  | Invalidate (i : Nat)
  | RefreshValue (s : Session)
  | InvalidateValue (s : Session)
  | AdvanceClock (now : Time)

/-- A provider together with the session pointers its caller holds. -/
structure Driven where
  provider : MockProvider
  issued : List Session

/-- The effect of one call.  `Create` is called with a nil `beforeCreate`, and
the returned pointer is kept; `Refresh` writes through the pointer it gets. -/
def Driven.step (d : Driven) : Call → Driven
  | Call.Create authnSess =>
    match (d.provider.Create authnSess none).session with
    | some sess => { provider := (d.provider.Create authnSess none).provider
                     issued := sess :: d.issued }
    | none => { d with provider := (d.provider.Create authnSess none).provider }
  | Call.Refresh i =>
    match d.issued[i]? with
    | some s => { provider := (d.provider.Refresh s).provider
                  issued := d.issued.set i (d.provider.Refresh s).session }
    | none => d
  | Call.Invalidate i =>
    match d.issued[i]? with
    | some s => { d with provider := (d.provider.Invalidate s).1 }
    | none => d
  | Call.RefreshValue s => { d with provider := (d.provider.Refresh s).provider }
  | Call.InvalidateValue s => { d with provider := (d.provider.Invalidate s).1 }
  | Call.AdvanceClock now => { d with provider := { d.provider with Time := { TimeNowUTC := now } } }

/-- A provider built by `NewMockProvider` after the given calls, in order. -/
def Driven.run (calls : List Call) : Driven :=
  calls.foldl Driven.step { provider := NewMockProvider, issued := [] }

/-- Whether a call is a `Create`. -/
def Call.isCreate : Call → Bool
  | Call.Create _ => true
  | _ => false

/-- Whether a call advances the counter: `Create` and `Refresh` do.  A `Refresh`
on a pointer the caller does not hold is no call at all and is counted all the
same. -/
def Call.advances : Call → Bool
  | Call.Create _ => true
  | Call.Refresh _ => true
  | Call.RefreshValue _ => true
  | _ => false

/-- What holds of a provider driven from `NewMockProvider` while the counter
has not wrapped around: the counter is not negative; stored sessions sit under
their own id; every access token in the map and every id and access token a
caller holds ends with a counter value already used; a token a caller holds
is stored, if at all, under that session's id; and the ids issued so far are
pairwise different. -/
structure Driven.Inv (d : Driven) : Prop where
  counter_nonneg : 0 ≤ d.provider.counter
  keyed : ∀ e ∈ d.provider.Sessions.entries, e.2.ID = e.1
  stored_token : ∀ e ∈ d.provider.Sessions.entries,
    ∃ c : Nat, (c : Int) < d.provider.counter ∧ EndsWithCounter e.2.AccessTokenHash c
  issued_id : ∀ h ∈ d.issued,
    ∃ c : Nat, (c : Int) < d.provider.counter ∧ EndsWithCounter h.ID c
  issued_token : ∀ h ∈ d.issued,
    ∃ c : Nat, (c : Int) < d.provider.counter ∧ EndsWithCounter h.AccessTokenHash c
  issued_owner : ∀ h ∈ d.issued, ∀ e ∈ d.provider.Sessions.entries,
    e.2.AccessTokenHash = h.AccessTokenHash → e.1 = h.ID
  issued_nodup : (d.issued.map Session.ID).Nodup

/-- A sign-in request used in the examples: user `u1`, principal `p1`. -/
def sampleAuthn : AuthnSession :=
  { ClientID := "", UserID := "u1", PrincipalID := "p1", PrincipalType := "password"
    PrincipalUpdatedAt := 0, AuthenticatorID := "", AuthenticatorType := ""
    AuthenticatorOOBChannel := "", AuthenticatorUpdatedAt := none }

/-- The session `Create` issues for `sampleAuthn` on a new provider. -/
def sampleSession : Session :=
  { ID := "u1-p1-0", ClientID := "", UserID := "u1", PrincipalID := "p1"
    PrincipalType := "password", PrincipalUpdatedAt := 0, AuthenticatorID := ""
    AuthenticatorType := "", AuthenticatorOOBChannel := "", AuthenticatorUpdatedAt := none
    CreatedAt := 0, AccessedAt := 0, AccessTokenHash := "access-token-u1-p1-0"
    AccessTokenCreatedAt := 0, RefreshTokenHash := "" }

/-- Modelled from the spec: the method `Less` of `sessionSlice`, which is
declared in a file of the package that is not among the sources.  The spec
orders a listing "by creation time, ties broken by identifier"; identifiers
compare as Go strings do, character by character. -/
def sessionSlice.Less (a b : Session) : Bool :=
  decide (a.CreatedAt < b.CreatedAt ∨ (a.CreatedAt = b.CreatedAt ∧ a.ID.toList < b.ID.toList))

/-- The library call `sort.Sort(sessionSlice(sessions))`: an insertion sort,
which is what the library runs on short slices.  It moves an element in front
of another only when `Less` says so. -/
def sortSort (sessions : sessionSlice) : sessionSlice :=
  List.insertionSort (fun a b => sessionSlice.Less b a = false) sessions

/-- What `List` returns, with the provider after the call. -/
structure ListResult where
  provider : MockProvider
  sessions : sessionSlice
  err : Option GoError

/-- The loop of `List`: a copy of each visited session of the user is appended. -/
def MockProvider.ListLoop (userID : String) : List Entry → sessionSlice → sessionSlice
  | [], sessions => sessions
  | ⟨_, session⟩ :: rest, sessions =>
    if session.UserID = userID then MockProvider.ListLoop userID rest (sessions ++ [session])
    else MockProvider.ListLoop userID rest sessions

/-- The method `MockProvider.List`. -/
def MockProvider.List (p : MockProvider) (r : RangeOrder p.Sessions) (userID : String) :
    ListResult :=
  { provider := p, sessions := sortSort (MockProvider.ListLoop userID r.val []), err := none }

/-- The stored sessions of a user, in the order the entries are stored. -/
def sessionsOf (p : MockProvider) (userID : String) : sessionSlice :=
  (p.Sessions.entries.map (fun e => e.2)).filter (fun s => s.UserID = userID)

/-- Every session of the map is stored under its own id. -/
def MockProvider.Keyed (p : MockProvider) : Prop :=
  ∀ k s, p.Sessions.lookup k = some s → s.ID = k

/-- The pair a listing is ordered by: creation time, then identifier. -/
def sortKey (s : Session) : Lex (Time × List Char) := toLex (s.CreatedAt, s.ID.toList)

/-- A session of user `u` stored under a key that is not its id. -/
def strayFirst : Session := { sampleSession with ID := "x", UserID := "u", PrincipalID := "p1" }

/-- Another session of user `u` with the same id and creation time. -/
def straySecond : Session := { sampleSession with ID := "x", UserID := "u", PrincipalID := "p2" }

/-- A provider whose map was filled in directly, with two sessions of one id
under two keys. -/
def strayProvider : MockProvider :=
  { Time := { TimeNowUTC := 0 }, counter := 0
    Sessions := (AList.insert "k1" strayFirst (AList.insert "k2" straySecond ∅)) }

/-- A provider on which `Create` ran twice for `sampleAuthn`. -/
def twiceProvider : MockProvider :=
  (Driven.run [Call.Create sampleAuthn, Call.Create sampleAuthn]).provider

/-- A provider with the clock at 100 that holds `sampleSession`, created at 0. -/
def laterProvider : MockProvider :=
  (Driven.run [Call.Create sampleAuthn, Call.AdvanceClock 100]).provider

/-! ## Bulk invalidation, stale copies, identifiers as tokens: auxiliary definitions -/

/-- The provider after `Invalidate` has been called on each session of the
list in turn. -/
def InvalidateEach (p : MockProvider) (sessions : List Session) : MockProvider :=
  sessions.foldl (fun q session => (q.Invalidate session).1) p

/-! ## Stale copies and identifiers as tokens: auxiliary definitions -/

/-- A provider in which the stored copy of `sampleSession` was accessed at
time 100, while a caller still holds `sampleSession` as it was created. -/
def accessedProvider : MockProvider := (laterProvider.Access sampleSession).provider

/-- Whether a call hands `Refresh` no refresh-token digest of the caller's own
making: calls on the pointers `Create` issued never do, and `Refresh` on a
session value does not when that value has an empty `RefreshTokenHash`. -/
def Call.noRefreshToken : Call → Bool
  | Call.RefreshValue s => s.RefreshTokenHash == ""
  | _ => true

/-- What holds in addition of a provider driven by such calls: no stored access
token is the id of an issued session, and no session, stored or held, carries
a refresh-token digest. -/
structure Driven.IdInv (d : Driven) : Prop where
  token_ne_id : ∀ h ∈ d.issued, ∀ e ∈ d.provider.Sessions.entries, e.2.AccessTokenHash ≠ h.ID
  stored_no_refresh : ∀ e ∈ d.provider.Sessions.entries, e.2.RefreshTokenHash = ""
  issued_no_refresh : ∀ h ∈ d.issued, h.RefreshTokenHash = ""

/-- The session the second `Create` for `sampleAuthn` issues. -/
def sampleSecond : Session :=
  { sampleSession with ID := "u1-p1-1", AccessTokenHash := "access-token-u1-p1-1" }

/-- A session of a caller's own making whose refresh-token digest is the id of
the session `Create` issues for `sampleAuthn` on a new provider. -/
def ghostSession : Session :=
  { sampleSession with ID := "ghost", UserID := "mallory", RefreshTokenHash := "u1-p1-0" }

/-! ## Runs that reach the largest counter value: auxiliary definitions -/

/-- The session of `sampleAuthn` after a `Refresh` at the given counter value. -/
def refreshedSample (c : Int) : Session :=
  { sampleSession with AccessTokenHash := accessTokenFormat "u1-p1-0" c }

/-- A provider that holds only that session, and its caller, right after that
`Refresh`. -/
def refreshedDriven (c : Int) : Driven :=
  { provider :=
      { Time := { TimeNowUTC := 0 }, counter := wrapInt (c + 1)
        Sessions := AList.insert "u1-p1-0" (refreshedSample c) ∅ }
    issued := [refreshedSample c] }

/-- A run that takes the counter to the largest `int`: `Create` for
`sampleAuthn`, then `Refresh` on the issued pointer `2^63 - 2` times. -/
def brinkRun : List Call :=
  Call.Create sampleAuthn :: Call.Refresh 0
    :: List.replicate 9223372036854775805 (Call.Refresh 0)

/-- A sign-in request for user `x` and principal `y`. -/
def dashAuthn : AuthnSession := { sampleAuthn with UserID := "x", PrincipalID := "y" }

/-- A sign-in request for user `x` and principal `y-`. -/
def dashEndAuthn : AuthnSession := { sampleAuthn with UserID := "x", PrincipalID := "y-" }

/-- A sign-in request for user `access-token-x` and principal `y-`. -/
def tokenLikeAuthn : AuthnSession :=
  { sampleAuthn with UserID := "access-token-x", PrincipalID := "y-" }

/-- A sign-in request for user `u1` and principal `p1-0-`. -/
def zeroDashAuthn : AuthnSession := { sampleAuthn with PrincipalID := "p1-0-" }

/-- A session of a caller's own making with the id `x-y-`. -/
def dashGhost : Session := { sampleSession with ID := "x-y-", UserID := "x", PrincipalID := "y" }

/-! ## Password principals (`pkg/auth/dependency/principal/password`) -/

/-- A value held in a Go `interface{}`: a string, a byte slice, or a value of
some other type. -/
inductive GoValue where
  | string (s : String)
  | bytes (b : List (Fin 256))
  | other (description : String)
  deriving DecidableEq, Repr

/-- The map type `map[string]interface{}` behind `principal.Attributes` and
`principal.Claims`. -/
abbrev ValueMap := AList (fun _ : String => GoValue)

/-- The struct `Principal` of package `password`.  A nil `ClaimsValue` is
`none`. -/
structure password.Principal where
  ID : String
  UserID : String
  LoginIDKey : String
  LoginID : String
  Realm : String
  HashedPassword : List (Fin 256)
  ClaimsValue : Option ValueMap
  deriving DecidableEq

/-- The interface `loginIDChecker`, as far as `deriveClaims` uses it: the
method `standardKey`, which returns a standard key and whether there is one. -/
structure password.loginIDChecker where
  standardKey : String → String × Bool

/-- The constant `providerPassword`. -/
def password.providerPassword : String := "password"

/-- The method `deriveClaims`: the principal after the call. -/
def password.Principal.deriveClaims (p : password.Principal)
    (checker : password.loginIDChecker) : password.Principal :=
  match checker.standardKey p.LoginIDKey with
  | (standardKey, hasStandardKey) =>
    let claimsValue : ValueMap := ∅
    let claimsValue : ValueMap :=
      if hasStandardKey then claimsValue.insert standardKey (GoValue.string p.LoginID)
      else claimsValue
    { p with ClaimsValue := some claimsValue }

/-- The method `PrincipalID`. -/
def password.Principal.PrincipalID (p : password.Principal) : String := p.ID

/-- The method `PrincipalUserID`. -/
def password.Principal.PrincipalUserID (p : password.Principal) : String := p.UserID

/-- The method `ProviderID`. -/
def password.Principal.ProviderID (_p : password.Principal) : String :=
  password.providerPassword

/-- The method `Attributes`: a map literal of three entries. -/
def password.Principal.Attributes (p : password.Principal) : ValueMap :=
  AList.insert "realm" (GoValue.string p.Realm)
    (AList.insert "login_id" (GoValue.string p.LoginID)
      (AList.insert "login_id_key" (GoValue.string p.LoginIDKey) ∅))

/-- The method `Claims`. -/
def password.Principal.Claims (p : password.Principal) : Option ValueMap := p.ClaimsValue

/-! ## Request signing (`pkg/core/http/httpsigning`) -/

/-- Modelled from the spec: the errors of package `httpsigning`, of which only
the test file is among the sources; the spec names `InvalidSignature` and
`ExpiredSignature`. -/
inductive httpsigning.Error where
  | ErrInvalidSignature
  | ErrExpiredSignature
  deriving DecidableEq, Repr

/-- Modelled from the spec: a message as the signer sees it, "the set of
query/header fields covered by a signature, the signing timestamp, and the
declared validity window (seconds)", with the attached digest.  What is not
attached is `none`. -/
structure httpsigning.Request where
  fields : List (String × String)
  signature : Option String
  timestamp : Option Time
  validity : Option Int
  deriving DecidableEq, Repr

/-- Modelled from the spec: the two primitives the spec leaves open, "a keyed
digest (HMAC over a stable canonical encoding)": the canonical encoding of the
signable fields plus the timestamp, and the keyed digest. -/
structure httpsigning.Scheme where
  encode : List (String × String) → Time → String
  hmac : List (Fin 256) → String → String

/-- Modelled from the spec: `Sign(key, message, timestamp, validity_seconds)`
"serializes the message's signable fields plus the timestamp, computes a keyed
digest, and attaches digest + timestamp to the message without mutating any
pre-existing signable field".  Instants count seconds here. -/
def httpsigning.Sign (scheme : httpsigning.Scheme) (key : List (Fin 256))
    (r : httpsigning.Request) (t : Time) (validity : Int) : httpsigning.Request :=
  { r with
    signature := some (scheme.hmac key (scheme.encode r.fields t))
    timestamp := some t
    validity := some validity }

/-- Modelled from the spec: `Verify(key, message, now)` "recomputes the digest
over the same canonical encoding extracted from the message, compares against
the attached digest, and separately checks now - timestamp <= validity_seconds.
Fails with InvalidSignature on digest mismatch, ExpiredSignature on stale
timestamp".  A message with nothing attached has no matching digest. -/
def httpsigning.Verify (scheme : httpsigning.Scheme) (key : List (Fin 256))
    (r : httpsigning.Request) (now : Time) : Option httpsigning.Error :=
  match r.signature, r.timestamp, r.validity with
  | some digest, some t, some validity =>
    if scheme.hmac key (scheme.encode r.fields t) ≠ digest then
      some httpsigning.Error.ErrInvalidSignature
    else if now - t > validity then some httpsigning.Error.ErrExpiredSignature
    else none
  | _, _, _ => some httpsigning.Error.ErrInvalidSignature

/-- A toy scheme for the examples: the encoding lists the fields and the
timestamp, the digest is the key's length followed by the encoding. -/
def sampleScheme : httpsigning.Scheme :=
  { encode := fun fields t =>
      String.join (fields.map (fun f => f.1 ++ "=" ++ f.2 ++ "&")) ++ toString t
    hmac := fun key message => toString key.length ++ ":" ++ message }

/-- The request of the test, `GET https://example.com/`. -/
def sampleRequest : httpsigning.Request :=
  { fields := [("host", "example.com")], signature := none, timestamp := none
    validity := none }

/-! ## Errors of `skyerr` and the signup payload (`pkg/auth/handler/signup.go`) -/

/-- The error codes of package `skyerr` that the handlers here use. -/
inductive skyerr.ErrorCode where
  | InvalidArgument
  | UndefinedOperation
  | Duplicated
  deriving DecidableEq, Repr

/-- Errors as the handlers make or pass them on: the two constructors of
package `skyerr` used here, or an error value made elsewhere. -/
inductive skyerr.Error where
  | NewError (code : skyerr.ErrorCode) (message : String)
  | NewInvalidArgument (message : String) (arguments : List String)
  | foreign (description : String)
  deriving DecidableEq, Repr

/-- The struct `SignupRequestPayload`. -/
structure SignupRequestPayload where
  LoginIDs : AList (fun _ : String => String)
  Password : String
  RawProfile : ValueMap

/-- The builtin `len` on a map of login ids. -/
def SignupRequestPayload.lenLoginIDs (p : SignupRequestPayload) : Nat :=
  p.LoginIDs.entries.length

/-- The method `isAnonymous`. -/
def SignupRequestPayload.isAnonymous (p : SignupRequestPayload) : Bool :=
  p.lenLoginIDs == 0 && p.Password == ""

/-- The method `Validate`. -/
def SignupRequestPayload.Validate (p : SignupRequestPayload) : Option skyerr.Error :=
  if p.isAnonymous then none
  else if p.lenLoginIDs == 0 then
    some (skyerr.Error.NewInvalidArgument "empty login_id" ["login_id"])
  else if p.Password == "" then
    some (skyerr.Error.NewInvalidArgument "empty password" ["password"])
  else none

/-! ## Create with a callback: auxiliary definitions -/

/-- The session that `Create` builds before it runs the callback. -/
def createdSession (p : MockProvider) (authnSess : AuthnSession) : Session :=
  { ID := sessionIDFormat authnSess.UserID authnSess.PrincipalID p.counter
    ClientID := authnSess.ClientID
    UserID := authnSess.UserID
    PrincipalID := authnSess.PrincipalID
    PrincipalType := authnSess.PrincipalType
    PrincipalUpdatedAt := authnSess.PrincipalUpdatedAt
    AuthenticatorID := authnSess.AuthenticatorID
    AuthenticatorType := authnSess.AuthenticatorType
    AuthenticatorOOBChannel := authnSess.AuthenticatorOOBChannel
    AuthenticatorUpdatedAt := authnSess.AuthenticatorUpdatedAt
    CreatedAt := p.Time.NowUTC
    AccessedAt := p.Time.NowUTC
    AccessTokenHash :=
      "access-token-" ++ sessionIDFormat authnSess.UserID authnSess.PrincipalID p.counter
    AccessTokenCreatedAt := p.Time.NowUTC
    RefreshTokenHash := "" }

/-- A callback that rejects every session. -/
def rejectingCallback : Session → Session × Option GoError :=
  fun s => (s, some (GoError.other "rejected"))

/-- A callback that moves the session to another id and accepts it. -/
def renamingCallback : Session → Session × Option GoError :=
  fun s => ({ s with ID := "renamed" }, none)



/-! ## SSO login with an external access token (`pkg/auth/handler/sso/login.go`) -/

/-- The struct `LoginRequestPayload`. -/
structure sso.LoginRequestPayload where
  AccessToken : String
  MergeRealm : String
  OnUserDuplicate : String
  deriving DecidableEq, Repr

/-- The struct `sso.LoginState` as `Handle` fills it. -/
structure sso.LoginState where
  MergeRealm : String
  OnUserDuplicate : String
  deriving DecidableEq, Repr

/-- The struct `LoginHandler` as far as `Handle` reads it.  What `Handle` calls
outside its file is a field here and acts on a `World`, the state of
everything outside (stores, sessions, the identity provider):
`Provider` is `some` when `h.Provider` implements
`sso.ExternalAccessTokenFlowProvider` and then holds its method
`ExternalAccessTokenGetAuthInfo`; `loginActionResp` is the method of
`respHandler`; `zeroAuthResponse` is the zero `model.AuthResponse`. -/
structure sso.LoginHandler (World AuthInfo AuthResponse TokenResp : Type) where
  ExternalAccessTokenFlowEnabled : Bool
  Provider : Option (TokenResp → World → (AuthInfo × Option skyerr.Error) × World)
  ProviderID : String
  NewBearerAccessTokenResp : String → TokenResp
  loginActionResp :
    AuthInfo → sso.LoginState → World → (AuthResponse × Option skyerr.Error) × World
  zeroAuthResponse : AuthResponse

/-- The method `LoginHandler.Handle`: the response, the error and the world
after the call. -/
def sso.LoginHandler.Handle {World AuthInfo AuthResponse TokenResp : Type}
    (h : sso.LoginHandler World AuthInfo AuthResponse TokenResp)
    (payload : sso.LoginRequestPayload) (w : World) :
    (AuthResponse × Option skyerr.Error) × World :=
  if !h.ExternalAccessTokenFlowEnabled then
    ((h.zeroAuthResponse,
      some (skyerr.Error.NewError skyerr.ErrorCode.UndefinedOperation
        "External access token flow is disabled")), w)
  else
    match h.Provider with
    | none =>
      ((h.zeroAuthResponse,
        some (skyerr.Error.NewInvalidArgument "Provider is not supported" [h.ProviderID])), w)
    | some provider =>
      let loginState : sso.LoginState :=
        { MergeRealm := payload.MergeRealm, OnUserDuplicate := payload.OnUserDuplicate }
      match provider (h.NewBearerAccessTokenResp payload.AccessToken) w with
      | ((_, some err), w1) => ((h.zeroAuthResponse, some err), w1)
      | ((oauthAuthInfo, none), w1) => h.loginActionResp oauthAuthInfo loginState w1

/-! ## Schema response (`handler/schema.go`) -/

/-- The call `strings.HasPrefix(s, lead)`. -/
def strings.HasPrefix (s lead : String) : Bool :=
  s.toList.take lead.length == lead.toList

/-- The call `strings.Compare(a, b)`: the order of Go strings, byte by byte,
which for text is the order character by character. -/
def strings.Compare (a b : String) : Int :=
  if a.toList < b.toList then -1 else if a = b then 0 else 1

/-- The struct `schemaField`. -/
structure schemaField where
  Name : String
  TypeName : String
  deriving DecidableEq, Repr

/-- The struct `schemaFieldList`. -/
structure schemaFieldList where
  Fields : List schemaField
  deriving DecidableEq, Repr

/-- The method `Less` of `schemaFieldList`, on the two fields at the indices. -/
def schemaFieldList.Less (a b : schemaField) : Bool :=
  decide (strings.Compare a.Name b.Name < 0)

/-- The call `sort.Sort(fieldList)`: an insertion sort, as the library runs on
short slices; it moves a field in front of another only when `Less` says so. -/
def sortFields (fields : List schemaField) : List schemaField :=
  List.insertionSort (fun a b => schemaFieldList.Less b a = false) fields

/-- The struct `schemaResponse`. -/
structure schemaResponse where
  Schemas : AList (fun _ : String => schemaFieldList)

/-- The type `skydb.RecordSchema`, a map from field names to field types; the
field types are whatever `ToSimpleName` is defined on. -/
abbrev RecordSchema (FieldType : Type) := AList (fun _ : String => FieldType)

/-- An order in which one `range` statement may visit the entries of a map
keyed by strings. -/
def MapOrder {β : Type} (m : AList (fun _ : String => β)) : Type :=
  { order : List (Sigma (fun _ : String => β)) // order.Perm m.entries }

/-- The order in which the entries happen to be stored. -/
def MapOrder.stored {β : Type} (m : AList (fun _ : String => β)) : MapOrder m :=
  ⟨m.entries, List.Perm.refl _⟩

/-- The stored order read backwards. -/
def MapOrder.reversed {β : Type} (m : AList (fun _ : String => β)) : MapOrder m :=
  ⟨m.entries.reverse, List.reverse_perm _⟩

/-- The inner loop of `Encode` over the fields of one record schema. -/
def schemaResponse.fieldLoop {FieldType : Type} (ToSimpleName : FieldType → String) :
    List (Sigma (fun _ : String => FieldType)) → List schemaField → List schemaField
  | [], fields => fields
  | ⟨fieldName, val⟩ :: rest, fields =>
    if strings.HasPrefix fieldName "_" then
      schemaResponse.fieldLoop ToSimpleName rest fields
    else
      schemaResponse.fieldLoop ToSimpleName rest
        (fields ++ [{ Name := fieldName, TypeName := ToSimpleName val }])

/-- The outer loop of `Encode` over the record types; `inner` gives the order
in which the fields of each visited schema are ranged over. -/
def schemaResponse.recordLoop {FieldType : Type} (ToSimpleName : FieldType → String)
    (inner : ∀ (_recordType : String) (schema : RecordSchema FieldType), MapOrder schema) :
    List (Sigma (fun _ : String => RecordSchema FieldType)) →
      AList (fun _ : String => schemaFieldList) → AList (fun _ : String => schemaFieldList)
  | [], schemas => schemas
  | ⟨recordType, schema⟩ :: rest, schemas =>
    let fieldList : schemaFieldList :=
      { Fields := sortFields
          (schemaResponse.fieldLoop ToSimpleName (inner recordType schema).val []) }
    schemaResponse.recordLoop ToSimpleName inner rest (schemas.insert recordType fieldList)

/-- The method `schemaResponse.Encode`: the response after the call. -/
def schemaResponse.Encode {FieldType : Type} (ToSimpleName : FieldType → String)
    (data : AList (fun _ : String => RecordSchema FieldType)) (outer : MapOrder data)
    (inner : ∀ (_recordType : String) (schema : RecordSchema FieldType), MapOrder schema) :
    schemaResponse :=
  { Schemas := schemaResponse.recordLoop ToSimpleName inner outer.val ∅ }

/-- The field list `Encode` is to give for a schema: the fields without a
leading underscore, in stored order, before sorting. -/
def visibleFields {FieldType : Type} (ToSimpleName : FieldType → String)
    (order : List (Sigma (fun _ : String => FieldType))) : List schemaField :=
  (order.filter (fun e => !strings.HasPrefix e.1 "_")).map
    (fun e => { Name := e.1, TypeName := ToSimpleName e.2 })

/-! ## Zero values for nil fields (`pkg/core/marshal/marshal.go`)

The two functions walk a value by reflection.  A type is a defined type, which
the declarations of the program say is a struct or not, or a pointer type.  A
value is a tree: a pointer owns what it points to, and a struct gives a value
for every field index.  Both functions receive a pointer; here they receive
the type and the value it points to, and return the value after the call.
Recursion is bounded by `fuel`, and `none` means the fuel ran out. -/

/-- Go types as the functions see them through `reflect`. -/
inductive marshal.GoType where
  | named (name : String)
  | pointer (elem : marshal.GoType)
  deriving DecidableEq, Repr

/-- The text `Type.String()` gives, used as `typeName`. -/
def marshal.typeName : marshal.GoType → String
  | marshal.GoType.named name => name
  | marshal.GoType.pointer elem => "*" ++ marshal.typeName elem

/-- One field of a struct type, as `t.Field(i)` gives it: its name, the value
of the key `default_zero_value` in its tag, and its type. -/
structure marshal.StructField where
  Name : String
  zerovalueTag : String
  FieldType : marshal.GoType
  deriving DecidableEq, Repr

/-- The struct types a program declares, each with its fields. -/
abbrev marshal.Decls := List (String × List marshal.StructField)

/-- The fields of the struct type of that name; `none` when the named type is
not a struct (`t.Kind() != reflect.Struct`). -/
def marshal.structFields : marshal.Decls → String → Option (List marshal.StructField)
  | [], _ => none
  | (declared, fields) :: rest, name =>
    if name = declared then some fields else marshal.structFields rest name

/-- Go values as trees. -/
inductive marshal.Value where
  | nil
  | ptr (elem : marshal.Value)
  | struct (field : Nat → marshal.Value)
  | other (nonzero : Option String)

/-- The fields of a struct value, `v.Field(i)`. -/
def marshal.Value.fields : marshal.Value → Nat → marshal.Value
  | marshal.Value.struct field => field
  | _ => fun _ => marshal.Value.nil

/-- The zero value of a field of the given type. -/
def marshal.zeroField : marshal.GoType → marshal.Value
  | marshal.GoType.pointer _ => marshal.Value.nil
  | marshal.GoType.named _ => marshal.Value.other none

/-- The value the pointer `reflect.New(t)` points to: the zero value of `t`. -/
def marshal.zeroValue (decls : marshal.Decls) : marshal.GoType → marshal.Value
  | marshal.GoType.pointer _ => marshal.Value.nil
  | marshal.GoType.named name =>
    match marshal.structFields decls name with
    | some fields =>
      marshal.Value.struct (fun i =>
        match fields[i]? with
        | some f => marshal.zeroField f.FieldType
        | none => marshal.Value.other none)
    | none => marshal.Value.other none

/-- What a pointer field points to once the statements
`ele := field.Elem(); if !ele.IsValid() { ele = reflect.New(ft.Type.Elem()); field.Set(ele) }`
have run: the old target, or a new zero value. -/
def marshal.elemOrNew (decls : marshal.Decls) (elemType : marshal.GoType) :
    marshal.Value → marshal.Value
  | marshal.Value.ptr target => target
  | _ => marshal.zeroValue decls elemType

/-- The loop of `UpdateNilFieldsWithZeroValue` over the fields from index `i`
on; `recurse` is the recursive call. -/
def marshal.updateLoop (recurse : marshal.GoType → marshal.Value → Option marshal.Value)
    (decls : marshal.Decls) :
    List marshal.StructField → Nat → (Nat → marshal.Value) → Option (Nat → marshal.Value)
  | [], _, field => some field
  | f :: rest, i, field =>
    if f.zerovalueTag ≠ "true" then marshal.updateLoop recurse decls rest (i + 1) field
    else
      match f.FieldType with
      | marshal.GoType.pointer elemType =>
        match recurse elemType (marshal.elemOrNew decls elemType (field i)) with
        | none => none
        | some ele =>
          marshal.updateLoop recurse decls rest (i + 1)
            (Function.update field i (marshal.Value.ptr ele))
      | marshal.GoType.named _ => marshal.updateLoop recurse decls rest (i + 1) field

/-- The function `UpdateNilFieldsWithZeroValue`. -/
def marshal.UpdateNilFieldsWithZeroValue (decls : marshal.Decls) :
    Nat → marshal.GoType → marshal.Value → Option marshal.Value
  | 0, _, _ => none
  | fuel + 1, t, v =>
    match t with
    | marshal.GoType.pointer _ => some v
    | marshal.GoType.named name =>
      match marshal.structFields decls name with
      | none => some v
      | some fields =>
        (marshal.updateLoop (marshal.UpdateNilFieldsWithZeroValue decls fuel) decls fields 0
          v.fields).map marshal.Value.struct

/-- The loop of `ShouldNotHaveDuplicatedTypeInSamePath` over the fields from
index `i` on.  The set `pathSet` is the list of its keys; `copySet` followed by
an insertion is a longer list. -/
def marshal.checkLoop
    (recurse : marshal.GoType → marshal.Value → List String → Option (Bool × marshal.Value))
    (decls : marshal.Decls) (pathSet : List String) :
    List marshal.StructField → Nat → (Nat → marshal.Value) →
      Option (Bool × (Nat → marshal.Value))
  | [], _, field => some (true, field)
  | f :: rest, i, field =>
    if f.zerovalueTag ≠ "true" then marshal.checkLoop recurse decls pathSet rest (i + 1) field
    else
      match f.FieldType with
      | marshal.GoType.pointer elemType =>
        if marshal.typeName f.FieldType ∈ pathSet then
          some (false,
            Function.update field i
              (marshal.Value.ptr (marshal.elemOrNew decls elemType (field i))))
        else
          match recurse elemType (marshal.elemOrNew decls elemType (field i))
              (marshal.typeName f.FieldType :: pathSet) with
          | none => none
          | some (pass, ele) =>
            if !pass then some (false, Function.update field i (marshal.Value.ptr ele))
            else
              marshal.checkLoop recurse decls pathSet rest (i + 1)
                (Function.update field i (marshal.Value.ptr ele))
      | marshal.GoType.named _ => marshal.checkLoop recurse decls pathSet rest (i + 1) field

/-- The function `ShouldNotHaveDuplicatedTypeInSamePath`: its result and the
value after the call. -/
def marshal.ShouldNotHaveDuplicatedTypeInSamePath (decls : marshal.Decls) :
    Nat → marshal.GoType → marshal.Value → List String → Option (Bool × marshal.Value)
  | 0, _, _, _ => none
  | fuel + 1, t, v, pathSet =>
    match t with
    | marshal.GoType.pointer _ => some (true, v)
    | marshal.GoType.named name =>
      match marshal.structFields decls name with
      | none => some (true, v)
      | some fields =>
        (marshal.checkLoop (marshal.ShouldNotHaveDuplicatedTypeInSamePath decls fuel) decls
          pathSet fields 0 v.fields).map (fun r => (r.1, marshal.Value.struct r.2))

/-- The type names of all fields of all declared structs. -/
def marshal.fieldTypeNames : marshal.Decls → List String
  | [] => []
  | (_, fields) :: rest =>
    fields.map (fun f => marshal.typeName f.FieldType) ++ marshal.fieldTypeNames rest

/-- A path of tagged pointer fields starting at a type runs into a field whose
type name is already on the path. -/
inductive marshal.DuplicatedOnPath (decls : marshal.Decls) :
    marshal.GoType → List String → Prop where
  | here (name : String) (fields : List marshal.StructField) (f : marshal.StructField)
      (elemType : marshal.GoType) (pathSet : List String) :
      marshal.structFields decls name = some fields → f ∈ fields → f.zerovalueTag = "true" →
      f.FieldType = marshal.GoType.pointer elemType →
      marshal.typeName f.FieldType ∈ pathSet →
      marshal.DuplicatedOnPath decls (marshal.GoType.named name) pathSet
  | deeper (name : String) (fields : List marshal.StructField) (f : marshal.StructField)
      (elemType : marshal.GoType) (pathSet : List String) :
      marshal.structFields decls name = some fields → f ∈ fields → f.zerovalueTag = "true" →
      f.FieldType = marshal.GoType.pointer elemType →
      marshal.DuplicatedOnPath decls elemType (marshal.typeName f.FieldType :: pathSet) →
      marshal.DuplicatedOnPath decls (marshal.GoType.named name) pathSet

/-- The struct reached from a value by following tagged pointer fields with the
given indices, with its type; `none` when the path leaves the value. -/
def marshal.follow (decls : marshal.Decls) :
    List Nat → marshal.GoType → marshal.Value → Option (marshal.GoType × marshal.Value)
  | [], t, v => some (t, v)
  | i :: rest, t, v =>
    match t with
    | marshal.GoType.pointer _ => none
    | marshal.GoType.named name =>
      match marshal.structFields decls name with
      | none => none
      | some fields =>
        match fields[i]? with
        | none => none
        | some f =>
          if f.zerovalueTag = "true" then
            match f.FieldType with
            | marshal.GoType.pointer elemType =>
              match v.fields i with
              | marshal.Value.ptr target => marshal.follow decls rest elemType target
              | _ => none
            | marshal.GoType.named _ => none
          else none

/-- Declarations for the examples: a configuration with a tagged pointer to its
limits, and a list node with a tagged pointer to its own type. -/
def marshal.sampleDecls : marshal.Decls :=
  [("Config",
      [{ Name := "Name", zerovalueTag := "", FieldType := marshal.GoType.named "string" },
       { Name := "Limits", zerovalueTag := "true"
         FieldType := marshal.GoType.pointer (marshal.GoType.named "Limits") }]),
   ("Limits",
      [{ Name := "Max", zerovalueTag := "true"
         FieldType := marshal.GoType.pointer (marshal.GoType.named "int") },
       { Name := "Note", zerovalueTag := "", FieldType := marshal.GoType.named "string" }]),
   ("Node",
      [{ Name := "Next", zerovalueTag := "true"
         FieldType := marshal.GoType.pointer (marshal.GoType.named "Node") }])]

/-- A configuration with a name and a nil pointer to its limits. -/
def marshal.sampleConfig : marshal.Value :=
  marshal.Value.struct (fun i =>
    if i = 0 then marshal.Value.other (some "main") else marshal.Value.nil)

/-- The configuration after `UpdateNilFieldsWithZeroValue`. -/
def marshal.sampleFilled : marshal.Value :=
  match marshal.UpdateNilFieldsWithZeroValue marshal.sampleDecls 3
      (marshal.GoType.named "Config") marshal.sampleConfig with
  | some v => v
  | none => marshal.Value.nil

/-- Limits whose maximum is set to 7, with a note. -/
def marshal.sampleLimits : marshal.Value :=
  marshal.Value.struct (fun i =>
    if i = 0 then marshal.Value.ptr (marshal.Value.other (some "7"))
    else if i = 1 then marshal.Value.other (some "keep") else marshal.Value.nil)

/-- Those limits after `UpdateNilFieldsWithZeroValue`. -/
def marshal.sampleLimitsAfter : marshal.Value :=
  match marshal.UpdateNilFieldsWithZeroValue marshal.sampleDecls 2
      (marshal.GoType.named "Limits") marshal.sampleLimits with
  | some v => v
  | none => marshal.Value.nil



/-! ## Invalidate and InvalidateAll -/

/-- The loop of `InvalidateAll` never touches the entry under the excepted key. -/
theorem InvalidateAllLoop_lookup_except (userID sessionID : String) (order : List Entry) :
    ∀ m : SessionMap,
      (MockProvider.InvalidateAllLoop userID sessionID order m).lookup sessionID
        = m.lookup sessionID := by
  induction order with
  | nil => intro m; rfl
  | cons e rest ih =>
    intro m
    obtain ⟨key, session⟩ := e
    simp only [MockProvider.InvalidateAllLoop]
    split_ifs with h1 h2
    · exact ih m
    · rw [ih (m.erase session.ID)]
      exact AList.lookup_erase_ne (fun h => h2.2 h.symm)
    · exact ih m

/-- C1: `Invalidate` never fails and is idempotent.  In every provider state and
for every session, the call returns a nil error and leaves nothing stored under
the session's id; a second call again returns nil and leaves the provider
exactly as the first call left it. -/
theorem C1_Invalidate_idempotent (p : MockProvider) (s : Session) :
    (p.Invalidate s).2 = none
      ∧ (p.Invalidate s).1.Sessions.lookup s.ID = none
      ∧ ((p.Invalidate s).1.Invalidate s).2 = none
      ∧ ((p.Invalidate s).1.Invalidate s).1 = (p.Invalidate s).1 := by
  refine ⟨rfl, ?_, rfl, ?_⟩
  · exact AList.lookup_erase s.ID p.Sessions
  · have h : (p.Sessions.erase s.ID).erase s.ID = p.Sessions.erase s.ID := by
      apply AList.ext
      simp only [AList.erase]
      exact List.kerase_of_not_mem_keys (List.not_mem_keys_kerase s.ID p.Sessions.nodupKeys)
    simp only [MockProvider.Invalidate, h]

/-- C2: `InvalidateAll` never deletes the caller's own current session.  In
every provider state, whatever order the loop visits the map in, the call
returns a nil error and the entry stored under the excepted key (if any) is
stored unchanged afterwards. -/
theorem C2_InvalidateAll_keeps_current (p : MockProvider) (r : RangeOrder p.Sessions)
    (u x : String) :
    (p.InvalidateAll r u x).2 = none
      ∧ (p.InvalidateAll r u x).1.Sessions.lookup x = p.Sessions.lookup x :=
  ⟨rfl, InvalidateAllLoop_lookup_except u x r.val p.Sessions⟩


theorem digitChar_ne_dash (k : Nat) (hk : k < 10) : Nat.digitChar k ≠ '-' := by
  interval_cases k <;> decide


theorem digitValue_digitChar (k : Nat) (hk : k < 10) : digitValue (Nat.digitChar k) = k := by
  interval_cases k <;> rfl


theorem toDigitsCore_append (f : Nat) : ∀ (n : Nat) (ds : List Char),
    Nat.toDigitsCore 10 f n ds = Nat.toDigitsCore 10 f n [] ++ ds := by
  induction f with
  | zero => intro n ds; simp [Nat.toDigitsCore]
  | succ f ih =>
    intro n ds
    simp only [Nat.toDigitsCore]
    split_ifs with h
    · rfl
    · rw [ih (n / 10) (Nat.digitChar (n % 10) :: ds), ih (n / 10) [Nat.digitChar (n % 10)]]
      simp

theorem toDigitsCore_no_dash (f : Nat) : ∀ (n : Nat),
    ∀ c ∈ Nat.toDigitsCore 10 f n [], c ≠ '-' := by
  induction f with
  | zero => intro n c hc; simp [Nat.toDigitsCore] at hc
  | succ f ih =>
    intro n c hc
    simp only [Nat.toDigitsCore] at hc
    split_ifs at hc with h
    · simp only [List.mem_singleton] at hc
      rw [hc]; exact digitChar_ne_dash _ (Nat.mod_lt _ (by decide))
    · rw [toDigitsCore_append] at hc
      simp only [List.mem_append, List.mem_singleton] at hc
      rcases hc with hc | hc
      · exact ih _ c hc
      · rw [hc]; exact digitChar_ne_dash _ (Nat.mod_lt _ (by decide))

theorem decimalValue_toDigitsCore (f : Nat) : ∀ (n : Nat), n < f →
    decimalValue (Nat.toDigitsCore 10 f n []) = n := by
  induction f with
  | zero => intro n hn; omega
  | succ f ih =>
    intro n hn
    simp only [Nat.toDigitsCore]
    split_ifs with h
    · simp only [decimalValue, List.foldl, Nat.zero_mul, Nat.zero_add]
      rw [digitValue_digitChar _ (Nat.mod_lt _ (by decide))]
      omega
    · rw [toDigitsCore_append]
      have h1 : n / 10 < f := by omega
      have h2 := ih (n / 10) h1
      simp only [decimalValue, List.foldl_append, List.foldl] at h2 ⊢
      rw [h2, digitValue_digitChar _ (Nat.mod_lt _ (by decide))]
      omega

theorem toString_nat_data (n : Nat) : (toString n).data = Nat.toDigits 10 n := rfl

theorem toDigits_injective (n m : Nat) (h : Nat.toDigits 10 n = Nat.toDigits 10 m) : n = m := by
  have hn := decimalValue_toDigitsCore (n + 1) n (Nat.lt_succ_self n)
  have hm := decimalValue_toDigitsCore (m + 1) m (Nat.lt_succ_self m)
  unfold Nat.toDigits at h
  rw [h] at hn
  omega

theorem toDigits_no_dash (n : Nat) : '-' ∉ Nat.toDigits 10 n := fun h =>
  toDigitsCore_no_dash (n + 1) n '-' h rfl


theorem front_before_mark_unique (a : Char) : ∀ (x y z w : List Char),
    a ∉ x → a ∉ y → x ++ a :: z = y ++ a :: w → x = y := by
  intro x
  induction x with
  | nil =>
    intro y z w _ hy h
    cases y with
    | nil => rfl
    | cons b y =>
      simp only [List.nil_append, List.cons_append, List.cons.injEq] at h
      exact absurd (h.1 ▸ List.mem_cons_self b y) hy
  | cons b x ih =>
    intro y z w hx hy h
    cases y with
    | nil =>
      simp only [List.nil_append, List.cons_append, List.cons.injEq] at h
      exact absurd (h.1 ▸ List.mem_cons_self b x) hx
    | cons b2 y =>
      simp only [List.cons_append, List.cons.injEq] at h
      rw [h.1, ih y z w (fun m => hx (List.mem_cons_of_mem _ m))
        (fun m => hy (List.mem_cons_of_mem _ m)) h.2]

theorem EndsWithCounter.unique {t : String} {c d : Nat} (hc : EndsWithCounter t c)
    (hd : EndsWithCounter t d) : c = d := by
  obtain ⟨f1, h1⟩ := hc
  obtain ⟨f2, h2⟩ := hd
  have h := congrArg List.reverse (h1.symm.trans h2)
  simp only [List.reverse_append, List.reverse_cons, List.append_assoc, List.singleton_append] at h
  have key := front_before_mark_unique '-' _ _ _ _
    (by simpa using toDigits_no_dash c) (by simpa using toDigits_no_dash d) h
  exact toDigits_injective c d (List.reverse_injective key)

/-- The decimal rendering of a Go `int`: the digits of its absolute value,
after a `-` when it is negative. -/
theorem toString_int_data (c : Int) :
    (toString c).data
      = if 0 ≤ c then Nat.toDigits 10 c.natAbs else '-' :: Nat.toDigits 10 c.natAbs := by
  cases c with
  | ofNat n => simp; rfl
  | negSucc n =>
    have hneg : ¬ (0 ≤ Int.negSucc n) := by simp
    rw [if_neg hneg]
    rfl

theorem endsWithCounter_toString (front : String) (c : Int) :
    EndsWithCounter (front ++ "-" ++ toString c) c.natAbs := by
  by_cases h : 0 ≤ c
  · exact ⟨front.data, by simp [toString_int_data, h]⟩
  · exact ⟨front.data ++ ['-'], by simp [toString_int_data, h]⟩

theorem endsWithCounter_sessionIDFormat (u q : String) (c : Int) :
    EndsWithCounter (sessionIDFormat u q c) c.natAbs :=
  endsWithCounter_toString (u ++ "-" ++ q) c

theorem endsWithCounter_accessTokenFormat (id : String) (c : Int) :
    EndsWithCounter (accessTokenFormat id c) c.natAbs :=
  endsWithCounter_toString ("access-token-" ++ id) c

theorem wrapInt_add (x y : Int) : wrapInt (wrapInt x + y) = wrapInt (x + y) := by
  unfold wrapInt; omega

theorem wrapInt_of_range (x : Int) (h1 : minInt ≤ x) (h2 : x ≤ maxInt) : wrapInt x = x := by
  unfold minInt at h1; unfold maxInt at h2; unfold wrapInt; omega

theorem wrapInt_succ_ne (x : Int) : wrapInt (x + 1) ≠ x := by
  unfold wrapInt; omega

theorem wrapInt_succ_of_lt (x : Int) (h1 : 0 ≤ x) (h2 : x < maxInt) :
    wrapInt (x + 1) = x + 1 := by
  unfold maxInt at h2; unfold wrapInt; omega

/-- A string that ends in a counter value below `n` does not end in `n`. -/
theorem counter_not_used {t : String} {n : Int} (hn : 0 ≤ n) {c : Nat} (hc : (c : Int) < n)
    (h1 : EndsWithCounter t c) (h2 : EndsWithCounter t n.natAbs) : False := by
  have h := h1.unique h2
  rw [h, Int.natAbs_of_nonneg hn] at hc
  exact lt_irrefl _ hc

theorem natAbs_lt_succ {n : Int} (hn : 0 ≤ n) : ((n.natAbs : Nat) : Int) < n + 1 := by
  rw [Int.natAbs_of_nonneg hn]; exact Int.lt_succ n

theorem endsWithCounter_prepend (pre t : String) (c : Nat) (h : EndsWithCounter t c) :
    EndsWithCounter (pre ++ t) c := by
  obtain ⟨f, hf⟩ := h
  exact ⟨pre.data ++ f, by simp [hf]⟩

/-! ## The loop of GetByToken -/

theorem GetByTokenLoop_result (token : String) (kind : SessionTokenKind) (order : List Entry) :
    (MockProvider.GetByTokenLoop token kind order = (none, some GoError.ErrSessionNotFound)
        ∧ ∀ e ∈ order, tokenOfKind kind e.2 ≠ some token)
      ∨ ∃ e ∈ order, MockProvider.GetByTokenLoop token kind order = (some e.2, none)
        ∧ tokenOfKind kind e.2 = some token := by
  induction order with
  | nil => exact Or.inl ⟨rfl, by simp⟩
  | cons head rest ih =>
    obtain ⟨key, s⟩ := head
    cases kind with
    | SessionTokenKindAccessToken =>
      simp only [MockProvider.GetByTokenLoop]
      split_ifs with h
      · rcases ih with ⟨h1, h2⟩ | ⟨e, he, h1, h2⟩
        · refine Or.inl ⟨h1, ?_⟩
          intro e he
          rcases List.mem_cons.mp he with rfl | he
          · simpa [tokenOfKind] using h
          · exact h2 e he
        · exact Or.inr ⟨e, List.mem_cons_of_mem _ he, h1, h2⟩
      · refine Or.inr ⟨⟨key, s⟩, List.mem_cons_self _ _, rfl, ?_⟩
        simpa [tokenOfKind] using h
    | SessionTokenKindRefreshToken =>
      simp only [MockProvider.GetByTokenLoop]
      split_ifs with h
      · rcases ih with ⟨h1, h2⟩ | ⟨e, he, h1, h2⟩
        · refine Or.inl ⟨h1, ?_⟩
          intro e he
          rcases List.mem_cons.mp he with rfl | he
          · simpa [tokenOfKind] using h
          · exact h2 e he
        · exact Or.inr ⟨e, List.mem_cons_of_mem _ he, h1, h2⟩
      · refine Or.inr ⟨⟨key, s⟩, List.mem_cons_self _ _, rfl, ?_⟩
        simpa [tokenOfKind] using h
    | unnamed raw =>
      simp only [MockProvider.GetByTokenLoop]
      rcases ih with ⟨h1, h2⟩ | ⟨e, he, h1, h2⟩
      · refine Or.inl ⟨h1, ?_⟩
        intro e _
        simp [tokenOfKind]
      · exact Or.inr ⟨e, List.mem_cons_of_mem _ he, h1, h2⟩

/-- When exactly one stored session carries the token, the loop returns it,
whatever the order. -/
theorem GetByTokenLoop_of_unique (token : String) (kind : SessionTokenKind) (order : List Entry)
    (s : Session) (hs : ∃ e ∈ order, e.2 = s ∧ tokenOfKind kind e.2 = some token)
    (huniq : ∀ e ∈ order, tokenOfKind kind e.2 = some token → e.2 = s) :
    MockProvider.GetByTokenLoop token kind order = (some s, none) := by
  rcases GetByTokenLoop_result token kind order with ⟨_, h2⟩ | ⟨e, he, h1, h2⟩
  · obtain ⟨e, he, _, h3⟩ := hs
    exact absurd h3 (h2 e he)
  · rw [h1, huniq e he h2]

theorem mem_entries_iff_lookup (m : SessionMap) (k : String) (s : Session) :
    (⟨k, s⟩ : Entry) ∈ m.entries ↔ m.lookup k = some s := by
  rw [← Option.mem_def, AList.mem_lookup_iff]

/-- C4: `GetByToken` has a single, unified failure.  In every provider state, for
every visiting order, token and kind, the call either returns a stored session
whose token for the requested kind equals the presented one, or returns a nil
session with exactly `ErrSessionNotFound`; it fails exactly when no stored
session carries that token for that kind, and it always fails for a kind that
is neither of the two named ones. -/
theorem C4_GetByToken_unified_failure (p : MockProvider) (r : RangeOrder p.Sessions)
    (token : String) (kind : SessionTokenKind) :
    (p.GetByToken r token kind = (none, some GoError.ErrSessionNotFound)
        ∨ ∃ s, p.GetByToken r token kind = (some s, none)
            ∧ (∃ k, p.Sessions.lookup k = some s) ∧ tokenOfKind kind s = some token)
      ∧ (p.GetByToken r token kind = (none, some GoError.ErrSessionNotFound)
          ↔ ∀ k s, p.Sessions.lookup k = some s → tokenOfKind kind s ≠ some token)
      ∧ (∀ raw, kind = SessionTokenKind.unnamed raw →
            p.GetByToken r token kind = (none, some GoError.ErrSessionNotFound)) := by
  have hmem : ∀ e : Entry, e ∈ r.val ↔ p.Sessions.lookup e.1 = some e.2 := fun e => by
    rw [r.property.mem_iff]; exact mem_entries_iff_lookup p.Sessions e.1 e.2
  unfold MockProvider.GetByToken
  refine ⟨?_, ?_, ?_⟩
  · rcases GetByTokenLoop_result token kind r.val with ⟨h1, _⟩ | ⟨e, he, h1, h2⟩
    · exact Or.inl h1
    · exact Or.inr ⟨e.2, h1, ⟨e.1, (hmem e).mp he⟩, h2⟩
  · rcases GetByTokenLoop_result token kind r.val with ⟨h1, h2⟩ | ⟨e, he, h1, h2⟩
    · exact ⟨fun _ k s hks => h2 ⟨k, s⟩ ((hmem ⟨k, s⟩).mpr hks), fun _ => h1⟩
    · constructor
      · intro h; rw [h1] at h; simp at h
      · intro h; exact absurd h2 (h e.1 e.2 ((hmem e).mp he))
  · rintro raw rfl
    rcases GetByTokenLoop_result token (SessionTokenKind.unnamed raw) r.val with
      ⟨h1, _⟩ | ⟨e, _, _, h2⟩
    · exact h1
    · simp [tokenOfKind] at h2

/-! ## Providers driven from NewMockProvider -/

theorem mem_insert_entries {m : SessionMap} {k : String} {v : Session} {e : Entry}
    (h : e ∈ (m.insert k v).entries) : e = ⟨k, v⟩ ∨ (e ∈ m.entries ∧ e.1 ≠ k) := by
  rw [AList.insert_entries] at h
  rcases List.mem_cons.mp h with h | h
  · exact Or.inl h
  · refine Or.inr ⟨(List.kerase_sublist k m.entries).subset h, fun hk => ?_⟩
    have hmem : e.1 ∈ (List.kerase k m.entries).keys := List.mem_keys_of_mem h
    rw [hk] at hmem
    exact List.not_mem_keys_kerase k m.nodupKeys hmem

theorem mem_erase_entries {m : SessionMap} {k : String} {e : Entry}
    (h : e ∈ (m.erase k).entries) : e ∈ m.entries ∧ e.1 ≠ k := by
  refine ⟨(List.kerase_sublist k m.entries).subset h, fun hk => ?_⟩
  have hmem : e.1 ∈ (List.kerase k m.entries).keys := List.mem_keys_of_mem h
  rw [hk] at hmem
  exact List.not_mem_keys_kerase k m.nodupKeys hmem

theorem map_set_of_same {f : Session → String} {s1 : Session} :
    ∀ (l : List Session) (i : Nat) (s : Session), l[i]? = some s → f s1 = f s →
      (l.set i s1).map f = l.map f := by
  intro l
  induction l with
  | nil => intro i s h; simp at h
  | cons x l ih =>
    intro i s h hf
    cases i with
    | zero =>
      simp only [List.getElem?_cons_zero, Option.some.injEq] at h
      simp [List.set, h, hf]
    | succ i =>
      simp only [List.getElem?_cons_succ] at h
      simp [List.set, ih i s h hf]

theorem Inv_init : Driven.Inv { provider := NewMockProvider, issued := [] } where
  counter_nonneg := le_refl _
  keyed := by intro e he; simp [NewMockProvider] at he
  stored_token := by intro e he; simp [NewMockProvider] at he
  issued_id := by intro h hh; cases hh
  issued_token := by intro h hh; cases hh
  issued_owner := by intro h hh; cases hh
  issued_nodup := by simp

/-- The session that `Create` with a nil callback builds. -/
theorem Create_none_session (p : MockProvider) (a : AuthnSession) :
    ∃ sess, (p.Create a none).session = some sess
      ∧ (p.Create a none).err = none
      ∧ (p.Create a none).provider.Sessions = p.Sessions.insert sess.ID sess
      ∧ (p.Create a none).provider.counter = wrapInt (p.counter + 1)
      ∧ (p.Create a none).tokens.AccessToken = sess.AccessTokenHash
      ∧ sess.ID = sessionIDFormat a.UserID a.PrincipalID p.counter
      ∧ sess.AccessTokenHash = "access-token-" ++ sess.ID
      ∧ sess.UserID = a.UserID ∧ sess.PrincipalID = a.PrincipalID :=
  ⟨_, rfl, rfl, rfl, rfl, rfl, rfl, rfl, rfl, rfl⟩

/-- Stored sessions stay under their own id at every call, wrapped counter or not. -/
theorem keyed_step (d : Driven) (hd : ∀ e ∈ d.provider.Sessions.entries, e.2.ID = e.1)
    (c : Call) : ∀ e ∈ (d.step c).provider.Sessions.entries, e.2.ID = e.1 := by
  have hrefresh : ∀ s, ∀ e ∈ (d.provider.Refresh s).provider.Sessions.entries, e.2.ID = e.1 := by
    intro s e he
    rcases mem_insert_entries he with rfl | ⟨he, _⟩
    · rfl
    · exact hd e he
  have hinval : ∀ s, ∀ e ∈ (d.provider.Invalidate s).1.Sessions.entries, e.2.ID = e.1 :=
    fun s e he => hd e (mem_erase_entries he).1
  cases c with
  | Create a =>
    obtain ⟨sess, h1, _, h3, _⟩ := Create_none_session d.provider a
    intro e he
    simp only [Driven.step, h1, h3] at he
    rcases mem_insert_entries he with rfl | ⟨he, _⟩
    · rfl
    · exact hd e he
  | Refresh i =>
    cases hget : d.issued[i]? with
    | none => simpa [Driven.step, hget] using hd
    | some s => simpa [Driven.step, hget] using hrefresh s
  | Invalidate i =>
    cases hget : d.issued[i]? with
    | none => simpa [Driven.step, hget] using hd
    | some s => simpa [Driven.step, hget] using hinval s
  | RefreshValue s => exact hrefresh s
  | InvalidateValue s => exact hinval s
  | AdvanceClock now => exact hd

theorem keyed_foldl (calls : List Call) : ∀ d : Driven,
    (∀ e ∈ d.provider.Sessions.entries, e.2.ID = e.1) →
    ∀ e ∈ (calls.foldl Driven.step d).provider.Sessions.entries, e.2.ID = e.1 := by
  induction calls with
  | nil => intro d hd; exact hd
  | cons c calls ih => intro d hd; exact ih _ (keyed_step d hd c)

theorem Inv_Create (d : Driven) (hd : d.Inv) (hlt : d.provider.counter < maxInt)
    (a : AuthnSession) : (d.step (Call.Create a)).Inv := by
  obtain ⟨sess, h1, _, h3, h4, _, h6, h7, _, _⟩ := Create_none_session d.provider a
  rw [wrapInt_succ_of_lt _ hd.counter_nonneg hlt] at h4
  have hid : EndsWithCounter sess.ID d.provider.counter.natAbs :=
    h6 ▸ endsWithCounter_sessionIDFormat _ _ _
  have htok : EndsWithCounter sess.AccessTokenHash d.provider.counter.natAbs :=
    h7 ▸ endsWithCounter_prepend _ _ _ hid
  have hnn := hd.counter_nonneg
  have hstep : d.step (Call.Create a)
      = { provider := (d.provider.Create a none).provider, issued := sess :: d.issued } := by
    simp only [Driven.step, h1]
  rw [hstep]
  constructor
  · simp only [h4]; omega
  · intro e he
    simp only [h3] at he
    rcases mem_insert_entries he with rfl | ⟨he, _⟩
    · rfl
    · exact hd.keyed e he
  · intro e he
    simp only [h3, h4] at he ⊢
    rcases mem_insert_entries he with rfl | ⟨he, _⟩
    · exact ⟨_, natAbs_lt_succ hnn, htok⟩
    · obtain ⟨c, hc, hc2⟩ := hd.stored_token e he
      exact ⟨c, by omega, hc2⟩
  · intro h hh
    simp only [h4]
    rcases List.mem_cons.mp hh with rfl | hh
    · exact ⟨_, natAbs_lt_succ hnn, hid⟩
    · obtain ⟨c, hc, hc2⟩ := hd.issued_id h hh
      exact ⟨c, by omega, hc2⟩
  · intro h hh
    simp only [h4]
    rcases List.mem_cons.mp hh with rfl | hh
    · exact ⟨_, natAbs_lt_succ hnn, htok⟩
    · obtain ⟨c, hc, hc2⟩ := hd.issued_token h hh
      exact ⟨c, by omega, hc2⟩
  · intro h hh e he heq
    simp only [h3] at he
    rcases List.mem_cons.mp hh with rfl | hh
    · rcases mem_insert_entries he with rfl | ⟨he, _⟩
      · rfl
      · obtain ⟨c, hc, hc2⟩ := hd.stored_token e he
        exact (counter_not_used hnn hc (heq ▸ hc2) htok).elim
    · rcases mem_insert_entries he with rfl | ⟨he, _⟩
      · obtain ⟨c, hc, hc2⟩ := hd.issued_token h hh
        exact (counter_not_used hnn hc hc2 (heq ▸ htok)).elim
      · exact hd.issued_owner h hh e he heq
  · simp only [List.map_cons, List.nodup_cons]
    refine ⟨fun hmem => ?_, hd.issued_nodup⟩
    obtain ⟨h, hh, hEq⟩ := List.mem_map.mp hmem
    obtain ⟨c, hc, hc2⟩ := hd.issued_id h hh
    exact counter_not_used hnn hc (hEq ▸ hc2) hid

/-- A `Refresh` on any session keeps the invariant, for the pointers held before. -/
theorem Inv_RefreshValue (d : Driven) (hd : d.Inv) (hlt : d.provider.counter < maxInt)
    (s : Session) : (d.step (Call.RefreshValue s)).Inv := by
  have htok : EndsWithCounter (d.provider.Refresh s).session.AccessTokenHash
      d.provider.counter.natAbs := endsWithCounter_accessTokenFormat _ _
  have hnn := hd.counter_nonneg
  have h4 : (d.step (Call.RefreshValue s)).provider.counter = d.provider.counter + 1 :=
    wrapInt_succ_of_lt _ hnn hlt
  constructor
  · rw [h4]; omega
  · intro e he
    rcases mem_insert_entries he with rfl | ⟨he, _⟩
    · rfl
    · exact hd.keyed e he
  · intro e he
    rw [h4]
    rcases mem_insert_entries he with rfl | ⟨he, _⟩
    · exact ⟨_, natAbs_lt_succ hnn, htok⟩
    · obtain ⟨c, hc, hc2⟩ := hd.stored_token e he
      exact ⟨c, by omega, hc2⟩
  · intro h hh
    rw [h4]
    obtain ⟨c, hc, hc2⟩ := hd.issued_id h hh
    exact ⟨c, by omega, hc2⟩
  · intro h hh
    rw [h4]
    obtain ⟨c, hc, hc2⟩ := hd.issued_token h hh
    exact ⟨c, by omega, hc2⟩
  · intro h hh e he heq
    rcases mem_insert_entries he with rfl | ⟨he, _⟩
    · obtain ⟨c, hc, hc2⟩ := hd.issued_token h hh
      exact (counter_not_used hnn hc hc2 (heq ▸ htok)).elim
    · exact hd.issued_owner h hh e he heq
  · exact hd.issued_nodup

theorem Inv_Refresh (d : Driven) (hd : d.Inv) (hlt : d.provider.counter < maxInt) (i : Nat) :
    (d.step (Call.Refresh i)).Inv := by
  cases hget : d.issued[i]? with
  | none => simpa [Driven.step, hget] using hd
  | some s =>
    have hv := Inv_RefreshValue d hd hlt s
    have hnn := hd.counter_nonneg
    have h4 : (d.provider.Refresh s).provider.counter = d.provider.counter + 1 :=
      wrapInt_succ_of_lt _ hnn hlt
    have htok : EndsWithCounter (d.provider.Refresh s).session.AccessTokenHash
        d.provider.counter.natAbs := endsWithCounter_accessTokenFormat _ _
    have hs : s ∈ d.issued := List.getElem?_mem hget
    have hstep : d.step (Call.Refresh i)
        = { provider := (d.provider.Refresh s).provider
            issued := d.issued.set i (d.provider.Refresh s).session } := by
      simp only [Driven.step, hget]
    rw [hstep]
    constructor
    · exact hv.counter_nonneg
    · exact hv.keyed
    · exact hv.stored_token
    · intro h hh
      rcases List.mem_or_eq_of_mem_set hh with hh | rfl
      · exact hv.issued_id h hh
      · exact hv.issued_id s hs
    · intro h hh
      rcases List.mem_or_eq_of_mem_set hh with hh | rfl
      · exact hv.issued_token h hh
      · exact ⟨_, by simp only [h4]; exact natAbs_lt_succ hnn, htok⟩
    · intro h hh e he heq
      rcases List.mem_or_eq_of_mem_set hh with hh | rfl
      · exact hv.issued_owner h hh e he heq
      · rcases mem_insert_entries he with rfl | ⟨he, _⟩
        · rfl
        · obtain ⟨c, hc, hc2⟩ := hd.stored_token e he
          exact (counter_not_used hnn hc (heq ▸ hc2) htok).elim
    · have : (d.issued.set i (d.provider.Refresh s).session).map Session.ID
          = d.issued.map Session.ID := map_set_of_same d.issued i s hget rfl
      simpa only [this] using hd.issued_nodup

theorem Inv_InvalidateValue (d : Driven) (hd : d.Inv) (s : Session) :
    (d.step (Call.InvalidateValue s)).Inv where
  counter_nonneg := hd.counter_nonneg
  keyed := fun e he => hd.keyed e (mem_erase_entries he).1
  stored_token := fun e he => hd.stored_token e (mem_erase_entries he).1
  issued_id := hd.issued_id
  issued_token := hd.issued_token
  issued_owner := fun h hh e he heq => hd.issued_owner h hh e (mem_erase_entries he).1 heq
  issued_nodup := hd.issued_nodup

/-- A call that does not overflow the counter keeps the invariant. -/
theorem Inv_step (d : Driven) (hd : d.Inv) (c : Call)
    (hlt : c.advances = true → d.provider.counter < maxInt) : (d.step c).Inv := by
  cases c with
  | Create a => exact Inv_Create d hd (hlt rfl) a
  | Refresh i => exact Inv_Refresh d hd (hlt rfl) i
  | Invalidate i =>
    cases hget : d.issued[i]? with
    | none => simpa [Driven.step, hget] using hd
    | some s => simpa [Driven.step, hget] using Inv_InvalidateValue d hd s
  | RefreshValue s => exact Inv_RefreshValue d hd (hlt rfl) s
  | InvalidateValue s => exact Inv_InvalidateValue d hd s
  | AdvanceClock now =>
    exact ⟨hd.counter_nonneg, hd.keyed, hd.stored_token, hd.issued_id, hd.issued_token,
      hd.issued_owner, hd.issued_nodup⟩

/-- A call leaves the counter alone or, when it is a `Create` or a `Refresh`,
adds one to it with wrap-around. -/
theorem counter_step (d : Driven) (c : Call) :
    (d.step c).provider.counter = d.provider.counter
      ∨ (c.advances = true
          ∧ (d.step c).provider.counter = wrapInt (d.provider.counter + 1)) := by
  cases c with
  | Create a =>
    obtain ⟨sess, h1, _, _, h4, _⟩ := Create_none_session d.provider a
    right
    refine ⟨rfl, ?_⟩
    simp only [Driven.step, h1, h4]
  | Refresh i =>
    cases hget : d.issued[i]? with
    | none => left; simp [Driven.step, hget]
    | some s => right; exact ⟨rfl, by simp [Driven.step, hget, MockProvider.Refresh]⟩
  | Invalidate i =>
    left
    cases hget : d.issued[i]? <;> simp [Driven.step, hget, MockProvider.Invalidate]
  | RefreshValue s => right; exact ⟨rfl, rfl⟩
  | InvalidateValue s => left; rfl
  | AdvanceClock now => left; rfl

theorem countP_advances_cons (c : Call) (calls : List Call) :
    ((c :: calls).countP Call.advances : Int)
      = (calls.countP Call.advances : Int) + (if c.advances = true then 1 else 0) := by
  rw [List.countP_cons]
  split_ifs <;> simp

/-- One call of a run in which the counter does not pass the largest `int`
keeps the invariant and leaves room for the calls that follow. -/
theorem Inv_step_bound (d : Driven) (hd : d.Inv) (c : Call) (calls : List Call)
    (hb : d.provider.counter + ((c :: calls).countP Call.advances : Int) ≤ maxInt) :
    (d.step c).Inv
      ∧ (d.step c).provider.counter + (calls.countP Call.advances : Int) ≤ maxInt := by
  rw [countP_advances_cons] at hb
  have hnn := hd.counter_nonneg
  have hcount : (0 : Int) ≤ (calls.countP Call.advances : Int) := Int.natCast_nonneg _
  refine ⟨Inv_step d hd c (fun hadv => by rw [if_pos hadv] at hb; omega), ?_⟩
  rcases counter_step d c with h | ⟨hadv, h⟩
  · rw [h]; split_ifs at hb <;> omega
  · rw [if_pos hadv] at hb
    rw [h, wrapInt_succ_of_lt _ hnn (by omega)]
    omega

/-- The invariant holds along a run in which the counter does not pass the
largest `int`. -/
theorem Inv_foldl (calls : List Call) : ∀ d : Driven, d.Inv →
    d.provider.counter + (calls.countP Call.advances : Int) ≤ maxInt →
    (calls.foldl Driven.step d).Inv := by
  induction calls with
  | nil => intro d hd _; exact hd
  | cons c calls ih =>
    intro d hd hb
    obtain ⟨h1, h2⟩ := Inv_step_bound d hd c calls hb
    exact ih (d.step c) h1 h2

theorem two_pow_63 : (2 : Nat) ^ 63 = 9223372036854775808 := by norm_num

/-- The invariant holds after a run with fewer than `2^63` advancing calls. -/
theorem Inv_run (calls : List Call) (hrun : calls.countP Call.advances < 2 ^ 63) :
    (Driven.run calls).Inv := by
  rw [two_pow_63] at hrun
  refine Inv_foldl calls _ Inv_init ?_
  simp only [NewMockProvider, maxInt]
  omega

/-! ## Runs that reach the largest counter value -/

theorem run_append (l1 l2 : List Call) :
    Driven.run (l1 ++ l2) = l2.foldl Driven.step (Driven.run l1) := by
  unfold Driven.run
  rw [List.foldl_append]

theorem wrapInt_idem (x : Int) : wrapInt (wrapInt x) = wrapInt x := by
  unfold wrapInt; omega

/-- One more `Refresh` on the pointer. -/
theorem refreshedDriven_step (c : Int) :
    (refreshedDriven c).step (Call.Refresh 0) = refreshedDriven (wrapInt (c + 1)) := rfl

/-- The state after `n` more calls of `Refresh` on the pointer. -/
theorem refreshedDriven_spin (n : Nat) : ∀ c : Int, wrapInt c = c →
    (List.replicate n (Call.Refresh 0)).foldl Driven.step (refreshedDriven c)
      = refreshedDriven (wrapInt (c + (n : Int))) := by
  induction n with
  | zero =>
    intro c hc
    rw [List.replicate_zero, List.foldl_nil, Nat.cast_zero, Int.add_zero, hc]
  | succ n ih =>
    intro c hc
    rw [List.replicate_succ, List.foldl_cons, refreshedDriven_step,
      ih (wrapInt (c + 1)) (wrapInt_idem _), wrapInt_add]
    have harith : c + 1 + (n : Int) = c + ((n + 1 : Nat) : Int) := by
      push_cast; ring
    rw [harith]

/-- After `brinkRun` the counter is the largest `int`, and the provider holds
the session of `sampleAuthn` with the token of the last `Refresh`. -/
theorem brinkRun_state : Driven.run brinkRun = refreshedDriven 9223372036854775806 := by
  have hsplit : brinkRun
      = [Call.Create sampleAuthn, Call.Refresh 0]
          ++ List.replicate 9223372036854775805 (Call.Refresh 0) := rfl
  have hstart : Driven.run [Call.Create sampleAuthn, Call.Refresh 0] = refreshedDriven 1 := rfl
  have hw : wrapInt (1 + ((9223372036854775805 : Nat) : Int)) = 9223372036854775806 := by
    decide
  rw [hsplit, run_append, hstart, refreshedDriven_spin _ 1 (by decide), hw]

/-- C3, counterexample: the counter has reached the largest `int`; `Refresh` on
a session of the caller's own making with the id `x-y-` stores the access token
`access-token-x-y--9223372036854775807`; two calls later, with the counter at
`-9223372036854775807`, `Create` for user `x` and principal `y` returns the
same string as its access token, and `GetByToken` with it, visiting the
entries in reverse, returns the session with the id `x-y-`, not the created
one. -/
theorem C3_round_trip_fails_after_overflow :
    ((Driven.run (brinkRun ++ [Call.RefreshValue dashGhost, Call.Refresh 0])).provider.Create
          dashAuthn none).session.map Session.ID = some "x-y--9223372036854775807"
      ∧ ((Driven.run (brinkRun ++ [Call.RefreshValue dashGhost, Call.Refresh 0])).provider.Create
          dashAuthn none).tokens.AccessToken = "access-token-x-y--9223372036854775807"
      ∧ (((Driven.run (brinkRun ++ [Call.RefreshValue dashGhost, Call.Refresh 0])
            ).provider.Create dashAuthn none).provider.GetByToken (RangeOrder.reversed _)
          ((Driven.run (brinkRun ++ [Call.RefreshValue dashGhost, Call.Refresh 0])
            ).provider.Create dashAuthn none).tokens.AccessToken
          SessionTokenKind.SessionTokenKindAccessToken).1.map Session.ID = some "x-y-" := by
  rw [run_append, brinkRun_state]
  exact ⟨by decide, by decide, by decide⟩

/-- C3: `Create` then `GetByToken` is a round trip while the counter has not
overflowed.  On a provider built by `NewMockProvider` and driven by `Create`
(nil callback), `Refresh` and `Invalidate` calls, fewer than `2^63` of them
`Create` or `Refresh` calls, `Create` for any request succeeds with a session for
the requested user and principal, and the returned access token, presented to
`GetByToken` with the access-token kind, yields in every visiting order a
session equal to the created one in ID, UserID, PrincipalID, CreatedAt and
AccessedAt. -/
theorem C3_Create_GetByToken_round_trip (calls : List Call)
    (hrun : calls.countP Call.advances < 2 ^ 63) (a : AuthnSession)
    (r : RangeOrder ((Driven.run calls).provider.Create a none).provider.Sessions) :
    ∃ sess got,
      ((Driven.run calls).provider.Create a none).session = some sess
        ∧ ((Driven.run calls).provider.Create a none).err = none
        ∧ sess.UserID = a.UserID ∧ sess.PrincipalID = a.PrincipalID
        ∧ ((Driven.run calls).provider.Create a none).provider.GetByToken r
            ((Driven.run calls).provider.Create a none).tokens.AccessToken
            SessionTokenKind.SessionTokenKindAccessToken = (some got, none)
        ∧ got.ID = sess.ID ∧ got.UserID = sess.UserID ∧ got.PrincipalID = sess.PrincipalID
        ∧ got.CreatedAt = sess.CreatedAt ∧ got.AccessedAt = sess.AccessedAt := by
  have hd := Inv_run calls hrun
  obtain ⟨sess, h1, h2, h3, _, h5, h6, h7, h8, h9⟩ :=
    Create_none_session (Driven.run calls).provider a
  have htok : EndsWithCounter sess.AccessTokenHash (Driven.run calls).provider.counter.natAbs :=
    h7 ▸ endsWithCounter_prepend _ _ _ (h6 ▸ endsWithCounter_sessionIDFormat _ _ _)
  refine ⟨sess, sess, h1, h2, h8, h9, ?_, rfl, rfl, rfl, rfl, rfl⟩
  unfold MockProvider.GetByToken
  rw [h5]
  apply GetByTokenLoop_of_unique
  · refine ⟨⟨sess.ID, sess⟩, ?_, rfl, rfl⟩
    rw [r.property.mem_iff, h3, mem_entries_iff_lookup]
    exact AList.lookup_insert _
  · intro e he hk
    rw [r.property.mem_iff, h3] at he
    rcases mem_insert_entries he with rfl | ⟨he, _⟩
    · rfl
    · obtain ⟨c, hc, hc2⟩ := hd.stored_token e he
      simp only [tokenOfKind, Option.some.injEq] at hk
      exact (counter_not_used hd.counter_nonneg hc (hk ▸ hc2) htok).elim

/-- A run of C3: the second `Create` for the same user and principal. -/
theorem C3_Create_GetByToken_round_trip_witness :
    [Call.Create sampleAuthn].countP Call.advances < 2 ^ 63
      ∧ ∃ sess got,
        ((Driven.run [Call.Create sampleAuthn]).provider.Create sampleAuthn none).session
            = some sess
          ∧ ((Driven.run [Call.Create sampleAuthn]).provider.Create sampleAuthn none).err = none
          ∧ sess.UserID = sampleAuthn.UserID ∧ sess.PrincipalID = sampleAuthn.PrincipalID
          ∧ ((Driven.run [Call.Create sampleAuthn]).provider.Create sampleAuthn
                none).provider.GetByToken (RangeOrder.reversed _)
              ((Driven.run [Call.Create sampleAuthn]).provider.Create sampleAuthn
                none).tokens.AccessToken
              SessionTokenKind.SessionTokenKindAccessToken = (some got, none)
          ∧ got.ID = sess.ID ∧ got.UserID = sess.UserID ∧ got.PrincipalID = sess.PrincipalID
          ∧ got.CreatedAt = sess.CreatedAt ∧ got.AccessedAt = sess.AccessedAt :=
  ⟨by decide,
    C3_Create_GetByToken_round_trip [Call.Create sampleAuthn] (by decide) sampleAuthn
      (RangeOrder.reversed _)⟩

/-- C5, counterexample: the counter has reached the largest `int`; `Create` for
user `u1` and principal `p1-0-` issues a session with the access token
`access-token-u1-p1-0--9223372036854775807`; two calls later, with the counter
at `-9223372036854775807`, `Refresh` on the session `u1-p1-0`, which `Create`
issued at the start of the run, returns that same token, and `GetByToken` with
it, visiting the entries in reverse, returns the other session. -/
theorem C5_Refresh_token_collides_after_overflow :
    (Driven.run (brinkRun ++ [Call.Create zeroDashAuthn, Call.Refresh 1])).issued[1]?
        = some (refreshedSample minInt)
      ∧ (refreshedSample minInt).ID = "u1-p1-0"
      ∧ ((Driven.run (brinkRun ++ [Call.Create zeroDashAuthn, Call.Refresh 1])).provider.Refresh
          (refreshedSample minInt)).token = "access-token-u1-p1-0--9223372036854775807"
      ∧ (((Driven.run (brinkRun ++ [Call.Create zeroDashAuthn, Call.Refresh 1])).provider.Refresh
            (refreshedSample minInt)).provider.GetByToken (RangeOrder.reversed _)
          ((Driven.run (brinkRun ++ [Call.Create zeroDashAuthn, Call.Refresh 1])).provider.Refresh
            (refreshedSample minInt)).token
          SessionTokenKind.SessionTokenKindAccessToken).1.map Session.ID
        = some "u1-p1-0--9223372036854775807" := by
  rw [run_append, brinkRun_state]
  exact ⟨by decide, by decide, by decide, by decide⟩

/-- C5: `Refresh` invalidates the old token at once and makes the new one valid
while the counter has not overflowed.  For every session pointer that `Create`
issued on a provider built by `NewMockProvider` and driven by `Create` (nil
callback), `Refresh` and `Invalidate` calls, fewer than `2^63` of them `Create`
or `Refresh` calls: after `Refresh` on it, `GetByToken` with the access token
the session held before the call fails with `ErrSessionNotFound`, and
`GetByToken` with the returned token yields the session with the same ID, in
every visiting order. -/
theorem C5_Refresh_old_token_rejected (calls : List Call)
    (hrun : calls.countP Call.advances < 2 ^ 63) (s : Session)
    (hs : s ∈ (Driven.run calls).issued)
    (r0 r1 : RangeOrder ((Driven.run calls).provider.Refresh s).provider.Sessions) :
    ((Driven.run calls).provider.Refresh s).err = none
      ∧ ((Driven.run calls).provider.Refresh s).provider.GetByToken r0 s.AccessTokenHash
          SessionTokenKind.SessionTokenKindAccessToken = (none, some GoError.ErrSessionNotFound)
      ∧ ∃ got, ((Driven.run calls).provider.Refresh s).provider.GetByToken r1
            ((Driven.run calls).provider.Refresh s).token
            SessionTokenKind.SessionTokenKindAccessToken = (some got, none)
          ∧ got.ID = s.ID := by
  have hd := Inv_run calls hrun
  have hnn := hd.counter_nonneg
  have htok : EndsWithCounter ((Driven.run calls).provider.Refresh s).session.AccessTokenHash
      (Driven.run calls).provider.counter.natAbs := endsWithCounter_accessTokenFormat _ _
  refine ⟨rfl, ?_, ((Driven.run calls).provider.Refresh s).session, ?_, rfl⟩
  · unfold MockProvider.GetByToken
    rcases GetByTokenLoop_result s.AccessTokenHash SessionTokenKind.SessionTokenKindAccessToken
      r0.val with ⟨h1, _⟩ | ⟨e, he, _, h2⟩
    · exact h1
    · exfalso
      simp only [tokenOfKind, Option.some.injEq] at h2
      rw [r0.property.mem_iff] at he
      obtain ⟨c, hc, hc2⟩ := hd.issued_token s hs
      rcases mem_insert_entries he with rfl | ⟨he, hne⟩
      · exact counter_not_used hnn hc hc2 (h2 ▸ htok)
      · exact hne (hd.issued_owner s hs e he h2)
  · unfold MockProvider.GetByToken
    apply GetByTokenLoop_of_unique
    · refine ⟨⟨s.ID, ((Driven.run calls).provider.Refresh s).session⟩, ?_, rfl, rfl⟩
      rw [r1.property.mem_iff, mem_entries_iff_lookup]
      exact AList.lookup_insert _
    · intro e he hk
      rw [r1.property.mem_iff] at he
      rcases mem_insert_entries he with rfl | ⟨he, _⟩
      · rfl
      · obtain ⟨c, hc, hc2⟩ := hd.stored_token e he
        simp only [tokenOfKind, Option.some.injEq] at hk
        rw [hk] at hc2
        exact (counter_not_used hnn hc hc2 htok).elim

/-- A run of C5: a session is created and then refreshed. -/
theorem C5_Refresh_old_token_rejected_witness :
    [Call.Create sampleAuthn].countP Call.advances < 2 ^ 63
      ∧ sampleSession ∈ (Driven.run [Call.Create sampleAuthn]).issued
      ∧ ((Driven.run [Call.Create sampleAuthn]).provider.Refresh sampleSession).token
          = "access-token-u1-p1-0-1"
      ∧ ((Driven.run [Call.Create sampleAuthn]).provider.Refresh sampleSession).provider.GetByToken
          (RangeOrder.stored _) sampleSession.AccessTokenHash
          SessionTokenKind.SessionTokenKindAccessToken = (none, some GoError.ErrSessionNotFound) :=
  ⟨by decide, by decide, by decide,
    (C5_Refresh_old_token_rejected [Call.Create sampleAuthn] (by decide) sampleSession
      (by decide) (RangeOrder.stored _) (RangeOrder.stored _)).2.1⟩

theorem issued_length (calls : List Call) : ∀ d : Driven,
    (calls.foldl Driven.step d).issued.length = d.issued.length + calls.countP Call.isCreate := by
  induction calls with
  | nil => intro d; simp
  | cons c calls ih =>
    intro d
    rw [List.foldl_cons, ih (d.step c), List.countP_cons]
    cases c with
    | Create a => simp [Driven.step, MockProvider.Create, Call.isCreate]; omega
    | Refresh i => cases hget : d.issued[i]? <;> simp [Driven.step, hget, Call.isCreate]
    | Invalidate i => cases hget : d.issued[i]? <;> simp [Driven.step, hget, Call.isCreate]
    | RefreshValue s => simp [Driven.step, Call.isCreate]
    | InvalidateValue s => simp [Driven.step, Call.isCreate]
    | AdvanceClock now => simp [Driven.step, Call.isCreate]

theorem issued_ids_step (d : Driven) (c : Call) (id : String)
    (h : id ∈ d.issued.map Session.ID) : id ∈ (d.step c).issued.map Session.ID := by
  cases c with
  | Create a =>
    simp only [Driven.step, MockProvider.Create, List.map_cons]
    exact List.mem_cons_of_mem _ h
  | Refresh i =>
    cases hget : d.issued[i]? with
    | none => simpa [Driven.step, hget] using h
    | some s =>
      have hmap : (d.issued.set i (d.provider.Refresh s).session).map Session.ID
          = d.issued.map Session.ID := map_set_of_same d.issued i s hget rfl
      simp only [Driven.step, hget, hmap]
      exact h
  | Invalidate i => cases hget : d.issued[i]? <;> simpa [Driven.step, hget] using h
  | RefreshValue s => exact h
  | InvalidateValue s => exact h
  | AdvanceClock now => exact h

theorem issued_ids_foldl (calls : List Call) (id : String) : ∀ d : Driven,
    id ∈ d.issued.map Session.ID → id ∈ (calls.foldl Driven.step d).issued.map Session.ID := by
  induction calls with
  | nil => intro d h; exact h
  | cons c calls ih => intro d h; exact ih _ (issued_ids_step d c id h)

/-- C7, counterexample: the counter has reached the largest `int`; `Create` for
user `x` and principal `y-` issues the id `x-y--9223372036854775807`; after one
`Refresh` in between the counter is `-9223372036854775807`, and `Create` for
user `x` and principal `y` issues the same id. -/
theorem C7_session_id_reused_after_overflow :
    ((Driven.run brinkRun).provider.Create dashEndAuthn none).session.map Session.ID
        = some "x-y--9223372036854775807"
      ∧ ((Driven.run (brinkRun ++ Call.Create dashEndAuthn :: [Call.Refresh 1])).provider.Create
          dashAuthn none).session.map Session.ID = some "x-y--9223372036854775807" := by
  rw [run_append, brinkRun_state]
  exact ⟨by decide, by decide⟩

/-- C7: session identifiers are not reused while the counter has not
overflowed.  On one provider built by `NewMockProvider`, any two `Create` calls
(nil callback) return sessions with different ids, for every choice of users
and principals and whatever `Refresh` and `Invalidate` calls and clock changes
come before and in between, when fewer than `2^63` `Create` and `Refresh` calls
precede the later one.  Every `Create` call has issued one session, and the ids
of all sessions issued in such a run are pairwise different. -/
theorem C7_session_ids_never_reused (before between : List Call) (a1 a2 : AuthnSession)
    (hrun : (before ++ Call.Create a1 :: between).countP Call.advances < 2 ^ 63) :
    (∃ s1 s2, ((Driven.run before).provider.Create a1 none).session = some s1
        ∧ ((Driven.run (before ++ Call.Create a1 :: between)).provider.Create a2 none).session
            = some s2
        ∧ s1.ID ≠ s2.ID)
      ∧ (Driven.run before).issued.length = before.countP Call.isCreate
      ∧ ((Driven.run before).issued.map Session.ID).Nodup := by
  have hbefore : before.countP Call.advances < 2 ^ 63 := by
    rw [List.countP_append] at hrun
    omega
  refine ⟨?_, ?_, (Inv_run before hbefore).issued_nodup⟩
  · obtain ⟨s1, h1, _⟩ := Create_none_session (Driven.run before).provider a1
    obtain ⟨s2, h2, _, _, _, _, h6, _⟩ := Create_none_session
      (Driven.run (before ++ Call.Create a1 :: between)).provider a2
    refine ⟨s1, s2, h1, h2, fun hEq => ?_⟩
    have hmem : s1.ID ∈ (Driven.run (before ++ Call.Create a1 :: between)).issued.map
        Session.ID := by
      have hrun2 : Driven.run (before ++ Call.Create a1 :: between)
          = between.foldl Driven.step ((Driven.run before).step (Call.Create a1)) := by
        simp [Driven.run, List.foldl_append]
      rw [hrun2]
      apply issued_ids_foldl
      simp only [Driven.step, h1, List.map_cons]
      exact List.mem_cons_self _ _
    have hd := Inv_run (before ++ Call.Create a1 :: between) hrun
    obtain ⟨h, hh, hid⟩ := List.mem_map.mp hmem
    obtain ⟨c, hc, hc2⟩ := hd.issued_id h hh
    have hnew : EndsWithCounter s2.ID
        (Driven.run (before ++ Call.Create a1 :: between)).provider.counter.natAbs :=
      h6 ▸ endsWithCounter_sessionIDFormat _ _ _
    exact counter_not_used hd.counter_nonneg hc (hEq ▸ hid ▸ hc2) hnew
  · have h := issued_length before { provider := NewMockProvider, issued := [] }
    simpa [Driven.run] using h

/-- A run of C7: two sessions for the same user and principal, the first one
refreshed and invalidated in between. -/
theorem C7_session_ids_never_reused_witness :
    ([] ++ Call.Create sampleAuthn :: [Call.Refresh 0, Call.Invalidate 0]).countP Call.advances
        < 2 ^ 63
      ∧ ((Driven.run []).provider.Create sampleAuthn none).session.map Session.ID
          = some "u1-p1-0"
      ∧ ((Driven.run ([] ++ Call.Create sampleAuthn :: [Call.Refresh 0, Call.Invalidate 0])
            ).provider.Create sampleAuthn none).session.map Session.ID = some "u1-p1-2"
      ∧ ∃ s1 s2, ((Driven.run []).provider.Create sampleAuthn none).session = some s1
        ∧ ((Driven.run ([] ++ Call.Create sampleAuthn :: [Call.Refresh 0, Call.Invalidate 0])
              ).provider.Create sampleAuthn none).session = some s2
        ∧ s1.ID ≠ s2.ID :=
  ⟨by decide, by decide, by decide,
    (C7_session_ids_never_reused [] [Call.Refresh 0, Call.Invalidate 0] sampleAuthn sampleAuthn
      (by decide)).1⟩

/-! ## List -/

theorem ListLoop_eq (userID : String) (order : List Entry) : ∀ acc : sessionSlice,
    MockProvider.ListLoop userID order acc
      = acc ++ (order.map (fun e => e.2)).filter (fun s => s.UserID = userID) := by
  induction order with
  | nil => intro acc; simp [MockProvider.ListLoop]
  | cons e rest ih =>
    intro acc
    obtain ⟨k, s⟩ := e
    simp only [MockProvider.ListLoop]
    split_ifs with h
    · rw [ih]; simp [List.filter_cons, h]
    · rw [ih]; simp [List.filter_cons, h]

theorem List_sessions_perm (p : MockProvider) (r : RangeOrder p.Sessions) (u : String) :
    (p.List r u).sessions.Perm (sessionsOf p u) := by
  simp only [MockProvider.List, sortSort, ListLoop_eq, List.nil_append]
  exact (List.perm_insertionSort _ _).trans ((r.property.map _).filter _)

theorem Less_iff (a b : Session) : sessionSlice.Less a b = true ↔ sortKey a < sortKey b := by
  simp only [sessionSlice.Less, decide_eq_true_eq, sortKey, Prod.Lex.lt_iff]

theorem Less_false_iff (a b : Session) : sessionSlice.Less b a = false ↔ sortKey a ≤ sortKey b := by
  rw [← not_lt, ← Less_iff]; simp

theorem sortSort_sorted (l : sessionSlice) :
    (sortSort l).Sorted (fun a b => sessionSlice.Less b a = false) := by
  haveI : IsTotal Session (fun a b => sessionSlice.Less b a = false) :=
    ⟨fun a b => by simp only [Less_false_iff]; exact le_total _ _⟩
  haveI : IsTrans Session (fun a b => sessionSlice.Less b a = false) :=
    ⟨fun a b c => by simp only [Less_false_iff]; exact le_trans⟩
  exact List.sorted_insertionSort _ l

theorem sessionsOf_ids_nodup (p : MockProvider) (hp : p.Keyed) (u : String) :
    ((sessionsOf p u).map Session.ID).Nodup := by
  have hsub : ((sessionsOf p u).map Session.ID).Sublist
      ((p.Sessions.entries.map (fun e => e.2)).map Session.ID) :=
    (List.filter_sublist _).map _
  have hkeys : (p.Sessions.entries.map (fun e => e.2)).map Session.ID = p.Sessions.keys := by
    simp only [List.map_map, AList.keys, List.keys]
    apply List.map_congr_left
    rintro ⟨k, s⟩ he
    exact hp k s ((mem_entries_iff_lookup _ _ _).mp he)
  rw [hkeys] at hsub
  exact hsub.nodup p.Sessions.keys_nodup

/-- A listing ordered by (creation time, id) over sessions of pairwise
different ids is strictly ordered. -/
theorem strictly_sorted_of_sorted (l : List Session) (hnd : (l.map Session.ID).Nodup)
    (hs : l.Sorted (fun a b => sessionSlice.Less b a = false)) :
    l.Pairwise (fun a b => sessionSlice.Less a b = true) := by
  have hne : l.Pairwise (fun a b => a.ID ≠ b.ID) := List.pairwise_map.mp hnd
  refine (List.Pairwise.and hs hne).imp ?_
  rintro a b ⟨h1, h2⟩
  rw [Less_iff]
  rw [Less_false_iff] at h1
  refine lt_of_le_of_ne h1 (fun h => h2 ?_)
  have h3 : a.ID.toList = b.ID.toList := congrArg (fun k => (ofLex k).2) h
  exact String.ext h3

theorem sorted_perm_unique (l1 l2 : List Session) (hperm : l1.Perm l2)
    (h1 : l1.Pairwise (fun a b => sessionSlice.Less a b = true))
    (h2 : l2.Pairwise (fun a b => sessionSlice.Less a b = true)) : l1 = l2 := by
  haveI : IsAntisymm Session (fun a b => sessionSlice.Less a b = true) :=
    ⟨fun a b hab hba => absurd ((Less_iff b a).mp hba) (lt_asymm ((Less_iff a b).mp hab))⟩
  exact List.eq_of_perm_of_sorted hperm h1 h2

/-- C9: `List` returns all and only the user's sessions.  In every provider
state, for every visiting order and user, the call returns a nil error and a
sequence that is a rearrangement of the copies of the stored sessions whose
UserID is the user, one per stored entry; every listed session is stored and
belongs to the user; the provider is unchanged. -/
theorem C9_List_all_and_only (p : MockProvider) (r : RangeOrder p.Sessions) (u : String) :
    (p.List r u).err = none
      ∧ (p.List r u).sessions.Perm (sessionsOf p u)
      ∧ (∀ k s, p.Sessions.lookup k = some s → s.UserID = u →
          (p.List r u).sessions.count s = (sessionsOf p u).count s
            ∧ s ∈ (p.List r u).sessions)
      ∧ (∀ s ∈ (p.List r u).sessions, s.UserID = u ∧ ∃ k, p.Sessions.lookup k = some s)
      ∧ (p.List r u).provider = p := by
  have hperm := List_sessions_perm p r u
  have hmem : ∀ s, s ∈ sessionsOf p u ↔ s.UserID = u ∧ ∃ k, p.Sessions.lookup k = some s := by
    intro s
    simp only [sessionsOf, List.mem_filter, List.mem_map, decide_eq_true_eq]
    constructor
    · rintro ⟨⟨e, he, rfl⟩, hu⟩
      exact ⟨hu, e.1, (mem_entries_iff_lookup _ _ _).mp he⟩
    · rintro ⟨hu, k, hk⟩
      exact ⟨⟨⟨k, s⟩, (mem_entries_iff_lookup _ _ _).mpr hk, rfl⟩, hu⟩
  refine ⟨rfl, hperm, ?_, ?_, rfl⟩
  · intro k s hk hu
    exact ⟨hperm.count_eq s, hperm.mem_iff.mpr ((hmem s).mpr ⟨hu, k, hk⟩)⟩
  · intro s hs
    exact (hmem s).mp (hperm.mem_iff.mp hs)

/-- C8, counterexample: in a provider whose map holds two sessions of one id
and one creation time under two keys, the sequence `List` returns follows the
order in which the map is visited. -/
theorem C8_List_order_depends_on_visit :
    (strayProvider.List (RangeOrder.stored _) "u").sessions = [strayFirst, straySecond]
      ∧ (strayProvider.List (RangeOrder.reversed _) "u").sessions = [straySecond, strayFirst]
      ∧ ¬ ∀ r1 r2 : RangeOrder strayProvider.Sessions,
          (strayProvider.List r1 "u").sessions = (strayProvider.List r2 "u").sessions := by
  have h1 : (strayProvider.List (RangeOrder.stored _) "u").sessions
      = [strayFirst, straySecond] := by decide
  have h2 : (strayProvider.List (RangeOrder.reversed _) "u").sessions = [straySecond, strayFirst] := by
    decide
  refine ⟨h1, h2, fun h => ?_⟩
  have h3 := h (RangeOrder.stored _) (RangeOrder.reversed _)
  rw [h1, h2] at h3
  exact absurd h3 (by decide)

/-- C8, amended: `List` is deterministically ordered when every session is
stored under its own id.  The sequence returned is then strictly ordered by
creation time with ties broken by identifier, it is the only arrangement of the
user's stored sessions in that order, and so it is the same for every order in
which the map is visited. -/
theorem C8_List_deterministic_order (p : MockProvider) (hp : p.Keyed)
    (r1 r2 : RangeOrder p.Sessions) (u : String) :
    (p.List r1 u).sessions.Pairwise
        (fun a b => a.CreatedAt < b.CreatedAt
          ∨ (a.CreatedAt = b.CreatedAt ∧ a.ID.toList < b.ID.toList))
      ∧ (p.List r1 u).sessions = (p.List r2 u).sessions
      ∧ ∀ l : List Session, l.Perm (sessionsOf p u) →
          l.Sorted (fun a b => sessionSlice.Less b a = false) → l = (p.List r1 u).sessions := by
  have hstrict : ∀ l : List Session, l.Perm (sessionsOf p u) →
      l.Sorted (fun a b => sessionSlice.Less b a = false) →
      l.Pairwise (fun a b => sessionSlice.Less a b = true) := fun l hl hs =>
    strictly_sorted_of_sorted l
      ((hl.map Session.ID).nodup_iff.mpr (sessionsOf_ids_nodup p hp u)) hs
  have hlist : ∀ r : RangeOrder p.Sessions,
      (p.List r u).sessions.Pairwise (fun a b => sessionSlice.Less a b = true) := fun r =>
    hstrict _ (List_sessions_perm p r u) (sortSort_sorted _)
  refine ⟨?_, ?_, ?_⟩
  · refine (hlist r1).imp ?_
    intro a b h
    simpa [sessionSlice.Less] using h
  · exact sorted_perm_unique _ _
      ((List_sessions_perm p r1 u).trans (List_sessions_perm p r2 u).symm) (hlist r1) (hlist r2)
  · intro l hl hs
    exact sorted_perm_unique _ _ (hl.trans (List_sessions_perm p r1 u).symm)
      (hstrict l hl hs) (hlist r1)

/-- C8 amended, on a provider that holds two sessions of one user created at
the same instant: both visiting orders give the listing ordered by id. -/
theorem C8_List_deterministic_order_witness :
    twiceProvider.Keyed
      ∧ (twiceProvider.List (RangeOrder.stored _) "u1").sessions
          = (twiceProvider.List (RangeOrder.reversed _) "u1").sessions
      ∧ ((twiceProvider.List (RangeOrder.reversed _) "u1").sessions.map Session.ID)
          = ["u1-p1-0", "u1-p1-1"] :=
  have hk : twiceProvider.Keyed := fun k s h =>
    (Inv_run [Call.Create sampleAuthn, Call.Create sampleAuthn] (by decide)).keyed ⟨k, s⟩
      ((mem_entries_iff_lookup _ k s).mpr h)
  ⟨hk,
    (C8_List_deterministic_order twiceProvider hk (RangeOrder.stored _) (RangeOrder.reversed _)
      "u1").2.1,
    by decide⟩

/-! ## Access and Refresh -/

/-- C10: `Access` sets the last-access timestamp to the current time and
persists it.  In every provider state and for every session, the call returns
a nil error, the session after the call is the session before it with
AccessedAt set to the provider's current UTC time, and `Get` with the
session's id afterwards returns exactly that session. -/
theorem C10_Access_updates_timestamp (p : MockProvider) (s : Session) :
    (p.Access s).err = none
      ∧ (p.Access s).session = { s with AccessedAt := p.Time.NowUTC }
      ∧ (p.Access s).session.AccessedAt = p.Time.NowUTC
      ∧ (p.Access s).provider.Get s.ID = (some (p.Access s).session, none) := by
  refine ⟨rfl, rfl, rfl, ?_⟩
  have h : (p.Access s).provider.Sessions.lookup s.ID = some (p.Access s).session :=
    AList.lookup_insert _
  simp only [MockProvider.Get, h]

/-- C6: what `Refresh` does to a session created at time 0 when the clock reads
100.  The access-token digest is replaced by the returned value, in the
session and in its stored copy, but AccessTokenCreatedAt keeps the value 0 that
`Create` gave it. -/
theorem C6_Refresh_keeps_issuance_timestamp :
    laterProvider.Time.NowUTC = 100
      ∧ laterProvider.Sessions.lookup sampleSession.ID = some sampleSession
      ∧ (laterProvider.Refresh sampleSession).session.AccessTokenHash
          = (laterProvider.Refresh sampleSession).token
      ∧ (laterProvider.Refresh sampleSession).provider.Sessions.lookup sampleSession.ID
          = some (laterProvider.Refresh sampleSession).session
      ∧ (laterProvider.Refresh sampleSession).session.AccessTokenCreatedAt = 0 := by
  decide

/-! ## Frame conditions of Access, Invalidate and Create -/

theorem erase_of_lookup_none (m : SessionMap) (k : String) (h : m.lookup k = none) :
    m.erase k = m := by
  apply AList.ext
  simp only [AList.erase]
  exact List.kerase_of_not_mem_keys (AList.lookup_eq_none.mp h)

/-- C11: `Access` touches nothing but the access timestamp.  In every provider
state and for every session, the session after the call agrees with the
session before it in CreatedAt and in every field other than AccessedAt; every
session stored under a key other than the session's id is unchanged; and the
keys stored afterwards are those stored before together with the session's
id. -/
theorem C11_Access_frame (p : MockProvider) (s : Session) :
    (p.Access s).session.CreatedAt = s.CreatedAt
      ∧ { (p.Access s).session with AccessedAt := s.AccessedAt } = s
      ∧ (∀ k, k ≠ s.ID → (p.Access s).provider.Sessions.lookup k = p.Sessions.lookup k)
      ∧ (∀ k, k ∈ (p.Access s).provider.Sessions ↔ k = s.ID ∨ k ∈ p.Sessions)
      ∧ (p.Access s).provider.counter = p.counter
      ∧ (p.Access s).provider.Time = p.Time := by
  refine ⟨rfl, rfl, ?_, ?_, rfl, rfl⟩
  · intro k hk
    exact AList.lookup_insert_ne hk
  · intro k
    exact AList.mem_insert _

/-- C16: `Create` fills the session from its inputs and the clock.  In every
provider state and for every request, `Create` with a nil callback succeeds
and returns a session whose UserID and PrincipalID are the requested ones and
whose CreatedAt, AccessedAt and AccessTokenCreatedAt all equal the provider's
current UTC time; that session is stored under its own id. -/
theorem C16_Create_fills_session (p : MockProvider) (a : AuthnSession) :
    ∃ sess, (p.Create a none).session = some sess
      ∧ (p.Create a none).err = none
      ∧ sess.UserID = a.UserID ∧ sess.PrincipalID = a.PrincipalID
      ∧ sess.CreatedAt = p.Time.NowUTC ∧ sess.AccessedAt = p.Time.NowUTC
      ∧ sess.AccessTokenCreatedAt = p.Time.NowUTC
      ∧ (p.Create a none).provider.Sessions.lookup sess.ID = some sess
      ∧ (p.Create a none).provider.Get sess.ID = (some sess, none) := by
  have h : (p.Create a none).provider.Sessions.lookup
      (sessionIDFormat a.UserID a.PrincipalID p.counter) = _ := AList.lookup_insert _
  exact ⟨_, rfl, rfl, rfl, rfl, rfl, rfl, rfl, h, by simp only [MockProvider.Get, h]⟩

/-- C17: `Invalidate` removes only its target.  In every provider state and for
every session, every session stored under a key other than the session's id
is unchanged; when nothing is stored under that id the provider is unchanged
altogether, so a non-empty store stays non-empty. -/
theorem C17_Invalidate_frame (p : MockProvider) (s : Session) :
    (∀ k, k ≠ s.ID → (p.Invalidate s).1.Sessions.lookup k = p.Sessions.lookup k)
      ∧ (p.Sessions.lookup s.ID = none → (p.Invalidate s).1 = p)
      ∧ (p.Sessions.lookup s.ID = none → p.Sessions.entries ≠ [] →
          (p.Invalidate s).1.Sessions.entries ≠ []) := by
  have hsame : p.Sessions.lookup s.ID = none → (p.Invalidate s).1 = p := by
    intro h
    simp only [MockProvider.Invalidate, erase_of_lookup_none p.Sessions s.ID h]
  refine ⟨?_, hsame, ?_⟩
  · intro k hk
    exact AList.lookup_erase_ne hk
  · intro h hne
    rw [hsame h]
    exact hne

/-! ## InvalidateBatch -/

theorem InvalidateBatch_eq_each (sessions : List Session) : ∀ p : MockProvider,
    (p.InvalidateBatch sessions).1 = InvalidateEach p sessions := by
  intro p
  rfl

theorem InvalidateEach_lookup (sessions : List Session) : ∀ (p : MockProvider) (k : String),
    (InvalidateEach p sessions).Sessions.lookup k
      = if k ∈ sessions.map Session.ID then none else p.Sessions.lookup k := by
  induction sessions with
  | nil => intro p k; simp [InvalidateEach]
  | cons s rest ih =>
    intro p k
    have hstep : InvalidateEach p (s :: rest) = InvalidateEach (p.Invalidate s).1 rest := rfl
    rw [hstep, ih]
    by_cases hk : k = s.ID
    · subst hk
      simp [MockProvider.Invalidate, AList.lookup_erase]
    · have h1 : (p.Invalidate s).1.Sessions.lookup k = p.Sessions.lookup k :=
        AList.lookup_erase_ne hk
      simp [h1, hk]

theorem InvalidateEach_fixed (sessions : List Session) : ∀ p : MockProvider,
    (∀ s ∈ sessions, p.Sessions.lookup s.ID = none) → InvalidateEach p sessions = p := by
  induction sessions with
  | nil => intro p _; rfl
  | cons s rest ih =>
    intro p h
    have hstep : InvalidateEach p (s :: rest) = InvalidateEach (p.Invalidate s).1 rest := rfl
    have hs : (p.Invalidate s).1 = p := by
      simp only [MockProvider.Invalidate,
        erase_of_lookup_none p.Sessions s.ID (h s (List.mem_cons_self _ _))]
    rw [hstep, hs]
    exact ih p (fun t ht => h t (List.mem_cons_of_mem _ ht))

/-- C12: `InvalidateBatch` has the idempotence guarantee of `Invalidate`.  In
every provider state and for every list of sessions, stored or not, repeated or
not, the call returns a nil error, leaves nothing stored under any listed id
and everything else as it was, gives the provider that calling `Invalidate` on
each element in turn gives, and a second application returns nil and changes
nothing. -/
theorem C12_InvalidateBatch_idempotent (p : MockProvider) (sessions : List Session) :
    (p.InvalidateBatch sessions).2 = none
      ∧ (∀ s ∈ sessions, (p.InvalidateBatch sessions).1.Sessions.lookup s.ID = none)
      ∧ (∀ k, k ∉ sessions.map Session.ID →
          (p.InvalidateBatch sessions).1.Sessions.lookup k = p.Sessions.lookup k)
      ∧ (p.InvalidateBatch sessions).1 = InvalidateEach p sessions
      ∧ ((p.InvalidateBatch sessions).1.InvalidateBatch sessions).2 = none
      ∧ ((p.InvalidateBatch sessions).1.InvalidateBatch sessions).1
          = (p.InvalidateBatch sessions).1 := by
  have hgone : ∀ s ∈ sessions, (InvalidateEach p sessions).Sessions.lookup s.ID = none := by
    intro s hs
    rw [InvalidateEach_lookup, if_pos (List.mem_map_of_mem _ hs)]
  refine ⟨rfl, ?_, ?_, InvalidateBatch_eq_each sessions p, rfl, ?_⟩
  · intro s hs
    rw [InvalidateBatch_eq_each]
    exact hgone s hs
  · intro k hk
    rw [InvalidateBatch_eq_each, InvalidateEach_lookup, if_neg hk]
  · rw [InvalidateBatch_eq_each, InvalidateBatch_eq_each]
    exact InvalidateEach_fixed sessions _ hgone

/-! ## InvalidateAll on a keyed store -/

theorem InvalidateAllLoop_lookup_none (u x : String) (order : List Entry) :
    ∀ (m : SessionMap) (k : String), m.lookup k = none →
      (MockProvider.InvalidateAllLoop u x order m).lookup k = none := by
  induction order with
  | nil => intro m k h; exact h
  | cons e rest ih =>
    intro m k h
    obtain ⟨key, session⟩ := e
    simp only [MockProvider.InvalidateAllLoop]
    split_ifs with h1 h2
    · exact ih m k h
    · apply ih
      by_cases hk : k = session.ID
      · rw [hk]; exact AList.lookup_erase _ _
      · rw [AList.lookup_erase_ne hk]; exact h
    · exact ih m k h

/-- A visited session of the user other than the excepted one is gone after
the loop, when every visited session sits under its own id. -/
theorem InvalidateAllLoop_removes (u x : String) (order : List Entry)
    (hkey : ∀ e ∈ order, e.2.ID = e.1) :
    ∀ (m : SessionMap) (k : String),
      (∃ e ∈ order, e.1 = k ∧ e.2.UserID = u ∧ e.2.ID ≠ x) →
      (MockProvider.InvalidateAllLoop u x order m).lookup k = none := by
  induction order with
  | nil => intro m k h; obtain ⟨e, he, _⟩ := h; cases he
  | cons e rest ih =>
    intro m k h
    have hrest : ∀ e ∈ rest, e.2.ID = e.1 := fun e he => hkey e (List.mem_cons_of_mem _ he)
    have hhead := hkey e (List.mem_cons_self _ _)
    obtain ⟨key, session⟩ := e
    simp only at hhead
    obtain ⟨w, hw, hw1, hw2, hw3⟩ := h
    simp only [MockProvider.InvalidateAllLoop]
    rcases List.mem_cons.mp hw with rfl | hw
    · simp only at hw1 hw2 hw3
      split_ifs with h1 h2
      · exact InvalidateAllLoop_lookup_none u x rest m k (hw1 ▸ h1)
      · apply InvalidateAllLoop_lookup_none
        rw [← hw1, ← hhead]
        exact AList.lookup_erase _ _
      · exact absurd ⟨hw2, hw3⟩ h2
    · split_ifs with h1 h2
      · exact ih hrest m k ⟨w, hw, hw1, hw2, hw3⟩
      · exact ih hrest _ k ⟨w, hw, hw1, hw2, hw3⟩
      · exact ih hrest m k ⟨w, hw, hw1, hw2, hw3⟩

/-- A key under which no visited session is to be removed keeps its entry. -/
theorem InvalidateAllLoop_keeps (u x : String) (order : List Entry)
    (hkey : ∀ e ∈ order, e.2.ID = e.1) :
    ∀ (m : SessionMap) (k : String),
      (¬ ∃ e ∈ order, e.1 = k ∧ e.2.UserID = u ∧ e.2.ID ≠ x) →
      (MockProvider.InvalidateAllLoop u x order m).lookup k = m.lookup k := by
  induction order with
  | nil => intro m k _; rfl
  | cons e rest ih =>
    intro m k h
    have hrest : ∀ e ∈ rest, e.2.ID = e.1 := fun e he => hkey e (List.mem_cons_of_mem _ he)
    have hhead := hkey e (List.mem_cons_self _ _)
    have hno : ¬ ∃ e ∈ rest, e.1 = k ∧ e.2.UserID = u ∧ e.2.ID ≠ x := fun ⟨w, hw, hw2⟩ =>
      h ⟨w, List.mem_cons_of_mem _ hw, hw2⟩
    obtain ⟨key, session⟩ := e
    simp only at hhead
    simp only [MockProvider.InvalidateAllLoop]
    split_ifs with h1 h2
    · exact ih hrest m k hno
    · rw [ih hrest _ k hno]
      apply AList.lookup_erase_ne
      intro hk
      exact h ⟨⟨key, session⟩, List.mem_cons_self _ _, by rw [hk, hhead], h2.1, h2.2⟩
    · exact ih hrest m k hno

theorem Keyed_run (calls : List Call) : (Driven.run calls).provider.Keyed := fun k s h =>
  keyed_foldl calls _ (by intro e he; simp [NewMockProvider] at he) ⟨k, s⟩
    ((mem_entries_iff_lookup _ k s).mpr h)

/-- C13: `InvalidateAll` logs the user out everywhere else.  In every provider
state in which each session is stored under its own id, and for every order
of visiting the map, the call returns a nil error; every stored session of
the user with an id other than the excepted one is gone; every stored session
of another user, and the session with the excepted id, is still stored
unchanged; and nothing is stored afterwards that was not stored before. -/
theorem C13_InvalidateAll_everywhere_else (p : MockProvider) (hp : p.Keyed)
    (r : RangeOrder p.Sessions) (u x : String) :
    (p.InvalidateAll r u x).2 = none
      ∧ (∀ k s, p.Sessions.lookup k = some s → s.UserID = u → s.ID ≠ x →
          (p.InvalidateAll r u x).1.Sessions.lookup k = none)
      ∧ (∀ k s, p.Sessions.lookup k = some s → (s.UserID ≠ u ∨ s.ID = x) →
          (p.InvalidateAll r u x).1.Sessions.lookup k = some s)
      ∧ (∀ k s, (p.InvalidateAll r u x).1.Sessions.lookup k = some s →
          p.Sessions.lookup k = some s ∧ (s.UserID ≠ u ∨ s.ID = x)) := by
  have hmem : ∀ e : Entry, e ∈ r.val ↔ p.Sessions.lookup e.1 = some e.2 := fun e => by
    rw [r.property.mem_iff]; exact mem_entries_iff_lookup p.Sessions e.1 e.2
  have hkey : ∀ e ∈ r.val, e.2.ID = e.1 := fun e he => hp e.1 e.2 ((hmem e).mp he)
  have hkeep : ∀ k s, p.Sessions.lookup k = some s → (s.UserID ≠ u ∨ s.ID = x) →
      ¬ ∃ e ∈ r.val, e.1 = k ∧ e.2.UserID = u ∧ e.2.ID ≠ x := by
    rintro k s hks hs ⟨e, he, he1, he2, he3⟩
    have h1 := (hmem e).mp he
    rw [he1, hks] at h1
    have h2 : s = e.2 := Option.some.inj h1
    rcases hs with hs | hs
    · exact hs (h2 ▸ he2)
    · exact he3 (h2 ▸ hs)
  refine ⟨rfl, ?_, ?_, ?_⟩
  · intro k s hks hu hx
    exact InvalidateAllLoop_removes u x r.val hkey p.Sessions k
      ⟨⟨k, s⟩, (hmem ⟨k, s⟩).mpr hks, rfl, hu, hx⟩
  · intro k s hks hs
    exact (InvalidateAllLoop_keeps u x r.val hkey p.Sessions k (hkeep k s hks hs)).trans hks
  · intro k s hafter
    by_cases hex : ∃ e ∈ r.val, e.1 = k ∧ e.2.UserID = u ∧ e.2.ID ≠ x
    · have hnone := InvalidateAllLoop_removes u x r.val hkey p.Sessions k hex
      simp only [MockProvider.InvalidateAll] at hafter
      rw [hnone] at hafter
      cases hafter
    · have hsame := InvalidateAllLoop_keeps u x r.val hkey p.Sessions k hex
      simp only [MockProvider.InvalidateAll] at hafter
      rw [hsame] at hafter
      refine ⟨hafter, ?_⟩
      by_contra hcon
      push_neg at hcon
      exact hex ⟨⟨k, s⟩, (hmem ⟨k, s⟩).mpr hafter, rfl, hcon.1, hcon.2⟩

/-- C13 on a provider that holds two sessions of user `u1`: the one excepted
stays, the other one goes. -/
theorem C13_InvalidateAll_everywhere_else_witness :
    twiceProvider.Keyed
      ∧ twiceProvider.Sessions.lookup "u1-p1-1"
          = some sampleSecond
      ∧ (twiceProvider.InvalidateAll (RangeOrder.stored _) "u1" "u1-p1-0").1.Sessions.lookup
          "u1-p1-1" = none
      ∧ (twiceProvider.InvalidateAll (RangeOrder.stored _) "u1" "u1-p1-0").1.Sessions.lookup
          "u1-p1-0" = some sampleSession :=
  have hk : twiceProvider.Keyed := Keyed_run _
  have h := C13_InvalidateAll_everywhere_else twiceProvider hk (RangeOrder.stored _) "u1" "u1-p1-0"
  ⟨hk, by decide,
    h.2.1 "u1-p1-1" sampleSecond (by decide) (by decide) (by decide),
    h.2.2.1 "u1-p1-0" sampleSession (by decide) (Or.inr (by decide))⟩

/-! ## UpdatePrincipal -/

/-- C14, counterexample: a caller holds `sampleSession` as `Create` returned it,
while the stored copy has since been accessed at time 100.  `UpdatePrincipal`
on the caller's session stores that whole session: the stored record changes
its AccessedAt from 100 back to 0, not only its PrincipalID. -/
theorem C14_UpdatePrincipal_overwrites_record :
    accessedProvider.Sessions.lookup sampleSession.ID
        = some { sampleSession with AccessedAt := 100 }
      ∧ (accessedProvider.UpdatePrincipal sampleSession "p9").provider.Sessions.lookup
          sampleSession.ID = some { sampleSession with PrincipalID := "p9" }
      ∧ ¬ ∀ before after : Session,
          accessedProvider.Sessions.lookup sampleSession.ID = some before →
          (accessedProvider.UpdatePrincipal sampleSession "p9").provider.Sessions.lookup
            sampleSession.ID = some after →
          { after with PrincipalID := before.PrincipalID } = before := by
  have h1 : accessedProvider.Sessions.lookup sampleSession.ID
      = some { sampleSession with AccessedAt := 100 } := by decide
  have h2 : (accessedProvider.UpdatePrincipal sampleSession "p9").provider.Sessions.lookup
      sampleSession.ID = some { sampleSession with PrincipalID := "p9" } := by decide
  refine ⟨h1, h2, fun h => ?_⟩
  exact absurd (h _ _ h1 h2) (by decide)

/-- C14, amended: `UpdatePrincipal` stores the session it is given with the new
PrincipalID.  When the session given is the one stored under its id before the
call, the record stored under that id afterwards differs from the earlier one
only in PrincipalID, which is the requested one; in any case the call returns
a nil error and no session stored under another key is changed. -/
theorem C14_UpdatePrincipal_frame (p : MockProvider) (s : Session) (pid : String)
    (hs : p.Sessions.lookup s.ID = some s) :
    (p.UpdatePrincipal s pid).err = none
      ∧ (∃ before after, p.Sessions.lookup s.ID = some before
          ∧ (p.UpdatePrincipal s pid).provider.Sessions.lookup s.ID = some after
          ∧ after.PrincipalID = pid
          ∧ { after with PrincipalID := before.PrincipalID } = before)
      ∧ (∀ k, k ≠ s.ID →
          (p.UpdatePrincipal s pid).provider.Sessions.lookup k = p.Sessions.lookup k) := by
  refine ⟨rfl, ⟨s, { s with PrincipalID := pid }, hs, ?_, rfl, rfl⟩, ?_⟩
  · exact AList.lookup_insert _
  · intro k hk
    exact AList.lookup_insert_ne hk

/-- C14 amended, on the provider that has just created `sampleSession`. -/
theorem C14_UpdatePrincipal_frame_witness :
    (Driven.run [Call.Create sampleAuthn]).provider.Sessions.lookup sampleSession.ID
        = some sampleSession
      ∧ ((Driven.run [Call.Create sampleAuthn]).provider.UpdatePrincipal sampleSession
          "p9").provider.Sessions.lookup "u1-p1-0" = some { sampleSession with PrincipalID := "p9" }
      ∧ ∀ k, k ≠ sampleSession.ID →
          ((Driven.run [Call.Create sampleAuthn]).provider.UpdatePrincipal sampleSession
            "p9").provider.Sessions.lookup k
            = (Driven.run [Call.Create sampleAuthn]).provider.Sessions.lookup k :=
  ⟨by decide, by decide,
    (C14_UpdatePrincipal_frame (Driven.run [Call.Create sampleAuthn]).provider sampleSession "p9"
      (by decide)).2.2⟩

/-! ## The identifier presented as a token -/

theorem endsWithCounter_ne_empty {t : String} {c : Nat} (h : EndsWithCounter t c) : t ≠ "" := by
  obtain ⟨front, hf⟩ := h
  intro ht
  rw [ht] at hf
  have hlen := congrArg List.length hf
  simp at hlen
  omega

theorem access_token_ne_id (id : String) : "access-token-" ++ id ≠ id := by
  intro h
  have hlen := congrArg String.length h
  simp only [String.length_append] at hlen
  have h13 : ("access-token-" : String).length = 13 := by decide
  omega

theorem IdInv_init : Driven.IdInv { provider := NewMockProvider, issued := [] } where
  token_ne_id := by intro h hh; cases hh
  stored_no_refresh := by intro e he; simp [NewMockProvider] at he
  issued_no_refresh := by intro h hh; cases hh

theorem IdInv_Create (d : Driven) (hd : d.Inv) (hi : d.IdInv) (a : AuthnSession) :
    (d.step (Call.Create a)).IdInv := by
  obtain ⟨sess, h1, _, h3, _, _, h6, h7, _, _⟩ := Create_none_session d.provider a
  have hnn := hd.counter_nonneg
  have hid : EndsWithCounter sess.ID d.provider.counter.natAbs :=
    h6 ▸ endsWithCounter_sessionIDFormat _ _ _
  have htok : EndsWithCounter sess.AccessTokenHash d.provider.counter.natAbs :=
    h7 ▸ endsWithCounter_prepend _ _ _ hid
  have hnr : sess.RefreshTokenHash = "" := by
    have h := Option.some.inj h1
    rw [← h]
  have hstep : d.step (Call.Create a)
      = { provider := (d.provider.Create a none).provider, issued := sess :: d.issued } := by
    simp only [Driven.step, h1]
  rw [hstep]
  constructor
  · intro h hh e he heq
    simp only [h3] at he
    rcases List.mem_cons.mp hh with rfl | hh
    · rcases mem_insert_entries he with rfl | ⟨he, _⟩
      · simp only at heq
        rw [h7] at heq
        exact access_token_ne_id _ heq
      · obtain ⟨c, hc, hc2⟩ := hd.stored_token e he
        exact counter_not_used hnn hc (heq ▸ hc2) hid
    · rcases mem_insert_entries he with rfl | ⟨he, _⟩
      · obtain ⟨c, hc, hc2⟩ := hd.issued_id h hh
        exact counter_not_used hnn hc hc2 (heq ▸ htok)
      · exact hi.token_ne_id h hh e he heq
  · intro e he
    simp only [h3] at he
    rcases mem_insert_entries he with rfl | ⟨he, _⟩
    · exact hnr
    · exact hi.stored_no_refresh e he
  · intro h hh
    rcases List.mem_cons.mp hh with rfl | hh
    · exact hnr
    · exact hi.issued_no_refresh h hh

theorem IdInv_RefreshValue (d : Driven) (hd : d.Inv) (hi : d.IdInv) (s : Session)
    (hs : s.RefreshTokenHash = "") : (d.step (Call.RefreshValue s)).IdInv := by
  have htok : EndsWithCounter (d.provider.Refresh s).session.AccessTokenHash
      d.provider.counter.natAbs := endsWithCounter_accessTokenFormat _ _
  constructor
  · intro h hh e he heq
    rcases mem_insert_entries he with rfl | ⟨he, _⟩
    · obtain ⟨c, hc, hc2⟩ := hd.issued_id h hh
      exact counter_not_used hd.counter_nonneg hc hc2 (heq ▸ htok)
    · exact hi.token_ne_id h hh e he heq
  · intro e he
    rcases mem_insert_entries he with rfl | ⟨he, _⟩
    · exact hs
    · exact hi.stored_no_refresh e he
  · exact hi.issued_no_refresh

theorem IdInv_Refresh (d : Driven) (hd : d.Inv) (hi : d.IdInv) (i : Nat) :
    (d.step (Call.Refresh i)).IdInv := by
  cases hget : d.issued[i]? with
  | none => simpa [Driven.step, hget] using hi
  | some s =>
    have hs : s ∈ d.issued := List.getElem?_mem hget
    have hv := IdInv_RefreshValue d hd hi s (hi.issued_no_refresh s hs)
    have hstep : d.step (Call.Refresh i)
        = { provider := (d.provider.Refresh s).provider
            issued := d.issued.set i (d.provider.Refresh s).session } := by
      simp only [Driven.step, hget]
    rw [hstep]
    constructor
    · intro h hh e he heq
      rcases List.mem_or_eq_of_mem_set hh with hh | rfl
      · exact hv.token_ne_id h hh e he heq
      · exact hv.token_ne_id s hs e he heq
    · exact hv.stored_no_refresh
    · intro h hh
      rcases List.mem_or_eq_of_mem_set hh with hh | rfl
      · exact hi.issued_no_refresh h hh
      · exact hi.issued_no_refresh s hs

theorem IdInv_InvalidateValue (d : Driven) (hi : d.IdInv) (s : Session) :
    (d.step (Call.InvalidateValue s)).IdInv where
  token_ne_id := fun h hh e he heq => hi.token_ne_id h hh e (mem_erase_entries he).1 heq
  stored_no_refresh := fun e he => hi.stored_no_refresh e (mem_erase_entries he).1
  issued_no_refresh := hi.issued_no_refresh

theorem IdInv_step (d : Driven) (hd : d.Inv) (hi : d.IdInv) (c : Call)
    (hc : c.noRefreshToken = true) : (d.step c).IdInv := by
  cases c with
  | Create a => exact IdInv_Create d hd hi a
  | Refresh i => exact IdInv_Refresh d hd hi i
  | Invalidate i =>
    cases hget : d.issued[i]? with
    | none => simpa [Driven.step, hget] using hi
    | some s => simpa [Driven.step, hget] using IdInv_InvalidateValue d hi s
  | RefreshValue s =>
    exact IdInv_RefreshValue d hd hi s (by simpa [Call.noRefreshToken] using hc)
  | InvalidateValue s => exact IdInv_InvalidateValue d hi s
  | AdvanceClock now => exact ⟨hi.token_ne_id, hi.stored_no_refresh, hi.issued_no_refresh⟩

theorem IdInv_foldl (calls : List Call) : ∀ d : Driven, d.Inv → d.IdInv →
    d.provider.counter + (calls.countP Call.advances : Int) ≤ maxInt →
    calls.all Call.noRefreshToken = true → (calls.foldl Driven.step d).IdInv := by
  induction calls with
  | nil => intro d _ hi _ _; exact hi
  | cons c calls ih =>
    intro d hd hi hb hall
    simp only [List.all_cons, Bool.and_eq_true] at hall
    obtain ⟨h1, h2⟩ := Inv_step_bound d hd c calls hb
    exact ih _ h1 (IdInv_step d hd hi c hall.1) h2 hall.2

/-- C15, counterexamples.  First run: after one `Create`, `Refresh` is handed a
session of the caller's own making whose refresh-token digest is the id of the
issued session; `GetByToken` with that id and the refresh-token kind then
returns the caller's session.  Second run: the counter has reached the largest
`int`; `Create` for user `access-token-x` and principal `y-` issues the id
`access-token-x-y--9223372036854775807`, and two calls later, with the counter
at `-9223372036854775807`, `Create` for user `x` and principal `y` stores that
very string as its access token; `GetByToken` with the id of the first session
and the access-token kind then returns the second session. -/
theorem C15_id_authenticates :
    ((Driven.run [Call.Create sampleAuthn]).issued.map Session.ID = ["u1-p1-0"]
        ∧ (Driven.run [Call.Create sampleAuthn, Call.RefreshValue ghostSession]).issued.map
            Session.ID = ["u1-p1-0"]
        ∧ (Driven.run [Call.Create sampleAuthn, Call.RefreshValue ghostSession]
            ).provider.GetByToken (RangeOrder.stored _) "u1-p1-0"
            SessionTokenKind.SessionTokenKindRefreshToken
          = (some { ghostSession with AccessTokenHash := "access-token-ghost-1" }, none))
      ∧ (((Driven.run (brinkRun ++ [Call.Create tokenLikeAuthn, Call.Refresh 1,
              Call.Create dashAuthn])).issued.map Session.ID)[1]?
            = some "access-token-x-y--9223372036854775807"
          ∧ ((Driven.run (brinkRun ++ [Call.Create tokenLikeAuthn, Call.Refresh 1,
                Call.Create dashAuthn])).provider.GetByToken (RangeOrder.stored _)
                "access-token-x-y--9223372036854775807"
                SessionTokenKind.SessionTokenKindAccessToken).1.map Session.ID
              = some "x-y--9223372036854775807") := by
  refine ⟨⟨by decide, by decide, by decide⟩, ?_⟩
  rw [run_append, brinkRun_state]
  exact ⟨by decide, by decide⟩

/-- C15: the session identifier alone does not authenticate while the counter
has not overflowed and no caller supplies a refresh-token digest.  On a
provider built by `NewMockProvider` and driven by `Create` (nil callback),
`Refresh` and `Invalidate` calls, fewer than `2^63` of them `Create` or `Refresh`
calls, in which `Refresh` is handed no refresh-token digest of the caller's own
making, `GetByToken` with the id of any session that `Create` issued as the
token fails with `ErrSessionNotFound`, for the access-token kind and for the
refresh-token kind, in every visiting order. -/
theorem C15_id_alone_never_authenticates (calls : List Call)
    (hrun : calls.countP Call.advances < 2 ^ 63)
    (hcalls : calls.all Call.noRefreshToken = true) (s : Session)
    (hs : s ∈ (Driven.run calls).issued)
    (r1 r2 : RangeOrder (Driven.run calls).provider.Sessions) :
    (Driven.run calls).provider.GetByToken r1 s.ID SessionTokenKind.SessionTokenKindAccessToken
        = (none, some GoError.ErrSessionNotFound)
      ∧ (Driven.run calls).provider.GetByToken r2 s.ID
          SessionTokenKind.SessionTokenKindRefreshToken
        = (none, some GoError.ErrSessionNotFound) := by
  have hd := Inv_run calls hrun
  have hi : (Driven.run calls).IdInv := by
    rw [two_pow_63] at hrun
    refine IdInv_foldl calls _ Inv_init IdInv_init ?_ hcalls
    simp only [NewMockProvider, maxInt]
    omega
  constructor
  · unfold MockProvider.GetByToken
    rcases GetByTokenLoop_result s.ID SessionTokenKind.SessionTokenKindAccessToken r1.val with
      ⟨h1, _⟩ | ⟨e, he, _, h2⟩
    · exact h1
    · exfalso
      simp only [tokenOfKind, Option.some.injEq] at h2
      exact hi.token_ne_id s hs e (r1.property.mem_iff.mp he) h2
  · unfold MockProvider.GetByToken
    rcases GetByTokenLoop_result s.ID SessionTokenKind.SessionTokenKindRefreshToken r2.val with
      ⟨h1, _⟩ | ⟨e, he, _, h2⟩
    · exact h1
    · exfalso
      simp only [tokenOfKind, Option.some.injEq] at h2
      obtain ⟨c, _, hc⟩ := hd.issued_id s hs
      rw [hi.stored_no_refresh e (r2.property.mem_iff.mp he)] at h2
      exact endsWithCounter_ne_empty hc h2.symm

/-- C15 on a run that creates two sessions and refreshes the older one. -/
theorem C15_id_alone_never_authenticates_witness :
    [Call.Create sampleAuthn, Call.Create sampleAuthn, Call.Refresh 1].countP Call.advances
        < 2 ^ 63
      ∧ sampleSecond ∈ (Driven.run
        [Call.Create sampleAuthn, Call.Create sampleAuthn, Call.Refresh 1]).issued
      ∧ (Driven.run [Call.Create sampleAuthn, Call.Create sampleAuthn,
            Call.Refresh 1]).provider.GetByToken (RangeOrder.stored _) "u1-p1-1"
          SessionTokenKind.SessionTokenKindAccessToken = (none, some GoError.ErrSessionNotFound)
      ∧ (Driven.run [Call.Create sampleAuthn, Call.Create sampleAuthn,
            Call.Refresh 1]).provider.GetByToken (RangeOrder.reversed _) "u1-p1-1"
          SessionTokenKind.SessionTokenKindRefreshToken = (none, some GoError.ErrSessionNotFound) :=
  ⟨by decide, by decide,
    C15_id_alone_never_authenticates
      [Call.Create sampleAuthn, Call.Create sampleAuthn, Call.Refresh 1] (by decide) (by decide)
      sampleSecond (by decide) (RangeOrder.stored _) (RangeOrder.reversed _)⟩

/-! ## Password principals -/

theorem Attributes_lookup (p : password.Principal) (k : String) :
    p.Attributes.lookup k
      = if k = "realm" then some (GoValue.string p.Realm)
        else if k = "login_id" then some (GoValue.string p.LoginID)
        else if k = "login_id_key" then some (GoValue.string p.LoginIDKey)
        else none := by
  unfold password.Principal.Attributes
  split_ifs with h1 h2 h3
  · rw [h1]; exact AList.lookup_insert _
  · rw [AList.lookup_insert_ne h1, h2]; exact AList.lookup_insert _
  · rw [AList.lookup_insert_ne h1, AList.lookup_insert_ne h2, h3]; exact AList.lookup_insert _
  · rw [AList.lookup_insert_ne h1, AList.lookup_insert_ne h2, AList.lookup_insert_ne h3]
    exact AList.lookup_empty _

theorem deriveClaims_ClaimsValue (p : password.Principal) (checker : password.loginIDChecker) :
    (p.deriveClaims checker).ClaimsValue
      = some (if (checker.standardKey p.LoginIDKey).2 then
          AList.insert (checker.standardKey p.LoginIDKey).1 (GoValue.string p.LoginID) ∅
        else ∅) := by
  unfold password.Principal.deriveClaims
  rcases hck : checker.standardKey p.LoginIDKey with ⟨k, b⟩
  cases b <;> simp

/-- C18: the password hash never appears in attribute or claim projections.
For every password principal, `Attributes()` has exactly the keys
`login_id_key`, `login_id` and `realm`, bound to LoginIDKey, LoginID and Realm,
so no value of it is the hash; and replacing HashedPassword by any other bytes
leaves `Attributes()` and, after `deriveClaims` with the same checker,
`Claims()` unchanged. -/
theorem C18_password_hash_not_projected (p : password.Principal)
    (checker : password.loginIDChecker) (hash : List (Fin 256)) :
    (∀ k, p.Attributes.lookup k
        = if k = "realm" then some (GoValue.string p.Realm)
          else if k = "login_id" then some (GoValue.string p.LoginID)
          else if k = "login_id_key" then some (GoValue.string p.LoginIDKey)
          else none)
      ∧ p.Attributes.keys.length = 3
      ∧ (∀ k v, p.Attributes.lookup k = some v → v ≠ GoValue.bytes p.HashedPassword)
      ∧ ({ p with HashedPassword := hash } : password.Principal).Attributes = p.Attributes
      ∧ (({ p with HashedPassword := hash } : password.Principal).deriveClaims checker).Claims
          = (p.deriveClaims checker).Claims := by
  refine ⟨Attributes_lookup p, rfl, ?_, rfl, ?_⟩
  · intro k v hv
    rw [Attributes_lookup] at hv
    split_ifs at hv <;> cases hv <;> simp
  · simp only [password.Principal.Claims, deriveClaims_ClaimsValue]

/-- C19: password claims are derived from the login-id key.  For every principal
and checker, after `deriveClaims` `Claims()` is the one-entry map binding the
standard key to LoginID when the checker gives a standard key for LoginIDKey,
and an empty non-nil map when it gives none; a ClaimsValue held before has no
influence, and no other field of the principal changes. -/
theorem C19_deriveClaims (p : password.Principal) (checker : password.loginIDChecker) :
    (∀ k, checker.standardKey p.LoginIDKey = (k, true) →
        (p.deriveClaims checker).Claims = some (AList.singleton k (GoValue.string p.LoginID)))
      ∧ (∀ k, checker.standardKey p.LoginIDKey = (k, false) →
          (p.deriveClaims checker).Claims = some ∅)
      ∧ (p.deriveClaims checker).Claims ≠ none
      ∧ (∀ old, ({ p with ClaimsValue := old } : password.Principal).deriveClaims checker
          = p.deriveClaims checker)
      ∧ ({ p.deriveClaims checker with ClaimsValue := p.ClaimsValue } : password.Principal) = p := by
  refine ⟨?_, ?_, ?_, ?_, ?_⟩
  · intro k hk
    simp only [password.Principal.Claims, deriveClaims_ClaimsValue, hk, if_true,
      AList.insert_empty]
  · intro k hk
    simp [password.Principal.Claims, deriveClaims_ClaimsValue, hk]
  · simp [password.Principal.Claims, deriveClaims_ClaimsValue]
  · intro old
    unfold password.Principal.deriveClaims
    rcases hck : checker.standardKey p.LoginIDKey with ⟨k, b⟩
    simp [hck]
  · unfold password.Principal.deriveClaims
    rcases hck : checker.standardKey p.LoginIDKey with ⟨k, b⟩
    simp

/-! ## Request signing -/

/-- C20: `Sign` then `Verify` succeeds inside the validity window.  For every
key, request, signing time and validity, `Verify` with the same key on the
signed request returns no error at every instant `now` with
`now - t <= validity`. -/
theorem C20_Sign_then_Verify (scheme : httpsigning.Scheme) (key : List (Fin 256))
    (r : httpsigning.Request) (t now : Time) (validity : Int) (hnow : now - t ≤ validity) :
    httpsigning.Verify scheme key (httpsigning.Sign scheme key r t validity) now = none := by
  simp only [httpsigning.Verify, httpsigning.Sign, ne_eq, not_true_eq_false, if_false]
  rw [if_neg (not_lt.mpr hnow)]

/-- C20 on the test's data: signed and verified at the same instant, valid for
five seconds. -/
theorem C20_Sign_then_Verify_witness :
    (1570763045 : Time) - 1570763045 ≤ 5
      ∧ httpsigning.Verify sampleScheme [115, 101, 99, 114, 101, 116]
          (httpsigning.Sign sampleScheme [115, 101, 99, 114, 101, 116] sampleRequest
            1570763045 5) 1570763045 = none :=
  ⟨by decide,
    C20_Sign_then_Verify sampleScheme [115, 101, 99, 114, 101, 116] sampleRequest 1570763045
      1570763045 5 (by decide)⟩

/-! ## An expired signature -/

/-- C21: a stale signature is rejected as expired.  For every key, request,
signing time and validity, `Verify` with the same key on the signed and
otherwise untouched request fails with `ErrExpiredSignature`, and so not with
`ErrInvalidSignature`, at every instant `now` with `now - t > validity`. -/
theorem C21_stale_signature_expired (scheme : httpsigning.Scheme) (key : List (Fin 256))
    (r : httpsigning.Request) (t now : Time) (validity : Int) (hnow : now - t > validity) :
    httpsigning.Verify scheme key (httpsigning.Sign scheme key r t validity) now
        = some httpsigning.Error.ErrExpiredSignature
      ∧ httpsigning.Verify scheme key (httpsigning.Sign scheme key r t validity) now
        ≠ some httpsigning.Error.ErrInvalidSignature := by
  have h : httpsigning.Verify scheme key (httpsigning.Sign scheme key r t validity) now
      = some httpsigning.Error.ErrExpiredSignature := by
    simp only [httpsigning.Verify, httpsigning.Sign, ne_eq, not_true_eq_false, if_false]
    rw [if_pos hnow]
  exact ⟨h, by rw [h]; decide⟩

/-- C21 on the test's data: signed for five seconds, verified six seconds later. -/
theorem C21_stale_signature_expired_witness :
    (1570763051 : Time) - 1570763045 > 5
      ∧ httpsigning.Verify sampleScheme [115, 101, 99, 114, 101, 116]
          (httpsigning.Sign sampleScheme [115, 101, 99, 114, 101, 116] sampleRequest
            1570763045 5) 1570763051 = some httpsigning.Error.ErrExpiredSignature :=
  ⟨by decide,
    (C21_stale_signature_expired sampleScheme [115, 101, 99, 114, 101, 116] sampleRequest
      1570763045 1570763051 5 (by decide)).1⟩

/-! ## Signup payload -/

/-- C22: signup payload validation.  `Validate` returns nil exactly when the
payload has no login ids and an empty password, or at least one login id and
a non-empty password; with no login ids and a non-empty password it returns
the InvalidArgument error `empty login_id`, with login ids and an empty
password the InvalidArgument error `empty password`. -/
theorem C22_Signup_Validate (p : SignupRequestPayload) :
    (p.Validate = none ↔
        (p.lenLoginIDs = 0 ∧ p.Password = "") ∨ (0 < p.lenLoginIDs ∧ p.Password ≠ ""))
      ∧ (p.lenLoginIDs = 0 → p.Password ≠ "" →
          p.Validate = some (skyerr.Error.NewInvalidArgument "empty login_id" ["login_id"]))
      ∧ (0 < p.lenLoginIDs → p.Password = "" →
          p.Validate = some (skyerr.Error.NewInvalidArgument "empty password" ["password"])) := by
  unfold SignupRequestPayload.Validate SignupRequestPayload.isAnonymous
  by_cases h1 : p.lenLoginIDs = 0 <;> by_cases h2 : p.Password = "" <;>
    simp [h1, h2, Nat.pos_iff_ne_zero]

/-! ## Create with a callback, and the keying invariant -/

theorem Create_none_eq (p : MockProvider) (a : AuthnSession) :
    (p.Create a none).session = some (createdSession p a)
      ∧ (p.Create a none).tokens.ID = (createdSession p a).ID := ⟨rfl, rfl⟩

theorem Create_tokens_ID (p : MockProvider) (a : AuthnSession)
    (cb : Option (Session → Session × Option GoError)) :
    (p.Create a cb).tokens.ID = sessionIDFormat a.UserID a.PrincipalID p.counter := by
  unfold MockProvider.Create
  cases cb with
  | none => rfl
  | some f =>
    simp only
    split <;> rfl

theorem Create_counter (p : MockProvider) (a : AuthnSession)
    (cb : Option (Session → Session × Option GoError)) :
    (p.Create a cb).provider.counter = wrapInt (p.counter + 1) := by
  unfold MockProvider.Create
  cases cb with
  | none => rfl
  | some f =>
    simp only
    split <;> rfl

theorem InvalidateEach_counter (sessions : List Session) : ∀ p : MockProvider,
    (InvalidateEach p sessions).counter = p.counter := by
  induction sessions with
  | nil => intro p; rfl
  | cons s rest ih =>
    intro p
    have hstep : InvalidateEach p (s :: rest) = InvalidateEach (p.Invalidate s).1 rest := rfl
    rw [hstep, ih]
    rfl

/-- C27, counterexample: in the provider that `brinkRun` leaves, whose counter
is the largest `int`, `Create` for user `x` and principal `y-` with a callback
that fails returns no session and the id `x-y--9223372036854775807`; after one
`Refresh` the counter is `-9223372036854775807`, and `Create` for user `x` and
principal `y` issues a session with that id. -/
theorem C27_rejected_id_issued_after_overflow :
    (Driven.run brinkRun).provider.counter = maxInt
      ∧ ((Driven.run brinkRun).provider.Create dashEndAuthn (some rejectingCallback)).session
          = none
      ∧ ((Driven.run brinkRun).provider.Create dashEndAuthn (some rejectingCallback)).tokens.ID
          = "x-y--9223372036854775807"
      ∧ (((((Driven.run brinkRun).provider.Create dashEndAuthn
              (some rejectingCallback)).provider.Refresh sampleSession).provider.Create
            dashAuthn none).session.map Session.ID
          = some "x-y--9223372036854775807") := by
  rw [brinkRun_state]
  exact ⟨by decide, by decide, by decide, by decide⟩

/-- C27: `Create` leaves the stored sessions alone when its callback fails.  In
every provider state and for every request, if the callback returns an error
for the session `Create` built, then `Create` returns a nil session and that
same error, the Sessions map and the clock are exactly as before, and the
counter has changed: one was added to it with wrap-around, which is plain
addition below the largest `int`.  The id of the rejected session differs from
the id `Create` makes, with or without a callback and for any user and
principal, in any provider state whose counter has another absolute value, so
in any state with a larger counter when the counter was not negative.  Every
operation leaves the counter alone or adds one to it with wrap-around. -/
theorem C27_Create_callback_failure (p : MockProvider) (a : AuthnSession)
    (cb : Session → Session × Option GoError) (e : GoError)
    (hcb : (cb (createdSession p a)).2 = some e) :
    (p.Create a (some cb)).session = none
      ∧ (p.Create a (some cb)).err = some e
      ∧ (p.Create a (some cb)).provider.Sessions = p.Sessions
      ∧ (p.Create a (some cb)).provider.Time = p.Time
      ∧ (p.Create a (some cb)).provider.counter = wrapInt (p.counter + 1)
      ∧ (p.Create a (some cb)).provider.counter ≠ p.counter
      ∧ (0 ≤ p.counter → p.counter < maxInt →
          (p.Create a (some cb)).provider.counter = p.counter + 1)
      ∧ (p.Create a (some cb)).tokens.ID = (createdSession p a).ID
      ∧ (∀ (q : MockProvider) (a2 : AuthnSession)
            (cb2 : Option (Session → Session × Option GoError)),
          (q.counter.natAbs ≠ p.counter.natAbs ∨ (0 ≤ p.counter ∧ p.counter < q.counter)) →
          (q.Create a2 cb2).tokens.ID ≠ (p.Create a (some cb)).tokens.ID
            ∧ ∀ s2, (q.Create a2 none).session = some s2 →
                s2.ID ≠ (p.Create a (some cb)).tokens.ID)
      ∧ (∀ q : MockProvider,
          (∀ a2 cb2, (q.Create a2 cb2).provider.counter = wrapInt (q.counter + 1))
            ∧ (∀ s, (q.Refresh s).provider.counter = wrapInt (q.counter + 1))
            ∧ (∀ s, (q.Access s).provider.counter = q.counter)
            ∧ (∀ s opts, (q.UpdateMFA s opts).provider.counter = q.counter)
            ∧ (∀ s pid, (q.UpdatePrincipal s pid).provider.counter = q.counter)
            ∧ (∀ s, (q.Invalidate s).1.counter = q.counter)
            ∧ (∀ sessions, (q.InvalidateBatch sessions).1.counter = q.counter)
            ∧ (∀ r u x, (q.InvalidateAll r u x).1.counter = q.counter)) := by
  have hres : p.Create a (some cb)
      = { provider := { p with counter := wrapInt (p.counter + 1) }, session := none
          tokens := { ID := (createdSession p a).ID
                      AccessToken := "access-token-" ++ (createdSession p a).ID }
          err := some e } := by
    have hfold : MockProvider.Create p a (some cb)
        = match cb (createdSession p a) with
          | (_, some err) =>
            { provider := { p with counter := wrapInt (p.counter + 1) }, session := none
              tokens := { ID := (createdSession p a).ID
                          AccessToken := "access-token-" ++ (createdSession p a).ID }
              err := some err }
          | (sess1, none) =>
            { provider := { p with counter := wrapInt (p.counter + 1)
                                   Sessions := p.Sessions.insert sess1.ID sess1 }
              session := some sess1
              tokens := { ID := (createdSession p a).ID
                          AccessToken := "access-token-" ++ (createdSession p a).ID }
              err := none } := rfl
    rw [hfold]
    rcases hc : cb (createdSession p a) with ⟨s1, err⟩
    rw [hc] at hcb
    simp only at hcb
    subst hcb
    rfl
  rw [hres]
  refine ⟨rfl, rfl, rfl, rfl, rfl, wrapInt_succ_ne _, fun h1 h2 => wrapInt_succ_of_lt _ h1 h2,
    rfl, ?_, ?_⟩
  swap
  · intro q
    refine ⟨fun a2 cb2 => Create_counter q a2 cb2, fun s => rfl, fun _ => rfl, fun _ _ => rfl,
      fun _ _ => rfl, fun _ => rfl, fun sessions => ?_, fun _ _ _ => rfl⟩
    rw [InvalidateBatch_eq_each]; exact InvalidateEach_counter sessions q
  intro q a2 cb2 hq
  have habs : q.counter.natAbs ≠ p.counter.natAbs := by
    rcases hq with hq | ⟨h1, h2⟩
    · exact hq
    · omega
  have hne : sessionIDFormat a2.UserID a2.PrincipalID q.counter ≠ (createdSession p a).ID := by
    intro heq
    have h1 : EndsWithCounter (createdSession p a).ID q.counter.natAbs :=
      heq ▸ endsWithCounter_sessionIDFormat _ _ _
    have h2 : EndsWithCounter (createdSession p a).ID p.counter.natAbs :=
      endsWithCounter_sessionIDFormat _ _ _
    exact habs (h1.unique h2)
  refine ⟨by rw [Create_tokens_ID]; exact hne, ?_⟩
  intro s2 hs2
  have h3 := (Create_none_eq q a2).1
  rw [h3] at hs2
  rw [← Option.some.inj hs2]
  exact hne

/-- C27 on a new provider with a callback that rejects every session. -/
theorem C27_Create_callback_failure_witness :
    (rejectingCallback (createdSession NewMockProvider sampleAuthn)).2
        = some (GoError.other "rejected")
      ∧ (NewMockProvider.Create sampleAuthn (some rejectingCallback)).session = none
      ∧ (NewMockProvider.Create sampleAuthn (some rejectingCallback)).provider.Sessions
          = NewMockProvider.Sessions
      ∧ (NewMockProvider.Create sampleAuthn (some rejectingCallback)).provider.counter = 1
      ∧ (NewMockProvider.Create sampleAuthn (some rejectingCallback)).tokens.ID = "u1-p1-0"
      ∧ ((NewMockProvider.Create sampleAuthn (some rejectingCallback)).provider.Create
          sampleAuthn none).tokens.ID = "u1-p1-1" :=
  have h := C27_Create_callback_failure NewMockProvider sampleAuthn rejectingCallback
    (GoError.other "rejected") rfl
  ⟨rfl, h.1, h.2.2.1, by decide, by decide, by decide⟩

/-! ## The keying invariant -/

theorem Keyed_insert (p : MockProvider) (hp : p.Keyed) (s : Session) (q : MockProvider)
    (hq : q.Sessions = p.Sessions.insert s.ID s) : q.Keyed := by
  intro k t hk
  rw [hq] at hk
  by_cases hks : k = s.ID
  · rw [hks, AList.lookup_insert] at hk
    rw [hks, ← Option.some.inj hk]
  · rw [AList.lookup_insert_ne hks] at hk
    exact hp k t hk

theorem Keyed_of_sub (p q : MockProvider) (hp : p.Keyed)
    (hsub : ∀ k t, q.Sessions.lookup k = some t → p.Sessions.lookup k = some t) : q.Keyed :=
  fun k t hk => hp k t (hsub k t hk)

theorem InvalidateAllLoop_sub (u x : String) (order : List Entry) :
    ∀ (m : SessionMap) (k : String) (t : Session),
      (MockProvider.InvalidateAllLoop u x order m).lookup k = some t → m.lookup k = some t := by
  induction order with
  | nil => intro m k t h; exact h
  | cons e rest ih =>
    intro m k t h
    obtain ⟨key, session⟩ := e
    simp only [MockProvider.InvalidateAllLoop] at h
    split_ifs at h with h1 h2
    · exact ih m k t h
    · have h3 := ih _ k t h
      by_cases hk : k = session.ID
      · rw [hk, AList.lookup_erase] at h3
        cases h3
      · rwa [AList.lookup_erase_ne hk] at h3
    · exact ih m k t h

theorem Create_some_Sessions (p : MockProvider) (a : AuthnSession)
    (cb : Session → Session × Option GoError) :
    (p.Create a (some cb)).provider.Sessions = p.Sessions
      ∨ ∃ s, (p.Create a (some cb)).provider.Sessions = p.Sessions.insert s.ID s := by
  have hfold : MockProvider.Create p a (some cb)
      = match cb (createdSession p a) with
        | (_, some err) =>
          { provider := { p with counter := wrapInt (p.counter + 1) }, session := none
            tokens := { ID := (createdSession p a).ID
                        AccessToken := "access-token-" ++ (createdSession p a).ID }
            err := some err }
        | (sess1, none) =>
          { provider := { p with counter := wrapInt (p.counter + 1)
                                 Sessions := p.Sessions.insert sess1.ID sess1 }
            session := some sess1
            tokens := { ID := (createdSession p a).ID
                        AccessToken := "access-token-" ++ (createdSession p a).ID }
            err := none } := rfl
  rw [hfold]
  rcases cb (createdSession p a) with ⟨s1, err⟩
  cases err with
  | none => exact Or.inr ⟨s1, rfl⟩
  | some e => exact Or.inl rfl

/-- C26: the keying invariant of `MockProvider`.  That every stored session
sits under the key equal to its own ID holds for `NewMockProvider()` and, in a
provider where it holds, still holds after `Create` with a nil or any other
callback, `Access`, `Refresh`, `UpdateMFA`, `UpdatePrincipal`, `Invalidate`,
`InvalidateBatch`, `InvalidateAll` and `List`, for every argument and visiting
order; `Get` and `GetByToken` write nothing and return sessions that are
stored under their own ID. -/
theorem C26_keying_invariant :
    NewMockProvider.Keyed
      ∧ ∀ p : MockProvider, p.Keyed →
        (∀ a cb, (p.Create a cb).provider.Keyed)
        ∧ (∀ s, (p.Access s).provider.Keyed)
        ∧ (∀ s, (p.Refresh s).provider.Keyed)
        ∧ (∀ s opts, (p.UpdateMFA s opts).provider.Keyed)
        ∧ (∀ s pid, (p.UpdatePrincipal s pid).provider.Keyed)
        ∧ (∀ s, (p.Invalidate s).1.Keyed)
        ∧ (∀ sessions, (p.InvalidateBatch sessions).1.Keyed)
        ∧ (∀ r u x, (p.InvalidateAll r u x).1.Keyed)
        ∧ (∀ r u, (p.List r u).provider.Keyed)
        ∧ (∀ id s, p.Get id = (some s, none) → s.ID = id)
        ∧ (∀ r token kind s, p.GetByToken r token kind = (some s, none) →
            p.Sessions.lookup s.ID = some s) := by
  refine ⟨?_, ?_⟩
  · intro k s h
    simp [NewMockProvider, AList.lookup_empty] at h
  · intro p hp
    refine ⟨?_, ?_, ?_, ?_, ?_, ?_, ?_, ?_, ?_, ?_, ?_⟩
    · intro a cb
      cases cb with
      | none => exact Keyed_insert p hp (createdSession p a) _ rfl
      | some f =>
        rcases Create_some_Sessions p a f with h | ⟨s, h⟩
        · exact Keyed_of_sub p _ hp (fun k t hk => by rwa [h] at hk)
        · exact Keyed_insert p hp s _ h
    · intro s
      exact Keyed_insert p hp (p.Access s).session _ rfl
    · intro s
      exact Keyed_insert p hp (p.Refresh s).session _ rfl
    · intro s opts
      exact Keyed_insert p hp (p.UpdateMFA s opts).session _ rfl
    · intro s pid
      exact Keyed_insert p hp (p.UpdatePrincipal s pid).session _ rfl
    · intro s
      refine Keyed_of_sub p _ hp (fun k t hk => ?_)
      by_cases hks : k = s.ID
      · simp only [MockProvider.Invalidate] at hk
        rw [hks, AList.lookup_erase] at hk
        cases hk
      · simp only [MockProvider.Invalidate] at hk
        rwa [AList.lookup_erase_ne hks] at hk
    · intro sessions
      refine Keyed_of_sub p _ hp (fun k t hk => ?_)
      rw [InvalidateBatch_eq_each, InvalidateEach_lookup] at hk
      split_ifs at hk
      exact hk
    · intro r u x
      exact Keyed_of_sub p _ hp (fun k t hk => InvalidateAllLoop_sub u x r.val p.Sessions k t hk)
    · intro r u
      exact hp
    · intro id s h
      unfold MockProvider.Get at h
      cases hl : p.Sessions.lookup id with
      | none => rw [hl] at h; simp at h
      | some t =>
        rw [hl] at h
        simp only [Prod.mk.injEq, Option.some.injEq, and_true] at h
        rw [← h]
        exact hp id t hl
    · intro r token kind s h
      unfold MockProvider.GetByToken at h
      rcases GetByTokenLoop_result token kind r.val with ⟨h1, _⟩ | ⟨e, he, h1, _⟩
      · rw [h1] at h; simp at h
      · rw [h1] at h
        simp only [Prod.mk.injEq, Option.some.injEq, and_true] at h
        have hl : p.Sessions.lookup e.1 = some e.2 :=
          (mem_entries_iff_lookup _ _ _).mp (r.property.mem_iff.mp he)
        rw [← h, hp e.1 e.2 hl]
        exact hl

/-! ## SSO login -/

/-- C23: an external token verification failure is fatal to the SSO login
attempt.  Whenever the provider's `ExternalAccessTokenGetAuthInfo` returns an
error, `Handle` returns that error with the zero response, the world is left
as the provider call left it, and the outcome is the same whatever
`loginActionResp` is, so the login action is not invoked.  When the external
access token flow is disabled, or the provider does not support it, `Handle`
returns an error, the world is untouched, and the outcome is the same whatever
the provider and the login action are, so neither is invoked. -/
theorem C23_external_failure_fatal {World AuthInfo AuthResponse TokenResp : Type}
    (h : sso.LoginHandler World AuthInfo AuthResponse TokenResp)
    (payload : sso.LoginRequestPayload) (w : World) :
    (∀ provider info err w1, h.ExternalAccessTokenFlowEnabled = true →
        h.Provider = some provider →
        provider (h.NewBearerAccessTokenResp payload.AccessToken) w = ((info, some err), w1) →
        h.Handle payload w = ((h.zeroAuthResponse, some err), w1)
          ∧ ∀ action, ({ h with loginActionResp := action } :
              sso.LoginHandler World AuthInfo AuthResponse TokenResp).Handle payload w
              = h.Handle payload w)
      ∧ (h.ExternalAccessTokenFlowEnabled = false →
          h.Handle payload w
            = ((h.zeroAuthResponse,
                some (skyerr.Error.NewError skyerr.ErrorCode.UndefinedOperation
                  "External access token flow is disabled")), w)
          ∧ ∀ provider action, ({ h with Provider := provider, loginActionResp := action } :
              sso.LoginHandler World AuthInfo AuthResponse TokenResp).Handle payload w
              = h.Handle payload w)
      ∧ (h.ExternalAccessTokenFlowEnabled = true → h.Provider = none →
          h.Handle payload w
            = ((h.zeroAuthResponse,
                some (skyerr.Error.NewInvalidArgument "Provider is not supported"
                  [h.ProviderID])), w)
          ∧ ∀ action, ({ h with loginActionResp := action } :
              sso.LoginHandler World AuthInfo AuthResponse TokenResp).Handle payload w
              = h.Handle payload w) := by
  refine ⟨?_, ?_, ?_⟩
  · intro provider info err w1 hen hprov hcall
    have hmain : ∀ action, ({ h with loginActionResp := action } :
        sso.LoginHandler World AuthInfo AuthResponse TokenResp).Handle payload w
        = ((h.zeroAuthResponse, some err), w1) := by
      intro action
      simp only [sso.LoginHandler.Handle, hen, hprov, hcall, Bool.not_true, Bool.false_eq_true,
        if_false]
    have hself : h.Handle payload w = ((h.zeroAuthResponse, some err), w1) := by
      simp only [sso.LoginHandler.Handle, hen, hprov, hcall, Bool.not_true, Bool.false_eq_true,
        if_false]
    exact ⟨hself, fun action => (hmain action).trans hself.symm⟩
  · intro hen
    have hself : h.Handle payload w
        = ((h.zeroAuthResponse,
            some (skyerr.Error.NewError skyerr.ErrorCode.UndefinedOperation
              "External access token flow is disabled")), w) := by
      simp only [sso.LoginHandler.Handle, hen, Bool.not_false, if_true]
    refine ⟨hself, fun provider action => ?_⟩
    rw [hself]
    simp only [sso.LoginHandler.Handle, hen, Bool.not_false, if_true]
  · intro hen hprov
    have hself : h.Handle payload w
        = ((h.zeroAuthResponse,
            some (skyerr.Error.NewInvalidArgument "Provider is not supported"
              [h.ProviderID])), w) := by
      simp only [sso.LoginHandler.Handle, hen, hprov, Bool.not_true, Bool.false_eq_true,
        if_false]
    refine ⟨hself, fun action => ?_⟩
    rw [hself]
    simp only [sso.LoginHandler.Handle, hen, hprov, Bool.not_true, Bool.false_eq_true, if_false]

/-! ## Schema response -/

theorem fieldLoop_eq {FieldType : Type} (T : FieldType → String)
    (order : List (Sigma (fun _ : String => FieldType))) : ∀ acc : List schemaField,
    schemaResponse.fieldLoop T order acc = acc ++ visibleFields T order := by
  induction order with
  | nil => intro acc; simp [schemaResponse.fieldLoop, visibleFields]
  | cons e rest ih =>
    intro acc
    obtain ⟨name, val⟩ := e
    simp only [schemaResponse.fieldLoop]
    split_ifs with h
    · rw [ih]; simp [visibleFields, List.filter_cons, h]
    · rw [ih]; simp [visibleFields, List.filter_cons, h]

theorem visibleFields_names {FieldType : Type} (T : FieldType → String)
    (order : List (Sigma (fun _ : String => FieldType))) :
    ((visibleFields T order).map schemaField.Name).Sublist order.keys := by
  simp only [visibleFields, List.map_map, List.keys]
  exact (List.filter_sublist _).map _

theorem mem_visibleFields {FieldType : Type} (T : FieldType → String)
    (order : List (Sigma (fun _ : String => FieldType))) (f : schemaField) :
    f ∈ visibleFields T order ↔
      ∃ e ∈ order, strings.HasPrefix e.1 "_" = false ∧ f = { Name := e.1, TypeName := T e.2 } := by
  simp only [visibleFields, List.mem_map, List.mem_filter, Bool.not_eq_true']
  constructor
  · rintro ⟨e, ⟨he, hp⟩, rfl⟩
    exact ⟨e, he, hp, rfl⟩
  · rintro ⟨e, he, hp, rfl⟩
    exact ⟨e, ⟨he, hp⟩, rfl⟩

theorem fieldLess_iff (a b : schemaField) :
    schemaFieldList.Less a b = true ↔ a.Name.toList < b.Name.toList := by
  unfold schemaFieldList.Less strings.Compare
  by_cases h1 : a.Name.toList < b.Name.toList
  · rw [if_pos h1]
    simpa using h1
  · rw [if_neg h1]
    by_cases h2 : a.Name = b.Name
    · rw [if_pos h2]
      simpa using h1
    · rw [if_neg h2]
      simpa using h1

theorem fieldLess_false_iff (a b : schemaField) :
    schemaFieldList.Less b a = false ↔ a.Name.toList ≤ b.Name.toList := by
  rw [← not_lt, ← fieldLess_iff]; simp

theorem sortFields_perm (l : List schemaField) : (sortFields l).Perm l :=
  List.perm_insertionSort _ l

theorem sortFields_sorted (l : List schemaField) :
    (sortFields l).Sorted (fun a b => schemaFieldList.Less b a = false) := by
  haveI : IsTotal schemaField (fun a b => schemaFieldList.Less b a = false) :=
    ⟨fun a b => by simp only [fieldLess_false_iff]; exact le_total _ _⟩
  haveI : IsTrans schemaField (fun a b => schemaFieldList.Less b a = false) :=
    ⟨fun a b c => by simp only [fieldLess_false_iff]; exact le_trans⟩
  exact List.sorted_insertionSort _ l

theorem fields_strictly_sorted (l : List schemaField) (hnd : (l.map schemaField.Name).Nodup)
    (hs : l.Sorted (fun a b => schemaFieldList.Less b a = false)) :
    l.Pairwise (fun a b => a.Name.toList < b.Name.toList) := by
  have hne : l.Pairwise (fun a b => a.Name ≠ b.Name) := List.pairwise_map.mp hnd
  refine (List.Pairwise.and hs hne).imp ?_
  rintro a b ⟨h1, h2⟩
  rw [fieldLess_false_iff] at h1
  exact lt_of_le_of_ne h1 (fun h => h2 (String.ext h))

theorem fields_sorted_unique (l1 l2 : List schemaField) (hperm : l1.Perm l2)
    (h1 : l1.Pairwise (fun a b => a.Name.toList < b.Name.toList))
    (h2 : l2.Pairwise (fun a b => a.Name.toList < b.Name.toList)) : l1 = l2 := by
  haveI : IsAntisymm schemaField (fun a b => a.Name.toList < b.Name.toList) :=
    ⟨fun a b hab hba => absurd hba (lt_asymm hab)⟩
  exact List.eq_of_perm_of_sorted hperm h1 h2

/-- What the sorted field list of a schema is, for any order of ranging over
its fields. -/
theorem encoded_fields {FieldType : Type} (T : FieldType → String)
    (schema : RecordSchema FieldType) (o : MapOrder schema) :
    (sortFields (schemaResponse.fieldLoop T o.val [])).Perm (visibleFields T schema.entries)
      ∧ (sortFields (schemaResponse.fieldLoop T o.val [])).Pairwise
          (fun a b => a.Name.toList < b.Name.toList) := by
  have hperm : (sortFields (schemaResponse.fieldLoop T o.val [])).Perm
      (visibleFields T schema.entries) := by
    rw [fieldLoop_eq, List.nil_append]
    refine (sortFields_perm _).trans ?_
    simp only [visibleFields]
    exact (o.property.filter _).map _
  refine ⟨hperm, fields_strictly_sorted _ ?_ (sortFields_sorted _)⟩
  refine (hperm.map schemaField.Name).nodup_iff.mpr ?_
  exact (visibleFields_names T schema.entries).nodup schema.keys_nodup

theorem recordLoop_lookup {FieldType : Type} (T : FieldType → String)
    (inner : ∀ (_recordType : String) (schema : RecordSchema FieldType), MapOrder schema)
    (order : List (Sigma (fun _ : String => RecordSchema FieldType))) :
    order.NodupKeys → ∀ (acc : AList (fun _ : String => schemaFieldList)) (rt : String),
      (schemaResponse.recordLoop T inner order acc).lookup rt
        = match List.dlookup rt order with
          | some schema =>
            some { Fields := sortFields (schemaResponse.fieldLoop T (inner rt schema).val []) }
          | none => acc.lookup rt := by
  induction order with
  | nil => intro _ acc rt; rfl
  | cons e rest ih =>
    intro hnd acc rt
    obtain ⟨k, schema⟩ := e
    have hnd2 := List.nodupKeys_cons.mp hnd
    simp only [schemaResponse.recordLoop]
    rw [ih hnd2.2]
    by_cases hk : rt = k
    · subst hk
      have hnone : List.dlookup rt rest = none := List.dlookup_eq_none.mpr hnd2.1
      rw [hnone, List.dlookup_cons_eq]
      exact AList.lookup_insert _
    · rw [List.dlookup_cons_ne _ _ hk]
      cases hl : List.dlookup rt rest with
      | some s => rfl
      | none => exact AList.lookup_insert_ne hk

theorem Encode_lookup {FieldType : Type} (T : FieldType → String)
    (data : AList (fun _ : String => RecordSchema FieldType)) (outer : MapOrder data)
    (inner : ∀ (_recordType : String) (schema : RecordSchema FieldType), MapOrder schema)
    (rt : String) :
    (schemaResponse.Encode T data outer inner).Schemas.lookup rt
      = match data.lookup rt with
        | some schema =>
          some { Fields := sortFields (schemaResponse.fieldLoop T (inner rt schema).val []) }
        | none => none := by
  have hnd : outer.val.NodupKeys := (List.perm_nodupKeys outer.property).mpr data.nodupKeys
  have hl : List.dlookup rt outer.val = data.lookup rt :=
    List.perm_dlookup rt hnd data.nodupKeys outer.property
  simp only [schemaResponse.Encode]
  rw [recordLoop_lookup T inner outer.val hnd, hl]
  cases data.lookup rt with
  | some s => rfl
  | none => exact AList.lookup_empty _

/-- C28: schema encoding hides reserved fields and sorts the rest.  For every
map of record schemas and every order of visiting the maps, the result has
exactly the record types of the data as keys; for each record type the field
list has exactly one entry, with the name and the simple type name, for every
field whose name does not start with `_`, every entry is such a field, and the
entries are in strictly ascending order of name; and the result is the same
for every other order of visiting the maps. -/
theorem C28_Encode_sorted_visible {FieldType : Type} (T : FieldType → String)
    (data : AList (fun _ : String => RecordSchema FieldType)) (outer outer2 : MapOrder data)
    (inner inner2 : ∀ (_recordType : String) (schema : RecordSchema FieldType),
      MapOrder schema) :
    (∀ rt, rt ∈ (schemaResponse.Encode T data outer inner).Schemas ↔ rt ∈ data)
      ∧ (∀ rt schema, data.lookup rt = some schema →
          ∃ fl, (schemaResponse.Encode T data outer inner).Schemas.lookup rt = some fl
            ∧ (∀ name ty, schema.lookup name = some ty → strings.HasPrefix name "_" = false →
                fl.Fields.count { Name := name, TypeName := T ty } = 1
                  ∧ ∀ f ∈ fl.Fields, f.Name = name → f = { Name := name, TypeName := T ty })
            ∧ (∀ f ∈ fl.Fields, strings.HasPrefix f.Name "_" = false
                ∧ ∃ ty, schema.lookup f.Name = some ty ∧ f.TypeName = T ty)
            ∧ fl.Fields.Pairwise (fun a b => a.Name.toList < b.Name.toList))
      ∧ (∀ rt, (schemaResponse.Encode T data outer2 inner2).Schemas.lookup rt
          = (schemaResponse.Encode T data outer inner).Schemas.lookup rt) := by
  refine ⟨?_, ?_, ?_⟩
  · intro rt
    rw [← AList.lookup_isSome, ← AList.lookup_isSome, Encode_lookup]
    cases data.lookup rt <;> rfl
  · intro rt schema hrt
    refine ⟨_, by rw [Encode_lookup, hrt], ?_, ?_, ?_⟩
    · intro name ty hname hvis
      obtain ⟨hperm, hsorted⟩ := encoded_fields T schema (inner rt schema)
      have hmem : ({ Name := name, TypeName := T ty } : schemaField)
          ∈ visibleFields T schema.entries :=
        (mem_visibleFields T _ _).mpr
          ⟨⟨name, ty⟩, (AList.mem_lookup_iff.mp (Option.mem_def.mpr hname)), hvis, rfl⟩
      have hnames : ((sortFields (schemaResponse.fieldLoop T (inner rt schema).val [])).map
          schemaField.Name).Nodup :=
        (hperm.map schemaField.Name).nodup_iff.mpr
          ((visibleFields_names T schema.entries).nodup schema.keys_nodup)
      have hin := hperm.mem_iff.mpr hmem
      refine ⟨List.count_eq_one_of_mem (List.Nodup.of_map _ hnames) hin, ?_⟩
      intro f hf hfn
      exact List.inj_on_of_nodup_map hnames hf hin hfn
    · intro f hf
      obtain ⟨hperm, _⟩ := encoded_fields T schema (inner rt schema)
      obtain ⟨e, he, hvis, rfl⟩ := (mem_visibleFields T _ _).mp (hperm.mem_iff.mp hf)
      refine ⟨hvis, e.2, ?_, rfl⟩
      exact Option.mem_def.mp (AList.mem_lookup_iff.mpr he)
    · exact (encoded_fields T schema (inner rt schema)).2
  · intro rt
    rw [Encode_lookup, Encode_lookup]
    cases data.lookup rt with
    | none => rfl
    | some schema =>
      simp only [Option.some.injEq, schemaFieldList.mk.injEq]
      obtain ⟨hp1, hs1⟩ := encoded_fields T schema (inner rt schema)
      obtain ⟨hp2, hs2⟩ := encoded_fields T schema (inner2 rt schema)
      exact fields_sorted_unique _ _ (hp2.trans hp1.symm) hs2 hs1

/-! ## Zero values for nil fields: the two loops, case by case -/

theorem updateLoop_untagged (recurse : marshal.GoType → marshal.Value → Option marshal.Value)
    (decls : marshal.Decls) (f : marshal.StructField) (rest : List marshal.StructField)
    (i : Nat) (field : Nat → marshal.Value) (htag : f.zerovalueTag ≠ "true") :
    marshal.updateLoop recurse decls (f :: rest) i field
      = marshal.updateLoop recurse decls rest (i + 1) field := by
  simp only [marshal.updateLoop, htag, ne_eq, not_false_eq_true, if_true]

theorem updateLoop_named (recurse : marshal.GoType → marshal.Value → Option marshal.Value)
    (decls : marshal.Decls) (f : marshal.StructField) (rest : List marshal.StructField)
    (i : Nat) (field : Nat → marshal.Value) (name : String)
    (hft : f.FieldType = marshal.GoType.named name) :
    marshal.updateLoop recurse decls (f :: rest) i field
      = marshal.updateLoop recurse decls rest (i + 1) field := by
  simp only [marshal.updateLoop, hft]
  split_ifs <;> rfl

theorem updateLoop_pointer (recurse : marshal.GoType → marshal.Value → Option marshal.Value)
    (decls : marshal.Decls) (f : marshal.StructField) (rest : List marshal.StructField)
    (i : Nat) (field : Nat → marshal.Value) (e : marshal.GoType)
    (htag : f.zerovalueTag = "true") (hft : f.FieldType = marshal.GoType.pointer e) :
    marshal.updateLoop recurse decls (f :: rest) i field
      = match recurse e (marshal.elemOrNew decls e (field i)) with
        | none => none
        | some ele =>
          marshal.updateLoop recurse decls rest (i + 1)
            (Function.update field i (marshal.Value.ptr ele)) := by
  simp only [marshal.updateLoop, hft, htag, ne_eq, not_true_eq_false, if_false]

theorem checkLoop_untagged
    (recurse : marshal.GoType → marshal.Value → List String → Option (Bool × marshal.Value))
    (decls : marshal.Decls) (ps : List String) (f : marshal.StructField)
    (rest : List marshal.StructField) (i : Nat) (field : Nat → marshal.Value)
    (htag : f.zerovalueTag ≠ "true") :
    marshal.checkLoop recurse decls ps (f :: rest) i field
      = marshal.checkLoop recurse decls ps rest (i + 1) field := by
  simp only [marshal.checkLoop, htag, ne_eq, not_false_eq_true, if_true]

theorem checkLoop_named
    (recurse : marshal.GoType → marshal.Value → List String → Option (Bool × marshal.Value))
    (decls : marshal.Decls) (ps : List String) (f : marshal.StructField)
    (rest : List marshal.StructField) (i : Nat) (field : Nat → marshal.Value) (name : String)
    (hft : f.FieldType = marshal.GoType.named name) :
    marshal.checkLoop recurse decls ps (f :: rest) i field
      = marshal.checkLoop recurse decls ps rest (i + 1) field := by
  simp only [marshal.checkLoop, hft]
  split_ifs <;> rfl

theorem checkLoop_duplicate
    (recurse : marshal.GoType → marshal.Value → List String → Option (Bool × marshal.Value))
    (decls : marshal.Decls) (ps : List String) (f : marshal.StructField)
    (rest : List marshal.StructField) (i : Nat) (field : Nat → marshal.Value)
    (e : marshal.GoType) (htag : f.zerovalueTag = "true")
    (hft : f.FieldType = marshal.GoType.pointer e) (hin : marshal.typeName f.FieldType ∈ ps) :
    marshal.checkLoop recurse decls ps (f :: rest) i field
      = some (false,
          Function.update field i (marshal.Value.ptr (marshal.elemOrNew decls e (field i)))) := by
  rw [hft] at hin
  simp only [marshal.checkLoop, hft, htag, hin, ne_eq, not_true_eq_false, if_false, if_true]

theorem checkLoop_recurse
    (recurse : marshal.GoType → marshal.Value → List String → Option (Bool × marshal.Value))
    (decls : marshal.Decls) (ps : List String) (f : marshal.StructField)
    (rest : List marshal.StructField) (i : Nat) (field : Nat → marshal.Value)
    (e : marshal.GoType) (htag : f.zerovalueTag = "true")
    (hft : f.FieldType = marshal.GoType.pointer e) (hin : marshal.typeName f.FieldType ∉ ps) :
    marshal.checkLoop recurse decls ps (f :: rest) i field
      = match recurse e (marshal.elemOrNew decls e (field i))
            (marshal.typeName f.FieldType :: ps) with
        | none => none
        | some (pass, ele) =>
          if !pass then some (false, Function.update field i (marshal.Value.ptr ele))
          else
            marshal.checkLoop recurse decls ps rest (i + 1)
              (Function.update field i (marshal.Value.ptr ele)) := by
  rw [hft] at hin
  simp only [marshal.checkLoop, hft, htag, hin, ne_eq, not_true_eq_false, if_false]

theorem Update_succ (decls : marshal.Decls) (fuel : Nat) (name : String)
    (fields : List marshal.StructField) (v : marshal.Value)
    (hf : marshal.structFields decls name = some fields) :
    marshal.UpdateNilFieldsWithZeroValue decls (fuel + 1) (marshal.GoType.named name) v
      = (marshal.updateLoop (marshal.UpdateNilFieldsWithZeroValue decls fuel) decls fields 0
          v.fields).map marshal.Value.struct := by
  simp only [marshal.UpdateNilFieldsWithZeroValue, hf]

theorem Update_not_struct (decls : marshal.Decls) (fuel : Nat) (t : marshal.GoType)
    (v : marshal.Value)
    (ht : ∀ name fields, t = marshal.GoType.named name →
      marshal.structFields decls name ≠ some fields) :
    marshal.UpdateNilFieldsWithZeroValue decls (fuel + 1) t v = some v := by
  cases t with
  | pointer e => rfl
  | named name =>
    simp only [marshal.UpdateNilFieldsWithZeroValue]
    cases hf : marshal.structFields decls name with
    | none => rfl
    | some fields => exact absurd hf (ht name fields rfl)

theorem check_succ (decls : marshal.Decls) (fuel : Nat) (name : String)
    (fields : List marshal.StructField) (v : marshal.Value) (ps : List String)
    (hf : marshal.structFields decls name = some fields) :
    marshal.ShouldNotHaveDuplicatedTypeInSamePath decls (fuel + 1) (marshal.GoType.named name)
        v ps
      = (marshal.checkLoop (marshal.ShouldNotHaveDuplicatedTypeInSamePath decls fuel) decls ps
          fields 0 v.fields).map (fun r => (r.1, marshal.Value.struct r.2)) := by
  simp only [marshal.ShouldNotHaveDuplicatedTypeInSamePath, hf]

theorem check_not_struct (decls : marshal.Decls) (fuel : Nat) (t : marshal.GoType)
    (v : marshal.Value) (ps : List String)
    (ht : ∀ name fields, t = marshal.GoType.named name →
      marshal.structFields decls name ≠ some fields) :
    marshal.ShouldNotHaveDuplicatedTypeInSamePath decls (fuel + 1) t v ps = some (true, v) := by
  cases t with
  | pointer e => rfl
  | named name =>
    simp only [marshal.ShouldNotHaveDuplicatedTypeInSamePath]
    cases hf : marshal.structFields decls name with
    | none => rfl
    | some fields => exact absurd hf (ht name fields rfl)

/-! ## Zero values for nil fields: termination -/

theorem structFields_typeNames (decls : marshal.Decls) (name : String)
    (fields : List marshal.StructField) (h : marshal.structFields decls name = some fields) :
    ∀ f ∈ fields, marshal.typeName f.FieldType ∈ marshal.fieldTypeNames decls := by
  induction decls with
  | nil => simp [marshal.structFields] at h
  | cons d rest ih =>
    obtain ⟨declared, fs⟩ := d
    intro f hf
    simp only [marshal.structFields] at h
    simp only [marshal.fieldTypeNames, List.mem_append, List.mem_map]
    split_ifs at h with hn
    · simp only [Option.some.injEq] at h
      subst h
      exact Or.inl ⟨f, hf, rfl⟩
    · exact Or.inr (ih h f hf)

theorem checkLoop_total
    (recurse : marshal.GoType → marshal.Value → List String → Option (Bool × marshal.Value))
    (decls : marshal.Decls) (ps : List String) (fields : List marshal.StructField)
    (hrec : ∀ f ∈ fields, f.zerovalueTag = "true" → ∀ e, f.FieldType = marshal.GoType.pointer e →
      marshal.typeName f.FieldType ∉ ps →
      ∀ w, (recurse e w (marshal.typeName f.FieldType :: ps)).isSome = true) :
    ∀ (i : Nat) (field : Nat → marshal.Value),
      (marshal.checkLoop recurse decls ps fields i field).isSome = true := by
  induction fields with
  | nil => intro i field; rfl
  | cons f rest ih =>
    intro i field
    have ih2 := ih (fun g hg => hrec g (List.mem_cons_of_mem _ hg))
    by_cases htag : f.zerovalueTag = "true"
    · rcases hft : f.FieldType with name | e
      · rw [checkLoop_named _ _ _ _ _ _ _ name hft]; exact ih2 _ _
      · by_cases hin : marshal.typeName f.FieldType ∈ ps
        · rw [checkLoop_duplicate _ _ _ _ _ _ _ e htag hft hin]; rfl
        · rw [checkLoop_recurse _ _ _ _ _ _ _ e htag hft hin]
          have hsome := hrec f (List.mem_cons_self _ _) htag e hft hin
            (marshal.elemOrNew decls e (field i))
          rcases hr : recurse e (marshal.elemOrNew decls e (field i))
              (marshal.typeName f.FieldType :: ps) with _ | ⟨pass, ele⟩
          · rw [hr] at hsome; cases hsome
          · cases pass
            · rfl
            · exact ih2 _ _
    · rw [checkLoop_untagged _ _ _ _ _ _ _ htag]; exact ih2 _ _

theorem check_total (decls : marshal.Decls) : ∀ (k : Nat) (t : marshal.GoType)
    (v : marshal.Value) (ps : List String), ps.Nodup →
    ps ⊆ marshal.fieldTypeNames decls →
    (marshal.fieldTypeNames decls).length - ps.length ≤ k →
    (marshal.ShouldNotHaveDuplicatedTypeInSamePath decls (k + 1) t v ps).isSome = true := by
  intro k
  induction k with
  | zero =>
    intro t v ps hnd hsub hk
    by_cases ht : ∃ name fields, t = marshal.GoType.named name
        ∧ marshal.structFields decls name = some fields
    · obtain ⟨name, fields, rfl, hf⟩ := ht
      rw [check_succ decls _ name fields v ps hf, Option.isSome_map']
      apply checkLoop_total
      intro f hfm _ e _ hnot w
      exfalso
      have hnd2 : (marshal.typeName f.FieldType :: ps).Nodup := List.nodup_cons.mpr ⟨hnot, hnd⟩
      have hsub2 : (marshal.typeName f.FieldType :: ps) ⊆ marshal.fieldTypeNames decls :=
        List.cons_subset.mpr ⟨structFields_typeNames decls name fields hf f hfm, hsub⟩
      have hlen := (List.subperm_of_subset hnd2 hsub2).length_le
      simp only [List.length_cons] at hlen
      omega
    · rw [check_not_struct decls _ t v ps (fun name fields h1 h2 => ht ⟨name, fields, h1, h2⟩)]
      rfl
  | succ k ih =>
    intro t v ps hnd hsub hk
    by_cases ht : ∃ name fields, t = marshal.GoType.named name
        ∧ marshal.structFields decls name = some fields
    · obtain ⟨name, fields, rfl, hf⟩ := ht
      rw [check_succ decls _ name fields v ps hf, Option.isSome_map']
      apply checkLoop_total
      intro f hfm _ e _ hnot w
      have hnd2 : (marshal.typeName f.FieldType :: ps).Nodup := List.nodup_cons.mpr ⟨hnot, hnd⟩
      have hsub2 : (marshal.typeName f.FieldType :: ps) ⊆ marshal.fieldTypeNames decls :=
        List.cons_subset.mpr ⟨structFields_typeNames decls name fields hf f hfm, hsub⟩
      have hlen := (List.subperm_of_subset hnd2 hsub2).length_le
      simp only [List.length_cons] at hlen
      exact ih e w _ hnd2 hsub2 (by simp only [List.length_cons]; omega)
    · rw [check_not_struct decls _ t v ps (fun name fields h1 h2 => ht ⟨name, fields, h1, h2⟩)]
      rfl

/-- More fuel does not change a result of the loop of the check. -/
theorem checkLoop_mono
    (r1 r2 : marshal.GoType → marshal.Value → List String → Option (Bool × marshal.Value))
    (hr : ∀ t v ps x, r1 t v ps = some x → r2 t v ps = some x)
    (decls : marshal.Decls) (ps : List String) (fields : List marshal.StructField) :
    ∀ (i : Nat) (field : Nat → marshal.Value) (x : Bool × (Nat → marshal.Value)),
      marshal.checkLoop r1 decls ps fields i field = some x →
      marshal.checkLoop r2 decls ps fields i field = some x := by
  induction fields with
  | nil => intro i field x h; exact h
  | cons f rest ih =>
    intro i field x h
    by_cases htag : f.zerovalueTag = "true"
    · rcases hft : f.FieldType with name | e
      · rw [checkLoop_named _ _ _ _ _ _ _ name hft] at h ⊢; exact ih _ _ _ h
      · by_cases hin : marshal.typeName f.FieldType ∈ ps
        · rw [checkLoop_duplicate _ _ _ _ _ _ _ e htag hft hin] at h ⊢; exact h
        · rw [checkLoop_recurse _ _ _ _ _ _ _ e htag hft hin] at h ⊢
          rcases h1 : r1 e (marshal.elemOrNew decls e (field i))
              (marshal.typeName f.FieldType :: ps) with _ | ⟨pass, ele⟩
          · rw [h1] at h; cases h
          · rw [h1] at h
            rw [hr _ _ _ _ h1]
            cases pass
            · exact h
            · exact ih _ _ _ h
    · rw [checkLoop_untagged _ _ _ _ _ _ _ htag] at h ⊢; exact ih _ _ _ h

theorem check_mono_succ (decls : marshal.Decls) : ∀ (fuel : Nat) (t : marshal.GoType)
    (v : marshal.Value) (ps : List String) (x : Bool × marshal.Value),
    marshal.ShouldNotHaveDuplicatedTypeInSamePath decls fuel t v ps = some x →
    marshal.ShouldNotHaveDuplicatedTypeInSamePath decls (fuel + 1) t v ps = some x := by
  intro fuel
  induction fuel with
  | zero => intro t v ps x h; cases h
  | succ n ih =>
    intro t v ps x h
    by_cases ht : ∃ name fields, t = marshal.GoType.named name
        ∧ marshal.structFields decls name = some fields
    · obtain ⟨name, fields, rfl, hf⟩ := ht
      rw [check_succ decls _ name fields v ps hf] at h ⊢
      rcases hl : marshal.checkLoop (marshal.ShouldNotHaveDuplicatedTypeInSamePath decls n) decls
          ps fields 0 v.fields with _ | y
      · rw [hl] at h; cases h
      · rw [hl] at h
        rw [checkLoop_mono _ _ ih decls ps fields 0 v.fields y hl]
        exact h
    · have hns := fun name fields h1 h2 => ht ⟨name, fields, h1, h2⟩
      rw [check_not_struct decls _ t v ps hns] at h ⊢
      exact h

theorem check_mono (decls : marshal.Decls) (t : marshal.GoType) (v : marshal.Value)
    (ps : List String) (x : Bool × marshal.Value) (fuel : Nat)
    (h : marshal.ShouldNotHaveDuplicatedTypeInSamePath decls fuel t v ps = some x) :
    ∀ more, fuel ≤ more →
      marshal.ShouldNotHaveDuplicatedTypeInSamePath decls more t v ps = some x := by
  intro more hle
  induction more, hle using Nat.le_induction with
  | base => exact h
  | succ m _ ih => exact check_mono_succ decls m t v ps x ih

/-- More fuel does not change a result of the loop of the update. -/
theorem updateLoop_mono (r1 r2 : marshal.GoType → marshal.Value → Option marshal.Value)
    (hr : ∀ t v x, r1 t v = some x → r2 t v = some x)
    (decls : marshal.Decls) (fields : List marshal.StructField) :
    ∀ (i : Nat) (field : Nat → marshal.Value) (x : Nat → marshal.Value),
      marshal.updateLoop r1 decls fields i field = some x →
      marshal.updateLoop r2 decls fields i field = some x := by
  induction fields with
  | nil => intro i field x h; exact h
  | cons f rest ih =>
    intro i field x h
    by_cases htag : f.zerovalueTag = "true"
    · rcases hft : f.FieldType with name | e
      · rw [updateLoop_named _ _ _ _ _ _ name hft] at h ⊢; exact ih _ _ _ h
      · rw [updateLoop_pointer _ _ _ _ _ _ e htag hft] at h ⊢
        rcases h1 : r1 e (marshal.elemOrNew decls e (field i)) with _ | ele
        · rw [h1] at h; cases h
        · rw [h1] at h
          rw [hr _ _ _ h1]
          exact ih _ _ _ h
    · rw [updateLoop_untagged _ _ _ _ _ _ htag] at h ⊢; exact ih _ _ _ h

theorem Update_mono_succ (decls : marshal.Decls) : ∀ (fuel : Nat) (t : marshal.GoType)
    (v x : marshal.Value),
    marshal.UpdateNilFieldsWithZeroValue decls fuel t v = some x →
    marshal.UpdateNilFieldsWithZeroValue decls (fuel + 1) t v = some x := by
  intro fuel
  induction fuel with
  | zero => intro t v x h; cases h
  | succ n ih =>
    intro t v x h
    by_cases ht : ∃ name fields, t = marshal.GoType.named name
        ∧ marshal.structFields decls name = some fields
    · obtain ⟨name, fields, rfl, hf⟩ := ht
      rw [Update_succ decls _ name fields v hf] at h ⊢
      rcases hl : marshal.updateLoop (marshal.UpdateNilFieldsWithZeroValue decls n) decls
          fields 0 v.fields with _ | y
      · rw [hl] at h; cases h
      · rw [hl] at h
        rw [updateLoop_mono _ _ ih decls fields 0 v.fields y hl]
        exact h
    · have hns := fun name fields h1 h2 => ht ⟨name, fields, h1, h2⟩
      rw [Update_not_struct decls _ t v hns] at h ⊢
      exact h

theorem Update_mono (decls : marshal.Decls) (t : marshal.GoType) (v x : marshal.Value)
    (fuel : Nat) (h : marshal.UpdateNilFieldsWithZeroValue decls fuel t v = some x) :
    ∀ more, fuel ≤ more → marshal.UpdateNilFieldsWithZeroValue decls more t v = some x := by
  intro more hle
  induction more, hle using Nat.le_induction with
  | base => exact h
  | succ m _ ih => exact Update_mono_succ decls m t v x ih

/-- When the loop of the check passes, the recursive call passed on every
tagged pointer field. -/
theorem checkLoop_true_fields
    (recurse : marshal.GoType → marshal.Value → List String → Option (Bool × marshal.Value))
    (decls : marshal.Decls) (ps : List String) (fields : List marshal.StructField) :
    ∀ (i : Nat) (field g : Nat → marshal.Value),
      marshal.checkLoop recurse decls ps fields i field = some (true, g) →
      ∀ f ∈ fields, f.zerovalueTag = "true" → ∀ e, f.FieldType = marshal.GoType.pointer e →
        ∃ w x, recurse e w (marshal.typeName f.FieldType :: ps) = some (true, x) := by
  induction fields with
  | nil => intro i field g _ f hf; cases hf
  | cons f rest ih =>
    intro i field g h f2 hf2 htag2 e2 hft2
    by_cases htag : f.zerovalueTag = "true"
    · rcases hft : f.FieldType with name | e
      · rw [checkLoop_named _ _ _ _ _ _ _ name hft] at h
        rcases List.mem_cons.mp hf2 with rfl | hf2
        · rw [hft] at hft2; cases hft2
        · exact ih _ _ _ h f2 hf2 htag2 e2 hft2
      · by_cases hin : marshal.typeName f.FieldType ∈ ps
        · rw [checkLoop_duplicate _ _ _ _ _ _ _ e htag hft hin] at h
          simp at h
        · rw [checkLoop_recurse _ _ _ _ _ _ _ e htag hft hin] at h
          rcases h1 : recurse e (marshal.elemOrNew decls e (field i))
              (marshal.typeName f.FieldType :: ps) with _ | ⟨pass, ele⟩
          · rw [h1] at h; cases h
          · rw [h1] at h
            cases pass
            · simp at h
            · simp only [Bool.not_true, Bool.false_eq_true, if_false] at h
              rcases List.mem_cons.mp hf2 with rfl | hf2
              · rw [hft] at hft2
                cases hft2
                exact ⟨_, _, h1⟩
              · exact ih _ _ _ h f2 hf2 htag2 e2 hft2
    · rw [checkLoop_untagged _ _ _ _ _ _ _ htag] at h
      rcases List.mem_cons.mp hf2 with rfl | hf2
      · exact absurd htag2 htag
      · exact ih _ _ _ h f2 hf2 htag2 e2 hft2

theorem updateLoop_total (recurse : marshal.GoType → marshal.Value → Option marshal.Value)
    (decls : marshal.Decls) (fields : List marshal.StructField)
    (hrec : ∀ f ∈ fields, f.zerovalueTag = "true" → ∀ e, f.FieldType = marshal.GoType.pointer e →
      ∀ w, (recurse e w).isSome = true) :
    ∀ (i : Nat) (field : Nat → marshal.Value),
      (marshal.updateLoop recurse decls fields i field).isSome = true := by
  induction fields with
  | nil => intro i field; rfl
  | cons f rest ih =>
    intro i field
    have ih2 := ih (fun g hg => hrec g (List.mem_cons_of_mem _ hg))
    by_cases htag : f.zerovalueTag = "true"
    · rcases hft : f.FieldType with name | e
      · rw [updateLoop_named _ _ _ _ _ _ name hft]; exact ih2 _ _
      · rw [updateLoop_pointer _ _ _ _ _ _ e htag hft]
        have hsome := hrec f (List.mem_cons_self _ _) htag e hft
          (marshal.elemOrNew decls e (field i))
        rcases hr : recurse e (marshal.elemOrNew decls e (field i)) with _ | ele
        · rw [hr] at hsome; cases hsome
        · exact ih2 _ _
    · rw [updateLoop_untagged _ _ _ _ _ _ htag]; exact ih2 _ _

/-- Where the check passes with some fuel, the update returns with that fuel,
on every value of the type. -/
theorem check_true_Update_total (decls : marshal.Decls) : ∀ (fuel : Nat) (t : marshal.GoType)
    (v : marshal.Value) (ps : List String) (x : marshal.Value),
    marshal.ShouldNotHaveDuplicatedTypeInSamePath decls fuel t v ps = some (true, x) →
    ∀ w, (marshal.UpdateNilFieldsWithZeroValue decls fuel t w).isSome = true := by
  intro fuel
  induction fuel with
  | zero => intro t v ps x h; cases h
  | succ n ih =>
    intro t v ps x h w
    by_cases ht : ∃ name fields, t = marshal.GoType.named name
        ∧ marshal.structFields decls name = some fields
    · obtain ⟨name, fields, rfl, hf⟩ := ht
      rw [check_succ decls _ name fields v ps hf] at h
      rw [Update_succ decls _ name fields w hf, Option.isSome_map']
      rcases hl : marshal.checkLoop (marshal.ShouldNotHaveDuplicatedTypeInSamePath decls n) decls
          ps fields 0 v.fields with _ | ⟨b, g⟩
      · rw [hl] at h; cases h
      · rw [hl] at h
        simp only [Option.map_some', Option.some.injEq, Prod.mk.injEq] at h
        obtain ⟨hb, _⟩ := h
        subst hb
        apply updateLoop_total
        intro f hfm htag e hft w2
        obtain ⟨w3, x3, h3⟩ := checkLoop_true_fields _ decls ps fields 0 v.fields g hl f hfm
          htag e hft
        exact ih e w3 _ x3 h3 w2
    · rw [Update_not_struct decls _ t w (fun name fields h1 h2 => ht ⟨name, fields, h1, h2⟩)]
      rfl

/-- When a field that leads to a duplicate is among the fields, the loop of the
check does not pass. -/
theorem checkLoop_false_of_field
    (recurse : marshal.GoType → marshal.Value → List String → Option (Bool × marshal.Value))
    (decls : marshal.Decls) (ps : List String) (fields : List marshal.StructField)
    (f : marshal.StructField) (e : marshal.GoType) (hf : f ∈ fields)
    (htag : f.zerovalueTag = "true") (hft : f.FieldType = marshal.GoType.pointer e)
    (hbad : marshal.typeName f.FieldType ∈ ps
      ∨ ∀ w r, recurse e w (marshal.typeName f.FieldType :: ps) = some r → r.1 = false) :
    ∀ (i : Nat) (field : Nat → marshal.Value) (r : Bool × (Nat → marshal.Value)),
      marshal.checkLoop recurse decls ps fields i field = some r → r.1 = false := by
  induction fields with
  | nil => cases hf
  | cons g rest ih =>
    intro i field r h
    by_cases hgf : g = f
    · subst hgf
      by_cases hin : marshal.typeName g.FieldType ∈ ps
      · rw [checkLoop_duplicate _ _ _ _ _ _ _ e htag hft hin] at h
        rw [← Option.some.inj h]
      · rw [checkLoop_recurse _ _ _ _ _ _ _ e htag hft hin] at h
        rcases hbad with hbad | hbad
        · exact absurd hbad hin
        · rcases h1 : recurse e (marshal.elemOrNew decls e (field i))
              (marshal.typeName g.FieldType :: ps) with _ | ⟨pass, ele⟩
          · rw [h1] at h; cases h
          · rw [h1] at h
            have hp : pass = false := hbad _ _ h1
            subst hp
            simp only [Bool.not_false, if_true] at h
            rw [← Option.some.inj h]
    · have hf2 : f ∈ rest := by
        rcases List.mem_cons.mp hf with h1 | h1
        · exact absurd h1.symm hgf
        · exact h1
      by_cases hgtag : g.zerovalueTag = "true"
      · rcases hgft : g.FieldType with name | e2
        · rw [checkLoop_named _ _ _ _ _ _ _ name hgft] at h
          exact ih hf2 _ _ _ h
        · by_cases hin : marshal.typeName g.FieldType ∈ ps
          · rw [checkLoop_duplicate _ _ _ _ _ _ _ e2 hgtag hgft hin] at h
            rw [← Option.some.inj h]
          · rw [checkLoop_recurse _ _ _ _ _ _ _ e2 hgtag hgft hin] at h
            rcases h1 : recurse e2 (marshal.elemOrNew decls e2 (field i))
                (marshal.typeName g.FieldType :: ps) with _ | ⟨pass, ele⟩
            · rw [h1] at h; cases h
            · rw [h1] at h
              cases pass
              · simp only [Bool.not_false, if_true] at h
                rw [← Option.some.inj h]
              · simp only [Bool.not_true, Bool.false_eq_true, if_false] at h
                exact ih hf2 _ _ _ h
      · rw [checkLoop_untagged _ _ _ _ _ _ _ hgtag] at h
        exact ih hf2 _ _ _ h

theorem check_false_of_duplicate (decls : marshal.Decls) (t : marshal.GoType)
    (ps : List String) (hdup : marshal.DuplicatedOnPath decls t ps) :
    ∀ (fuel : Nat) (v : marshal.Value) (r : Bool × marshal.Value),
      marshal.ShouldNotHaveDuplicatedTypeInSamePath decls fuel t v ps = some r → r.1 = false := by
  induction hdup with
  | here name fields f e ps hf hfm htag hft hin =>
    intro fuel v r h
    cases fuel with
    | zero => cases h
    | succ n =>
      rw [check_succ decls _ name fields v ps hf] at h
      rcases hl : marshal.checkLoop (marshal.ShouldNotHaveDuplicatedTypeInSamePath decls n) decls
          ps fields 0 v.fields with _ | y
      · rw [hl] at h; cases h
      · rw [hl] at h
        rw [← Option.some.inj h]
        exact checkLoop_false_of_field _ decls ps fields f e hfm htag hft (Or.inl hin) _ _ _ hl
  | deeper name fields f e ps hf hfm htag hft _ ih =>
    intro fuel v r h
    cases fuel with
    | zero => cases h
    | succ n =>
      rw [check_succ decls _ name fields v ps hf] at h
      rcases hl : marshal.checkLoop (marshal.ShouldNotHaveDuplicatedTypeInSamePath decls n) decls
          ps fields 0 v.fields with _ | y
      · rw [hl] at h; cases h
      · rw [hl] at h
        rw [← Option.some.inj h]
        exact checkLoop_false_of_field _ decls ps fields f e hfm htag hft
          (Or.inr (fun w r2 h2 => ih n w r2 h2)) _ _ _ hl

/-- C24: the duplicated-type check guards termination.  For every program and
every value, `ShouldNotHaveDuplicatedTypeInSamePath` on the empty set returns
once the fuel exceeds the number of declared fields, with a result that more
fuel does not change; whenever it returns true, `UpdateNilFieldsWithZeroValue`
returns on every value of that type, with a result that more fuel does not
change; and when a tagged pointer field's type occurs twice on one path of
tagged pointer fields, as for a struct with a tagged pointer field of its own
type, the check returns false. -/
theorem C24_check_guards_termination (decls : marshal.Decls) (t : marshal.GoType)
    (v : marshal.Value) :
    (∃ r, ∀ fuel, (marshal.fieldTypeNames decls).length + 1 ≤ fuel →
        marshal.ShouldNotHaveDuplicatedTypeInSamePath decls fuel t v [] = some r)
      ∧ (∀ fuel x, marshal.ShouldNotHaveDuplicatedTypeInSamePath decls fuel t v [] = some (true, x) →
          ∀ w, ∃ y, ∀ more, fuel ≤ more →
            marshal.UpdateNilFieldsWithZeroValue decls more t w = some y)
      ∧ (marshal.DuplicatedOnPath decls t [] →
          ∃ x, ∀ fuel, (marshal.fieldTypeNames decls).length + 1 ≤ fuel →
            marshal.ShouldNotHaveDuplicatedTypeInSamePath decls fuel t v [] = some (false, x))
      ∧ (∀ name fields f, t = marshal.GoType.named name →
          marshal.structFields decls name = some fields → f ∈ fields →
          f.zerovalueTag = "true" →
          f.FieldType = marshal.GoType.pointer (marshal.GoType.named name) →
          ∃ x, ∀ fuel, (marshal.fieldTypeNames decls).length + 1 ≤ fuel →
            marshal.ShouldNotHaveDuplicatedTypeInSamePath decls fuel t v [] = some (false, x)) := by
  have hterm : ∃ r, ∀ fuel, (marshal.fieldTypeNames decls).length + 1 ≤ fuel →
      marshal.ShouldNotHaveDuplicatedTypeInSamePath decls fuel t v [] = some r := by
    have hsome := check_total decls (marshal.fieldTypeNames decls).length t v []
      List.nodup_nil (List.nil_subset _) (by simp)
    rcases hr : marshal.ShouldNotHaveDuplicatedTypeInSamePath decls
        ((marshal.fieldTypeNames decls).length + 1) t v [] with _ | r
    · rw [hr] at hsome; cases hsome
    · exact ⟨r, fun fuel hle => check_mono decls t v [] r _ hr fuel hle⟩
  have hfalse : marshal.DuplicatedOnPath decls t [] →
      ∃ x, ∀ fuel, (marshal.fieldTypeNames decls).length + 1 ≤ fuel →
        marshal.ShouldNotHaveDuplicatedTypeInSamePath decls fuel t v [] = some (false, x) := by
    intro hdup
    obtain ⟨r, hr⟩ := hterm
    have hb : r.1 = false := check_false_of_duplicate decls t [] hdup _ v r (hr _ (le_refl _))
    refine ⟨r.2, fun fuel hle => ?_⟩
    rw [hr fuel hle, ← hb]
  refine ⟨hterm, ?_, hfalse, ?_⟩
  · intro fuel x h w
    have hsome := check_true_Update_total decls fuel t v [] x h w
    rcases hr : marshal.UpdateNilFieldsWithZeroValue decls fuel t w with _ | y
    · rw [hr] at hsome; cases hsome
    · exact ⟨y, fun more hle => Update_mono decls t w y fuel hr more hle⟩
  · intro name fields f ht hf hfm htag hft
    subst ht
    apply hfalse
    refine marshal.DuplicatedOnPath.deeper name fields f (marshal.GoType.named name) [] hf hfm
      htag hft ?_
    exact marshal.DuplicatedOnPath.here name fields f (marshal.GoType.named name) _ hf hfm htag
      hft (List.mem_cons_self _ _)

/-! ## Zero values for nil fields: what the update changes -/

/-- What the loop of the update leaves in each field. -/
theorem updateLoop_spec (recurse : marshal.GoType → marshal.Value → Option marshal.Value)
    (decls : marshal.Decls) (fields : List marshal.StructField) :
    ∀ (i0 : Nat) (field g : Nat → marshal.Value),
      marshal.updateLoop recurse decls fields i0 field = some g →
      (∀ j, j < i0 → g j = field j)
        ∧ ∀ k f, fields[k]? = some f →
          (f.zerovalueTag = "true" → ∀ e, f.FieldType = marshal.GoType.pointer e →
              ∃ ele, g (i0 + k) = marshal.Value.ptr ele
                ∧ recurse e (marshal.elemOrNew decls e (field (i0 + k))) = some ele)
            ∧ (¬ (f.zerovalueTag = "true" ∧ ∃ e, f.FieldType = marshal.GoType.pointer e) →
                g (i0 + k) = field (i0 + k)) := by
  induction fields with
  | nil =>
    intro i0 field g h
    simp only [marshal.updateLoop, Option.some.injEq] at h
    subst h
    exact ⟨fun _ _ => rfl, fun k f hk => by simp at hk⟩
  | cons f0 rest ih =>
    intro i0 field g h
    have hskip : marshal.updateLoop recurse decls rest (i0 + 1) field = some g →
        ¬ (f0.zerovalueTag = "true" ∧ ∃ e, f0.FieldType = marshal.GoType.pointer e) →
        (∀ j, j < i0 → g j = field j)
          ∧ ∀ k f, (f0 :: rest)[k]? = some f →
            (f.zerovalueTag = "true" → ∀ e, f.FieldType = marshal.GoType.pointer e →
                ∃ ele, g (i0 + k) = marshal.Value.ptr ele
                  ∧ recurse e (marshal.elemOrNew decls e (field (i0 + k))) = some ele)
              ∧ (¬ (f.zerovalueTag = "true" ∧ ∃ e, f.FieldType = marshal.GoType.pointer e) →
                  g (i0 + k) = field (i0 + k)) := by
      intro h2 hno
      obtain ⟨ih1, ih2⟩ := ih (i0 + 1) field g h2
      refine ⟨fun j hj => ih1 j (by omega), ?_⟩
      intro k f hk
      cases k with
      | zero =>
        simp only [List.getElem?_cons_zero, Option.some.injEq] at hk
        subst hk
        exact ⟨fun htag e hft => absurd ⟨htag, e, hft⟩ hno, fun _ => ih1 i0 (by omega)⟩
      | succ k =>
        simp only [List.getElem?_cons_succ] at hk
        have h3 := ih2 k f hk
        have harith : i0 + 1 + k = i0 + (k + 1) := by omega
        rw [harith] at h3
        exact h3
    by_cases htag : f0.zerovalueTag = "true"
    · rcases hft : f0.FieldType with name | e0
      · rw [updateLoop_named _ _ _ _ _ _ name hft] at h
        exact hskip h (fun ⟨_, e, he⟩ => by rw [hft] at he; cases he)
      · rw [updateLoop_pointer _ _ _ _ _ _ e0 htag hft] at h
        rcases h1 : recurse e0 (marshal.elemOrNew decls e0 (field i0)) with _ | ele
        · rw [h1] at h; cases h
        · rw [h1] at h
          obtain ⟨ih1, ih2⟩ := ih (i0 + 1) _ g h
          refine ⟨fun j hj => ?_, ?_⟩
          · rw [ih1 j (by omega), Function.update_noteq (by omega)]
          · intro k f hk
            cases k with
            | zero =>
              simp only [List.getElem?_cons_zero, Option.some.injEq] at hk
              subst hk
              refine ⟨fun _ e he => ?_, fun hno => absurd ⟨htag, e0, hft⟩ hno⟩
              rw [hft] at he
              cases he
              refine ⟨ele, ?_, h1⟩
              rw [Nat.add_zero, ih1 i0 (by omega), Function.update_same]
            | succ k =>
              simp only [List.getElem?_cons_succ] at hk
              have h3 := ih2 k f hk
              have harith : i0 + 1 + k = i0 + (k + 1) := by omega
              rw [harith, Function.update_noteq (by omega)] at h3
              exact h3
    · rw [updateLoop_untagged _ _ _ _ _ _ htag] at h
      exact hskip h (fun ⟨ht, _⟩ => htag ht)

/-- What the update leaves in each field of a struct. -/
theorem Update_spec (decls : marshal.Decls) (fuel : Nat) (name : String)
    (fields : List marshal.StructField) (v x : marshal.Value)
    (hf : marshal.structFields decls name = some fields)
    (h : marshal.UpdateNilFieldsWithZeroValue decls fuel (marshal.GoType.named name) v = some x) :
    ∃ n, fuel = n + 1 ∧ ∀ k f, fields[k]? = some f →
      (f.zerovalueTag = "true" → ∀ e, f.FieldType = marshal.GoType.pointer e →
          ∃ ele, x.fields k = marshal.Value.ptr ele
            ∧ marshal.UpdateNilFieldsWithZeroValue decls n e
                (marshal.elemOrNew decls e (v.fields k)) = some ele)
        ∧ (¬ (f.zerovalueTag = "true" ∧ ∃ e, f.FieldType = marshal.GoType.pointer e) →
            x.fields k = v.fields k) := by
  cases fuel with
  | zero => cases h
  | succ n =>
    refine ⟨n, rfl, ?_⟩
    rw [Update_succ decls _ name fields v hf] at h
    rcases hl : marshal.updateLoop (marshal.UpdateNilFieldsWithZeroValue decls n) decls fields 0
        v.fields with _ | g
    · rw [hl] at h; cases h
    · rw [hl] at h
      simp only [Option.map_some', Option.some.injEq] at h
      subst h
      intro k f hk
      have h3 := (updateLoop_spec _ decls fields 0 v.fields g hl).2 k f hk
      simp only [Nat.zero_add] at h3
      exact h3

theorem follow_cons (decls : marshal.Decls) (i : Nat) (rest : List Nat) (name : String)
    (fields : List marshal.StructField) (f : marshal.StructField) (e : marshal.GoType)
    (v : marshal.Value) (hf : marshal.structFields decls name = some fields)
    (hk : fields[i]? = some f) (htag : f.zerovalueTag = "true")
    (hft : f.FieldType = marshal.GoType.pointer e) :
    marshal.follow decls (i :: rest) (marshal.GoType.named name) v
      = match v.fields i with
        | marshal.Value.ptr target => marshal.follow decls rest e target
        | _ => none := by
  simp only [marshal.follow, hf, hk, htag, hft, if_true]

theorem follow_cons_inv (decls : marshal.Decls) (i : Nat) (rest : List Nat) (t : marshal.GoType)
    (v : marshal.Value) (x : marshal.GoType × marshal.Value)
    (h : marshal.follow decls (i :: rest) t v = some x) :
    ∃ name fields f e target, t = marshal.GoType.named name
      ∧ marshal.structFields decls name = some fields ∧ fields[i]? = some f
      ∧ f.zerovalueTag = "true" ∧ f.FieldType = marshal.GoType.pointer e
      ∧ v.fields i = marshal.Value.ptr target
      ∧ marshal.follow decls rest e target = some x := by
  cases t with
  | pointer e => simp [marshal.follow] at h
  | named name =>
    cases hf : marshal.structFields decls name with
    | none => simp [marshal.follow, hf] at h
    | some fields =>
      cases hk : fields[i]? with
      | none => simp [marshal.follow, hf, hk] at h
      | some f =>
        by_cases htag : f.zerovalueTag = "true"
        · rcases hft : f.FieldType with n2 | e
          · simp [marshal.follow, hf, hk, htag, hft] at h
          · rw [follow_cons decls i rest name fields f e v hf hk htag hft] at h
            rcases hv : v.fields i with _ | target | g | o
            · rw [hv] at h; cases h
            · rw [hv] at h
              exact ⟨name, fields, f, e, target, rfl, hf, hk, htag, hft, rfl, h⟩
            · rw [hv] at h; cases h
            · rw [hv] at h; cases h
        · simp [marshal.follow, hf, hk, htag] at h

theorem follow_zeroValue (decls : marshal.Decls) (path : List Nat) (e : marshal.GoType)
    (x : marshal.GoType × marshal.Value)
    (h : marshal.follow decls path e (marshal.zeroValue decls e) = some x) :
    path = [] ∧ x = (e, marshal.zeroValue decls e) := by
  cases path with
  | nil =>
    simp only [marshal.follow, Option.some.injEq] at h
    exact ⟨rfl, h.symm⟩
  | cons i rest =>
    exfalso
    obtain ⟨name, fields, f, e2, target, rfl, hf, hk, _, hft, hv, _⟩ :=
      follow_cons_inv decls i rest e _ x h
    simp only [marshal.zeroValue, hf, marshal.Value.fields, hk, hft, marshal.zeroField] at hv
    cases hv

theorem zeroValue_fields (decls : marshal.Decls) (name : String)
    (fields : List marshal.StructField) (f : marshal.StructField) (i : Nat)
    (hf : marshal.structFields decls name = some fields) (hk : fields[i]? = some f) :
    (marshal.zeroValue decls (marshal.GoType.named name)).fields i
      = marshal.zeroField f.FieldType := by
  simp only [marshal.zeroValue, hf, marshal.Value.fields, hk]

theorem elemOrNew_not_ptr (decls : marshal.Decls) (e : marshal.GoType) (x : marshal.Value)
    (hx : ∀ target, x ≠ marshal.Value.ptr target) :
    marshal.elemOrNew decls e x = marshal.zeroValue decls e := by
  cases x with
  | ptr target => exact absurd rfl (hx target)
  | nil => rfl
  | struct g => rfl
  | other o => rfl

theorem follow_cons_not_ptr (decls : marshal.Decls) (i : Nat) (rest : List Nat)
    (t : marshal.GoType) (v : marshal.Value)
    (hx : ∀ target, v.fields i ≠ marshal.Value.ptr target) :
    marshal.follow decls (i :: rest) t v = none := by
  cases h : marshal.follow decls (i :: rest) t v with
  | none => rfl
  | some x =>
    obtain ⟨_, _, _, _, target, _, _, _, _, _, hv, _⟩ := follow_cons_inv decls i rest t v x h
    exact absurd hv (hx target)

/-- On a type that is not a struct the update returns its argument. -/
theorem Update_some_not_struct (decls : marshal.Decls) (fuel : Nat) (t : marshal.GoType)
    (v x : marshal.Value)
    (ht : ∀ name fields, t = marshal.GoType.named name →
      marshal.structFields decls name ≠ some fields)
    (h : marshal.UpdateNilFieldsWithZeroValue decls fuel t v = some x) : x = v := by
  cases fuel with
  | zero => cases h
  | succ n =>
    rw [Update_not_struct decls n t v ht] at h
    exact (Option.some.inj h).symm

/-- What the update does along every path of tagged pointer fields. -/
theorem Update_follow (decls : marshal.Decls) : ∀ (path : List Nat) (fuel : Nat)
    (t : marshal.GoType) (v x : marshal.Value),
    marshal.UpdateNilFieldsWithZeroValue decls fuel t v = some x →
    (∀ t0 node, marshal.follow decls path t v = some (t0, node) →
        ∃ node1, marshal.follow decls path t x = some (t0, node1))
      ∧ ∀ name fields node1,
          marshal.follow decls path t x = some (marshal.GoType.named name, node1) →
          marshal.structFields decls name = some fields →
          ∀ i f, fields[i]? = some f →
            (f.zerovalueTag = "true" → ∀ e, f.FieldType = marshal.GoType.pointer e →
                ∃ y, node1.fields i = marshal.Value.ptr y
                  ∧ (∀ t0 node, marshal.follow decls path t v = some (t0, node) →
                      ∃ n, marshal.UpdateNilFieldsWithZeroValue decls n e
                        (marshal.elemOrNew decls e (node.fields i)) = some y)
                  ∧ (marshal.follow decls path t v = none →
                      ∃ n, marshal.UpdateNilFieldsWithZeroValue decls n e
                        (marshal.zeroValue decls e) = some y))
              ∧ (¬ (f.zerovalueTag = "true" ∧ ∃ e, f.FieldType = marshal.GoType.pointer e) →
                  (∀ t0 node, marshal.follow decls path t v = some (t0, node) →
                      node1.fields i = node.fields i)
                    ∧ (marshal.follow decls path t v = none →
                        node1.fields i = marshal.zeroField f.FieldType)) := by
  intro path
  induction path with
  | nil =>
    intro fuel t v x h
    refine ⟨fun t0 node hn => ?_, ?_⟩
    · simp only [marshal.follow, Option.some.injEq, Prod.mk.injEq] at hn
      exact ⟨x, by simp only [marshal.follow, hn.1]⟩
    · intro name fields node1 hn hf i f hk
      simp only [marshal.follow, Option.some.injEq, Prod.mk.injEq] at hn
      obtain ⟨rfl, rfl⟩ := hn
      obtain ⟨n, _, hspec⟩ := Update_spec decls fuel name fields v x hf h
      obtain ⟨h1, h2⟩ := hspec i f hk
      refine ⟨fun htag e hft => ?_, fun hno => ⟨fun t0 node hn2 => ?_, fun hn2 => ?_⟩⟩
      · obtain ⟨ele, he, hrec⟩ := h1 htag e hft
        refine ⟨ele, he, fun t0 node hn2 => ?_, fun hn2 => ?_⟩
        · simp only [marshal.follow, Option.some.injEq, Prod.mk.injEq] at hn2
          rw [← hn2.2]
          exact ⟨n, hrec⟩
        · simp [marshal.follow] at hn2
      · simp only [marshal.follow, Option.some.injEq, Prod.mk.injEq] at hn2
        rw [← hn2.2]
        exact h2 hno
      · simp [marshal.follow] at hn2
  | cons i rest ih =>
    intro fuel t v x h
    refine ⟨fun t0 node hn => ?_, ?_⟩
    · obtain ⟨name, fields, f, e, target, rfl, hf, hk, htag, hft, hv, hfol⟩ :=
        follow_cons_inv decls i rest t v _ hn
      obtain ⟨n, _, hspec⟩ := Update_spec decls fuel name fields v x hf h
      obtain ⟨ele, hx, hrec⟩ := (hspec i f hk).1 htag e hft
      rw [hv] at hrec
      obtain ⟨node1, hnode1⟩ := (ih n e target ele hrec).1 t0 node hfol
      refine ⟨node1, ?_⟩
      rw [follow_cons decls i rest name fields f e x hf hk htag hft, hx]
      exact hnode1
    · intro name2 fields2 node1 hn hf2 i2 f2 hk2
      obtain ⟨name, fields, f, e, target1, rfl, hf, hk, htag, hft, hx, hfol⟩ :=
        follow_cons_inv decls i rest t x _ hn
      obtain ⟨n, _, hspec⟩ := Update_spec decls fuel name fields v x hf h
      obtain ⟨ele, hx2, hrec⟩ := (hspec i f hk).1 htag e hft
      rw [hx] at hx2
      have hele : target1 = ele := by
        injection hx2
      subst hele
      obtain ⟨hB1, hB2⟩ := (ih n e _ target1 hrec).2 name2 fields2 node1 hfol hf2 i2 f2 hk2
      by_cases hptr : ∃ target, v.fields i = marshal.Value.ptr target
      · obtain ⟨target, hv⟩ := hptr
        have hfv : marshal.follow decls (i :: rest) (marshal.GoType.named name) v
            = marshal.follow decls rest e target := by
          rw [follow_cons decls i rest name fields f e v hf hk htag hft, hv]
        rw [hv] at hB1 hB2
        rw [hfv]
        exact ⟨hB1, hB2⟩
      · have hnp : ∀ target, v.fields i ≠ marshal.Value.ptr target :=
          fun target ht => hptr ⟨target, ht⟩
        rw [follow_cons_not_ptr decls i rest _ v hnp]
        rw [elemOrNew_not_ptr decls e _ hnp] at hB1 hB2
        refine ⟨fun htag2 e2 hft2 => ?_, fun hno => ?_⟩
        · obtain ⟨y, hy, hD1, hD2⟩ := hB1 htag2 e2 hft2
          refine ⟨y, hy, fun t0 node hc => (by cases hc), fun _ => ?_⟩
          cases hz : marshal.follow decls rest e (marshal.zeroValue decls e) with
          | none => exact hD2 hz
          | some z =>
            obtain ⟨hrest, hzeq⟩ := follow_zeroValue decls rest e z hz
            subst hrest
            subst hzeq
            obtain ⟨n2, hn2⟩ := hD1 _ _ hz
            simp only [marshal.follow, Option.some.injEq, Prod.mk.injEq] at hfol
            rw [hfol.1, zeroValue_fields decls name2 fields2 f2 i2 hf2 hk2, hft2] at hn2
            exact ⟨n2, hn2⟩
        · obtain ⟨hC1, hC2⟩ := hB2 hno
          refine ⟨fun t0 node hc => (by cases hc), fun _ => ?_⟩
          cases hz : marshal.follow decls rest e (marshal.zeroValue decls e) with
          | none => exact hC2 hz
          | some z =>
            obtain ⟨hrest, hzeq⟩ := follow_zeroValue decls rest e z hz
            subst hrest
            subst hzeq
            rw [hC1 _ _ hz]
            simp only [marshal.follow, Option.some.injEq, Prod.mk.injEq] at hfol
            rw [hfol.1]
            exact zeroValue_fields decls name2 fields2 f2 i2 hf2 hk2

/-- C25: `UpdateNilFieldsWithZeroValue` fills exactly the nil tagged fields.
Whenever it returns: a value whose type is not a struct is returned as it is;
and along every path of tagged pointer fields from the root, a struct that was
there before is still there, and in every struct reached afterwards

* each pointer field tagged `default_zero_value:"true"` is non-nil, and what it
  points to is the result of the same update on what the field pointed to
  before, or on a new zero value of the element type when the field was nil or
  the struct itself is new (`elemOrNew`); when the element type is not a struct
  that is exactly the old target, or exactly the zero value;
* every other field is unchanged when the struct was there before, and is the
  zero value of its type when the struct is new. -/
theorem C25_Update_fills_nil_tagged (decls : marshal.Decls) (fuel : Nat) (t : marshal.GoType)
    (v x : marshal.Value)
    (h : marshal.UpdateNilFieldsWithZeroValue decls fuel t v = some x) (path : List Nat) :
    ((∀ name fields, t = marshal.GoType.named name →
        marshal.structFields decls name ≠ some fields) → x = v)
      ∧ (∀ t0 node, marshal.follow decls path t v = some (t0, node) →
        ∃ node1, marshal.follow decls path t x = some (t0, node1))
      ∧ ∀ name fields node1,
          marshal.follow decls path t x = some (marshal.GoType.named name, node1) →
          marshal.structFields decls name = some fields →
          ∀ i f, fields[i]? = some f →
            (f.zerovalueTag = "true" → ∀ e, f.FieldType = marshal.GoType.pointer e →
                ∃ y, node1.fields i = marshal.Value.ptr y
                  ∧ (∀ t0 node, marshal.follow decls path t v = some (t0, node) →
                      (∃ n, marshal.UpdateNilFieldsWithZeroValue decls n e
                          (marshal.elemOrNew decls e (node.fields i)) = some y)
                        ∧ ((∀ name2 fields2, e = marshal.GoType.named name2 →
                              marshal.structFields decls name2 ≠ some fields2) →
                            y = marshal.elemOrNew decls e (node.fields i)))
                  ∧ (marshal.follow decls path t v = none →
                      (∃ n, marshal.UpdateNilFieldsWithZeroValue decls n e
                          (marshal.zeroValue decls e) = some y)
                        ∧ ((∀ name2 fields2, e = marshal.GoType.named name2 →
                              marshal.structFields decls name2 ≠ some fields2) →
                            y = marshal.zeroValue decls e)))
              ∧ (¬ (f.zerovalueTag = "true" ∧ ∃ e, f.FieldType = marshal.GoType.pointer e) →
                  (∀ t0 node, marshal.follow decls path t v = some (t0, node) →
                      node1.fields i = node.fields i)
                    ∧ (marshal.follow decls path t v = none →
                        node1.fields i = marshal.zeroField f.FieldType)) := by
  obtain ⟨hA, hB⟩ := Update_follow decls path fuel t v x h
  refine ⟨fun ht => Update_some_not_struct decls fuel t v x ht h, hA, ?_⟩
  intro name fields node1 hn hf i f hk
  obtain ⟨h1, h2⟩ := hB name fields node1 hn hf i f hk
  refine ⟨fun htag e hft => ?_, h2⟩
  obtain ⟨y, hy, hD1, hD2⟩ := h1 htag e hft
  refine ⟨y, hy, fun t0 node hfol => ?_, fun hnone => ?_⟩
  · obtain ⟨n, hn2⟩ := hD1 t0 node hfol
    exact ⟨⟨n, hn2⟩, fun he => Update_some_not_struct decls n e _ y he hn2⟩
  · obtain ⟨n, hn2⟩ := hD2 hnone
    exact ⟨⟨n, hn2⟩, fun he => Update_some_not_struct decls n e _ y he hn2⟩

/-- C25 on a configuration whose pointer to its limits is nil, and on limits
whose maximum is set: afterwards the new limits are there, their tagged pointer
points to the zero value and their note is zero, and the name of the
configuration is as before; the maximum that was set is still the same value
and the note next to it is unchanged. -/
theorem C25_Update_fills_nil_tagged_witness :
    marshal.UpdateNilFieldsWithZeroValue marshal.sampleDecls 3 (marshal.GoType.named "Config")
        marshal.sampleConfig = some marshal.sampleFilled
      ∧ marshal.follow marshal.sampleDecls [1] (marshal.GoType.named "Config")
          marshal.sampleConfig = none
      ∧ (∃ y, (marshal.elemOrNew marshal.sampleDecls (marshal.GoType.named "Limits")
            (marshal.sampleFilled.fields 1)).fields 0 = marshal.Value.ptr y
          ∧ y = marshal.Value.other none)
      ∧ (marshal.elemOrNew marshal.sampleDecls (marshal.GoType.named "Limits")
          (marshal.sampleFilled.fields 1)).fields 1 = marshal.Value.other none
      ∧ marshal.sampleFilled.fields 0 = marshal.Value.other (some "main")
      ∧ marshal.UpdateNilFieldsWithZeroValue marshal.sampleDecls 2 (marshal.GoType.named "Limits")
          marshal.sampleLimits = some marshal.sampleLimitsAfter
      ∧ (∃ y, marshal.sampleLimitsAfter.fields 0 = marshal.Value.ptr y
          ∧ y = marshal.Value.other (some "7"))
      ∧ marshal.sampleLimitsAfter.fields 1 = marshal.Value.other (some "keep") :=
  have h := C25_Update_fills_nil_tagged marshal.sampleDecls 3 (marshal.GoType.named "Config")
    marshal.sampleConfig marshal.sampleFilled rfl
  have h1 := (h [1]).2.2 "Limits" _
    (marshal.elemOrNew marshal.sampleDecls (marshal.GoType.named "Limits")
      (marshal.sampleFilled.fields 1)) rfl rfl
  have hint : ∀ name2 fields2, marshal.GoType.named "int" = marshal.GoType.named name2 →
      marshal.structFields marshal.sampleDecls name2 ≠ some fields2 := by
    intro name2 fields2 hname
    injection hname with hname
    subst hname
    have hnone : marshal.structFields marshal.sampleDecls "int" = none := rfl
    rw [hnone]
    exact fun hc => Option.noConfusion hc
  have g := C25_Update_fills_nil_tagged marshal.sampleDecls 2 (marshal.GoType.named "Limits")
    marshal.sampleLimits marshal.sampleLimitsAfter rfl []
  have g1 := g.2.2 "Limits" _ marshal.sampleLimitsAfter rfl rfl
  ⟨rfl, rfl,
    (let ⟨y, hy, _, hD2⟩ := (h1 0 _ rfl).1 rfl (marshal.GoType.named "int") rfl
     ⟨y, hy, (hD2 rfl).2 hint⟩),
    ((h1 1 _ rfl).2 (fun hc => absurd hc.1 (by decide))).2 rfl,
    (((h []).2.2 "Config" _ marshal.sampleFilled rfl rfl 0 _ rfl).2
      (fun hc => absurd hc.1 (by decide))).1 _ _ rfl,
    rfl,
    (let ⟨y, hy, hD1, _⟩ := (g1 0 _ rfl).1 rfl (marshal.GoType.named "int") rfl
     ⟨y, hy, (hD1 _ _ rfl).2 hint⟩),
    ((g1 1 _ rfl).2 (fun hc => absurd hc.1 (by decide))).1 _ _ rfl⟩

end SkygearSession
